import Mathlib

/-!
# jedql record access engine

A shallow embedding of the record handler of jedql (src/record/handler.js) together with the
helpers it imports from src/types.js and src/utils.js, followed by the properties of the
handler that are established from that embedding.

JavaScript values are an algebraic data type, objects are insertion-ordered association lists,
a thrown exception is the error side of a result, and every mutation of a record is made
explicit by returning the record as it stands after the call.
-/

set_option autoImplicit false

namespace Jedql

/-! ## Values -/

/-- JavaScript values that can be stored in a record: the primitives, dates (by time value),
arrays and plain objects (own enumerable string-keyed entries, in insertion order). -/
inductive Value where
  | undefined
  | null
  | bool (b : Bool)
  | num (n : Int)
  | str (s : String)
  | date (t : Int)
  | arr (xs : List Value)
  | obj (kvs : List (String × Value))

namespace Value

mutual
/-- Structural equality of values is decidable. -/
def decEq : (a b : Value) → Decidable (a = b)
  | .undefined, .undefined => isTrue rfl
  | .null, .null => isTrue rfl
  | .bool a, .bool b => if h : a = b then isTrue (h ▸ rfl) else isFalse (fun e => h (by cases e; rfl))
  | .num a, .num b => if h : a = b then isTrue (h ▸ rfl) else isFalse (fun e => h (by cases e; rfl))
  | .str a, .str b => if h : a = b then isTrue (h ▸ rfl) else isFalse (fun e => h (by cases e; rfl))
  | .date a, .date b => if h : a = b then isTrue (h ▸ rfl) else isFalse (fun e => h (by cases e; rfl))
  | .arr a, .arr b =>
    match decEqList a b with
    | isTrue h => isTrue (h ▸ rfl)
    | isFalse h => isFalse (fun e => h (by cases e; rfl))
  | .obj a, .obj b =>
    match decEqEntries a b with
    | isTrue h => isTrue (h ▸ rfl)
    | isFalse h => isFalse (fun e => h (by cases e; rfl))
  | .undefined, .null => isFalse nofun
  | .undefined, .bool _ => isFalse nofun
  | .undefined, .num _ => isFalse nofun
  | .undefined, .str _ => isFalse nofun
  | .undefined, .date _ => isFalse nofun
  | .undefined, .arr _ => isFalse nofun
  | .undefined, .obj _ => isFalse nofun
  | .null, .undefined => isFalse nofun
  | .null, .bool _ => isFalse nofun
  | .null, .num _ => isFalse nofun
  | .null, .str _ => isFalse nofun
  | .null, .date _ => isFalse nofun
  | .null, .arr _ => isFalse nofun
  | .null, .obj _ => isFalse nofun
  | .bool _, .undefined => isFalse nofun
  | .bool _, .null => isFalse nofun
  | .bool _, .num _ => isFalse nofun
  | .bool _, .str _ => isFalse nofun
  | .bool _, .date _ => isFalse nofun
  | .bool _, .arr _ => isFalse nofun
  | .bool _, .obj _ => isFalse nofun
  | .num _, .undefined => isFalse nofun
  | .num _, .null => isFalse nofun
  | .num _, .bool _ => isFalse nofun
  | .num _, .str _ => isFalse nofun
  | .num _, .date _ => isFalse nofun
  | .num _, .arr _ => isFalse nofun
  | .num _, .obj _ => isFalse nofun
  | .str _, .undefined => isFalse nofun
  | .str _, .null => isFalse nofun
  | .str _, .bool _ => isFalse nofun
  | .str _, .num _ => isFalse nofun
  | .str _, .date _ => isFalse nofun
  | .str _, .arr _ => isFalse nofun
  | .str _, .obj _ => isFalse nofun
  | .date _, .undefined => isFalse nofun
  | .date _, .null => isFalse nofun
  | .date _, .bool _ => isFalse nofun
  | .date _, .num _ => isFalse nofun
  | .date _, .str _ => isFalse nofun
  | .date _, .arr _ => isFalse nofun
  | .date _, .obj _ => isFalse nofun
  | .arr _, .undefined => isFalse nofun
  | .arr _, .null => isFalse nofun
  | .arr _, .bool _ => isFalse nofun
  | .arr _, .num _ => isFalse nofun
  | .arr _, .str _ => isFalse nofun
  | .arr _, .date _ => isFalse nofun
  | .arr _, .obj _ => isFalse nofun
  | .obj _, .undefined => isFalse nofun
  | .obj _, .null => isFalse nofun
  | .obj _, .bool _ => isFalse nofun
  | .obj _, .num _ => isFalse nofun
  | .obj _, .str _ => isFalse nofun
  | .obj _, .date _ => isFalse nofun
  | .obj _, .arr _ => isFalse nofun
/-- Decidable equality of lists of values. -/
def decEqList : (a b : List Value) → Decidable (a = b)
  | [], [] => isTrue rfl
  | [], _ :: _ => isFalse nofun
  | _ :: _, [] => isFalse nofun
  | x :: xs, y :: ys =>
    match decEq x y, decEqList xs ys with
    | isTrue h1, isTrue h2 => isTrue (h1 ▸ h2 ▸ rfl)
    | isFalse h1, _ => isFalse (fun e => h1 (by cases e; rfl))
    | _, isFalse h2 => isFalse (fun e => h2 (by cases e; rfl))
/-- Decidable equality of the entry lists of objects. -/
def decEqEntries : (a b : List (String × Value)) → Decidable (a = b)
  | [], [] => isTrue rfl
  | [], _ :: _ => isFalse nofun
  | _ :: _, [] => isFalse nofun
  | (k, x) :: xs, (l, y) :: ys =>
    if hk : k = l then
      match decEq x y, decEqEntries xs ys with
      | isTrue h1, isTrue h2 => isTrue (hk ▸ h1 ▸ h2 ▸ rfl)
      | isFalse h1, _ => isFalse (fun e => h1 (by cases e; rfl))
      | _, isFalse h2 => isFalse (fun e => h2 (by cases e; rfl))
    else isFalse (fun e => hk (by cases e; rfl))
end

instance : DecidableEq Value := decEq

end Value

/-- Result of the typeof operator on the values of the embedding. -/
inductive JsType where
  | undefined
  | object
  | boolean
  | number
  | string
  deriving DecidableEq

/-- The typeof operator: null, dates, arrays and plain objects all report object. -/
def Value.typeOf : Value → JsType
  | .undefined => .undefined
  | .null => .object
  | .bool _ => .boolean
  | .num _ => .number
  | .str _ => .string
  | .date _ => .object
  | .arr _ => .object
  | .obj _ => .object

/-- Truthiness, as tested by the negation in a condition such as the one on recordData. -/
def Value.truthy : Value → Bool
  | .undefined => false
  | .null => false
  | .bool b => b
  | .num n => n != 0
  | .str s => s != ""
  | .date _ => true
  | .arr _ => true
  | .obj _ => true

/-- Reading the own property key of an object given by its entries: the value of the first
entry under that key, undefined when there is none. -/
def getProp : List (String × Value) → String → Value
  | [], _ => .undefined
  | (k, v) :: rest, key => if k = key then v else getProp rest key

/-- Assignment to the property key of an object: an existing entry is overwritten in place,
a new key is appended. -/
def setProp : List (String × Value) → String → Value → List (String × Value)
  | [], key, v => [(key, v)]
  | (k, w) :: rest, key, v => if k = key then (k, v) :: rest else (k, w) :: setProp rest key v

/-- Member access value[key] on the values that can stand for record data, as far as it gives
data: the own entry of a plain object under the key, and undefined when there is none.
Arrays and dates have no member under id, name or type, the names that the sources read on
them. A read in the sources goes on through the prototype chain: under one of the names of
inheritedNames an object without such an own entry gives a built-in function or a prototype
object, for which the embedding has no value. The lookup stands for the read under every other
name; statements about what is read under a field name leave the names of inheritedNames
out. -/
def Value.getMember : Value → String → Value
  | .obj kvs, key => getProp kvs key
  | _, _ => .undefined

/-- The names of the members that every object inherits from Object.prototype. -/
def inheritedNames : List String :=
  ["constructor", "__defineGetter__", "__defineSetter__", "hasOwnProperty", "__lookupGetter__",
    "__lookupSetter__", "isPrototypeOf", "propertyIsEnumerable", "toString", "valueOf",
    "__proto__", "toLocaleString"]

/-- The strict equality operator. Two primitives are strictly equal when they are the same
value. A date, an array or an object is strictly equal only to itself. The embedding keeps no
identity of objects and takes two such values to be different objects: they are when each
comes from a clone that createRecord has made, and they are not when one object has been
written to two records. Statements that rest on the comparison are made for primitives. -/
def strictEq : Value → Value → Bool
  | .undefined, .undefined => true
  | .null, .null => true
  | .bool a, .bool b => a == b
  | .num a, .num b => a == b
  | .str a, .str b => a == b
  | _, _ => false

/-! ## Errors -/

/-- Classes of the errors constructed by the handler and its helpers. -/
inductive ErrorClass where
  | TypeError
  | RangeError
  | DuplicationError
  | NameError
  deriving DecidableEq

/-- Symbols used as property keys. The first four are the ones listed by isKnownSymbol; every
other symbol is an instance of other. -/
inductive JsSymbol where
  | recordModel
  | recordTag
  | recordValue
  | isRecord
  | other (n : Nat)
  deriving DecidableEq

/-- A property key as received by the get and set traps: a string or a symbol. -/
inductive PropertyKey where
  | str (s : String)
  | sym (s : JsSymbol)
  deriving DecidableEq

/-- One part of a template literal: literal text, an interpolated value or an interpolated
property key. The message of an error is kept as the list of these parts. -/
inductive MsgPart where
  | lit (s : String)
  | val (v : Value)
  | key (k : PropertyKey)
  deriving DecidableEq

/-- A thrown error: its class and its message. -/
structure JsError where
  cls : ErrorClass
  message : List MsgPart
  deriving DecidableEq

/-! ## src/types.js -/

/-- Source: isString. -/
def isString (val : Value) : Bool :=
  val.typeOf == .string

/-- Source: isNull. -/
def isNull (val : Value) : Bool :=
  val == .null

/-- Source: isUndefined. -/
def isUndefined (val : Value) : Bool :=
  val == .undefined

/-- Source: isNumber. There is no NaN among the numbers of the embedding, so the test of
the value against itself always holds. -/
def isNumber (val : Value) : Bool :=
  val.typeOf == .number

/-- Source: isEnum, values.includes(val). -/
def isEnum (values : List Value) (val : Value) : Bool :=
  values.contains val

/-- Source: or, types.some(type => type(val)), for predicates that do not throw. -/
def or_ (types : List (Value → Bool)) (val : Value) : Bool :=
  types.any (fun type => type val)

/-- Source: isOptional. -/
def isOptional (type : Value → Bool) (val : Value) : Bool :=
  or_ [isNull, type] val

/-- White space and line terminator code points, the characters removed by String.prototype.trim. -/
def isJsWhitespace (c : Char) : Bool :=
  let n := c.toNat
  n == 0x9 || n == 0xA || n == 0xB || n == 0xC || n == 0xD || n == 0x20 || n == 0xA0 ||
  n == 0x1680 || (0x2000 ≤ n && n ≤ 0x200A) || n == 0x2028 || n == 0x2029 || n == 0x202F ||
  n == 0x205F || n == 0x3000 || n == 0xFEFF

/-- String.prototype.trim on the characters of a string. -/
def jsTrim (cs : List Char) : List Char :=
  ((cs.dropWhile isJsWhitespace).reverse.dropWhile isJsWhitespace).reverse

/-- Source: isNonEmptyString, val.trim().length !== 0. On a value that is not a string the
call of trim throws a TypeError. -/
def isNonEmptyString (val : Value) : Except JsError Bool :=
  match val with
  | .str s => .ok ((jsTrim s.toList).length != 0)
  | _ => .error ⟨.TypeError, [.lit "val.trim is not a function"]⟩

/-- Source: and, types.every(type => type(val)): the predicates are tried in order and the
first one that answers false ends the test. -/
def and_ : List (Value → Except JsError Bool) → Value → Except JsError Bool
  | [], _ => .ok true
  | type :: rest, val =>
    match type val with
    | .error e => .error e
    | .ok false => .ok false
    | .ok true => and_ rest val

/-- Source: recordId = and(isString, isNonEmptyString). -/
def recordId (val : Value) : Except JsError Bool :=
  and_ [fun v => .ok (isString v), isNonEmptyString] val

/-! ## src/utils.js -/

mutual
/-- Source: deepClone. Called on a value that is not an object it returns the object made by
Object.assign from nothing (or from the characters of a string). Object.assign copies the own
entries of an object by assignment, and an assignment under the name __proto__ does not make
an entry: the clone has no entry of that name. When the value of that entry is an object or
null, the assignment makes it the prototype of the clone, which the embedding does not
record. -/
def deepClone : Value → Value
  | .null => .null
  | .date t => .date t
  | .arr xs => .arr (deepCloneItems xs)
  | .obj kvs => .obj (deepCloneEntries kvs)
  | .str s => .obj (s.toList.enum.map (fun ic => (toString ic.1, .str (String.singleton ic.2))))
  | .undefined => .obj []
  | .bool _ => .obj []
  | .num _ => .obj []
/-- The elements of a cloned array: an element whose typeof is object is cloned, any other
element is kept. -/
def deepCloneItems : List Value → List Value
  | [] => []
  | value :: rest =>
    (if value.typeOf = .object then deepClone value else value) :: deepCloneItems rest
/-- The entries of a cloned object: an entry under the name __proto__ is not copied, a value
whose typeof is object is cloned, any other value is kept. -/
def deepCloneEntries : List (String × Value) → List (String × Value)
  | [] => []
  | (key, value) :: rest =>
    if key = "__proto__" then deepCloneEntries rest
    else
      (key, if value.typeOf = .object then deepClone value else value) :: deepCloneEntries rest
end

mutual
/-- Whether no object within the value has an own entry under the name __proto__. -/
def hasNoProtoKey : Value → Bool
  | .arr xs => hasNoProtoKeyItems xs
  | .obj kvs => hasNoProtoKeyEntries kvs
  | .undefined => true
  | .null => true
  | .bool _ => true
  | .num _ => true
  | .str _ => true
  | .date _ => true
/-- Whether no object within the elements has an own entry under the name __proto__. -/
def hasNoProtoKeyItems : List Value → Bool
  | [] => true
  | value :: rest => hasNoProtoKey value && hasNoProtoKeyItems rest
/-- Whether no entry is under the name __proto__ and no object within the values has one. -/
def hasNoProtoKeyEntries : List (String × Value) → Bool
  | [] => true
  | (key, value) :: rest =>
    key != "__proto__" && hasNoProtoKey value && hasNoProtoKeyEntries rest
end

/-- Source: restrictedNames. -/
def restrictedNames : List String :=
  ["toString", "toObject", "toJSON", "id"]

/-- The characters matched by the class of word characters of a regular expression: the
letters and digits of ASCII and the underscore. -/
def isWordChar (c : Char) : Bool :=
  c.isAlphanum || c == '_'

/-- Source: isValidName, which answers with a pair: whether the name is valid, and the message
to give when it is not. The tests are, in order: typeof name is string, the name is not
empty, it does not start with a digit, it is not one of the restricted names, and it is made
of word characters only. -/
def isValidName (name : Value) : Bool × String :=
  match name with
  | .str s =>
    if s = "" then (false, "cannot be empty")
    else if (match s.toList.head? with
        | some c => c.isDigit
        | none => false) then (false, "cannot start with a number")
    else if restrictedNames.contains s then (false, "is reserved")
    else
      (s.toList.all isWordChar,
        "must contain only alphanumeric characters, numbers or underscores")
  | _ => (false, "must be a string")

/-- Source: validateName, which takes one parameter, the name, and returns it when it is
valid. -/
def validateName (name : Value) : Except JsError Value :=
  if (isValidName name).1 then .ok name
  else
    .error ⟨.NameError,
      [.lit "Name \"", .val name, .lit "\" is invalid - ", .lit (isValidName name).2, .lit "."]⟩

/-- Source: isObject, as a condition. -/
def isObject (obj : Value) : Bool :=
  obj.truthy && obj.typeOf == .object

/-- Source: contains, collection.includes(item). -/
def contains (collection : List Value) (item : Value) : Bool :=
  collection.contains item

/-- Source: validateObjectWithUniqueName. -/
def validateObjectWithUniqueName (objectType parentType parentName : String) (obj : Value)
    (collection : List Value) : Except JsError Bool :=
  if !isObject obj then
    .error ⟨.TypeError, [.lit objectType, .lit " ", .val obj, .lit " is not an object."]⟩
  else if contains collection (obj.getMember "name") then
    .error ⟨.DuplicationError,
      [.lit parentType, .lit " ", .lit parentName, .lit " already has a ",
        .lit objectType.toLower, .lit " named ", .val (obj.getMember "name"), .lit "."]⟩
  else .ok true

/-! ## Data model -/

/-- Modelled from the spec: the Record class (src/record/record.js is not among the sources).
A record holds its field mapping, which includes the id, and the cache of computed-property
results keyed by property name. The flag wrapped says whether reading the wrapped-record slot
of the object handed to the handler gives a value, which is how the handler tells a fully
constructed record from one that is being initialised. -/
structure Record where
  recordValue : List (String × Value)
  wrapped : Bool
  cachedProperties : List (String × Value)
  deriving DecidableEq

/-- Modelled from the spec: the record collection (src/record/set.js is not among the
sources), an insertion-ordered collection of records keyed by identity. -/
abbrev RecordSet := List (Value × Record)

/-- Modelled from the spec: RecordSet.except, all other records, excluding the one with the
given identity. -/
def RecordSet.except (records : RecordSet) (id : Value) : RecordSet :=
  records.filter (fun entry => entry.1 != id)

/-- Modelled from the spec: RecordSet.has, whether a record is stored under the identity. -/
def RecordSet.has (records : RecordSet) (id : Value) : Bool :=
  records.any (fun entry => entry.1 == id)

/-- Modelled from the spec: RecordSet.set, the insertion of a record under an identity into
the insertion-ordered collection: the record stored under that identity is replaced in place
when there is one, and the record is added at the end otherwise. -/
def RecordSet.set : RecordSet → Value → Record → RecordSet
  | [], id, record => [(id, record)]
  | (key, stored) :: rest, id, record =>
    if key = id then (key, record) :: rest else (key, stored) :: RecordSet.set rest id record

/-- A validator: a predicate over a field mapping and a collection of records. What matters to
the handler is whether its answer is truthy. -/
abbrev Validator := List (String × Value) → RecordSet → Bool

/-- Modelled from the spec: a field definition (src/field.js is not among the sources), as far
as the handler and the model read it: its name, its type predicate, its default value, the
validators bound to it, in registration order, and whether it is required. -/
structure Field where
  name : String
  typeCheck : Value → Bool
  defaultValue : Value
  validators : List (String × Validator)
  required : Bool := false

/-- A computed property: a function of the wrapped record, seen as the field mapping of the
record when the record is wrapped and as nothing otherwise. -/
abbrev PropertyFn := Option (List (String × Value)) → Value

/-- A method: a function of the wrapped record and the call arguments. -/
abbrev Method := Option (List (String × Value)) → List Value → Value

/-- A relationship descriptor, as far as the handler uses it: its accessor, which receives the
model name, the property and the field mapping of the record. -/
structure Relationship where
  get : String → String → List (String × Value) → Value

/-- Source: the type of key of Model.#createKey, either string or auto. -/
inductive KeyType where
  | string
  | auto
  deriving DecidableEq

/-- The model as the handler reads it. The map of fields is keyed by field name (Model.addField
stores each field under the name it carries), so it is kept as the list of its fields in
insertion order; the other maps are association lists in insertion order. The name and the
type of the key are those given to Model.#createKey, by default id and string; the handler
reads neither. The flag updatingField is the private flag of that name of the model. -/
structure Model where
  name : String
  fields : List Field
  properties : List (String × PropertyFn)
  cachedProperties : List String
  methods : List (String × Method)
  relationships : List (String × Relationship)
  validators : List (String × Validator)
  records : RecordSet
  keyName : String := "id"
  keyType : KeyType := .string
  updatingField : Bool := false

/-- Modelled from the spec: the Record constructor as called by createRecord, a record that is
still being initialised, with the given field mapping and an empty cache. -/
def Record.new (value : List (String × Value)) : Record :=
  { recordValue := value, wrapped := false, cachedProperties := [] }

/-- What a read through the handler gives: a plain value, a callable, or the content of one of
the slots of the record object that are not part of this model. -/
inductive GetResult where
  | value (v : Value)
  | callable (f : List Value → Value)
  | internal (s : JsSymbol)

/-- Outcome of a read: the result or the error thrown, the record as it stands afterwards, and
the names of the computed properties whose function was invoked, in order. -/
structure GetOutcome where
  result : Except JsError GetResult
  record : Record
  invoked : List String

deriving instance DecidableEq for Except

/-- Outcome of a write: the value returned or the error thrown, and the record as it stands
afterwards, also when the write threw. -/
structure SetOutcome where
  result : Except JsError Bool
  record : Record
  deriving DecidableEq

/-- A call of a model validator: the name under which the validator is registered and the
field mapping it is handed. -/
structure ValidatorCall where
  validatorName : String
  argument : List (String × Value)
  deriving DecidableEq

/-- A forEach over a map of validators whose callback throws on a validator that meets the
failure test: the names of the validators that are called, in order. These are the validators
up to and including the first one that meets the failure test. -/
def calledUntilFailure : List (String × Validator) → (Validator → Bool) → List String
  | [], _ => []
  | (validatorName, validator) :: rest, fails =>
    if fails validator then [validatorName]
    else validatorName :: calledUntilFailure rest fails

/-- A forEach over a map of validators whose callback throws on a validator that meets the
failure test: the name of the first such validator, in registration order, if there is one. -/
def firstFailing : List (String × Validator) → (Validator → Bool) → Option String
  | [], _ => none
  | (validatorName, validator) :: rest, fails =>
    if fails validator then some validatorName else firstFailing rest fails

/-! ## src/record/handler.js -/

namespace RecordHandler

/-- Source: #getModelName. -/
def getModelName (m : Model) : String :=
  m.name

/-- Source: #getFieldNames. -/
def getFieldNames (m : Model) : List String :=
  m.fields.map (fun field => field.name)

/-- Source: #getValidators. -/
def getValidators (m : Model) : List (String × Validator) :=
  m.validators

/-- Source: #isRecordId. -/
def isRecordId (property : PropertyKey) : Bool :=
  property == .str "id"

/-- Source: getRecordId. -/
def getRecordId (record : Record) : Value :=
  getProp record.recordValue "id"

/-- Source: #hasField. -/
def hasField (m : Model) : PropertyKey → Bool
  | .str s => m.fields.any (fun field => field.name == s)
  | .sym _ => false

/-- Source: #getField. -/
def getField (m : Model) : PropertyKey → Option Field
  | .str s => m.fields.find? (fun field => field.name == s)
  | .sym _ => none

/-- Source: #getFieldValue. A field mapping has no symbol-keyed entries. -/
def getFieldValue (record : Record) : PropertyKey → Value
  | .str s => getProp record.recordValue s
  | .sym _ => .undefined

/-- Source: #hasProperty. -/
def hasProperty (m : Model) : PropertyKey → Bool
  | .str s => m.properties.any (fun entry => entry.1 == s)
  | .sym _ => false

/-- Source: #hasMethod. -/
def hasMethod (m : Model) : PropertyKey → Bool
  | .str s => m.methods.any (fun entry => entry.1 == s)
  | .sym _ => false

/-- Source: #hasRelationshipField. -/
def hasRelationshipField (m : Model) (property : PropertyKey) : Bool :=
  if !hasField m property then false
  else
    match property with
    | .str s => m.relationships.any (fun entry => entry.1 == s ++ "." ++ s)
    | .sym _ => false

/-- The value read from the wrapped-record slot of a record: the view of the record handed to
computed properties and methods. -/
def wrappedRecordValue (record : Record) : Option (List (String × Value)) :=
  if record.wrapped then some record.recordValue else none

/-- The error thrown when a value that is not a function is called. The lookups that could
give such a value are guarded by the has-tests of the traps. -/
def notAFunction : JsError :=
  ⟨.TypeError, [.lit "is not a function"]⟩

/-- The error thrown when a property of undefined is read. -/
def undefinedAccess : JsError :=
  ⟨.TypeError, [.lit "Cannot read properties of undefined"]⟩

/-- Source: #getRelationship. -/
def getRelationship (m : Model) (record : Record) (property : String) : Except JsError GetResult :=
  match m.relationships.find? (fun entry => entry.1 == property ++ "." ++ property) with
  | some entry => .ok (.value (entry.2.get (getModelName m) property record.recordValue))
  | none => .error undefinedAccess

/-- Source: #getProperty. -/
def getProperty (m : Model) (record : Record) (property : String) : GetOutcome :=
  if m.cachedProperties.contains property then
    if record.cachedProperties.any (fun cached => cached.1 == property) then
      ⟨.ok (.value (getProp record.cachedProperties property)), record, []⟩
    else
      match m.properties.find? (fun entry => entry.1 == property) with
      | none => ⟨.error notAFunction, record, []⟩
      | some entry =>
        let value := entry.2 (wrappedRecordValue record)
        ⟨.ok (.value value),
          { record with cachedProperties := setProp record.cachedProperties property value },
          [property]⟩
  else
    match m.properties.find? (fun entry => entry.1 == property) with
    | none => ⟨.error notAFunction, record, []⟩
    | some entry => ⟨.ok (.value (entry.2 (wrappedRecordValue record))), record, [property]⟩

/-- Source: #getMethod. -/
def getMethod (m : Model) (record : Record) (method : String) : Except JsError GetResult :=
  match m.methods.find? (fun entry => entry.1 == method) with
  | some entry => .ok (.callable (fun args => entry.2 (wrappedRecordValue record) args))
  | none => .error notAFunction

/-- Source: static #recordToObject, the object returned by the serialisation callable. -/
def recordToObject (record : Record) (m : Model) : List (String × Value) :=
  m.fields.foldl
    (fun object field =>
      let value := getProp record.recordValue field.name
      if value != .undefined then setProp object field.name value else object)
    [("id", getProp record.recordValue "id")]

/-- Source: #isCallToSerialize. -/
def isCallToSerialize (property : PropertyKey) : Bool :=
  property == .str "toObject" || property == .str "toJSON"

/-- Source: #isCallToString. -/
def isCallToString (property : PropertyKey) : Bool :=
  property == .str "toString"

/-- Source: #isKnownSymbol. -/
def isKnownSymbol (property : PropertyKey) : Bool :=
  [PropertyKey.sym .recordModel, .sym .recordTag, .sym .recordValue, .sym .isRecord].contains
    property

/-- Source: #getKnownSymbol. -/
def getKnownSymbol (record : Record) : PropertyKey → GetResult
  | .sym .isRecord => .value (.bool true)
  | .sym .recordValue => .value (.obj record.recordValue)
  | .sym s => .internal s
  | .str _ => .value .undefined

/-- Source: get, the read trap. -/
def get (m : Model) (record : Record) (property : PropertyKey) : GetOutcome :=
  if hasRelationshipField m property then
    match property with
    | .str s => ⟨getRelationship m record s, record, []⟩
    | .sym _ => ⟨.error notAFunction, record, []⟩
  else if isRecordId property || hasField m property then
    ⟨.ok (.value (getFieldValue record property)), record, []⟩
  else if hasProperty m property then
    match property with
    | .str s => getProperty m record s
    | .sym _ => ⟨.error notAFunction, record, []⟩
  else if hasMethod m property then
    match property with
    | .str s => ⟨getMethod m record s, record, []⟩
    | .sym _ => ⟨.error notAFunction, record, []⟩
  else if isCallToSerialize property then
    ⟨.ok (.callable (fun _ => .obj (recordToObject record m))), record, []⟩
  else if isCallToString property then
    ⟨.ok (.callable (fun _ => getRecordId record)), record, []⟩
  else if isKnownSymbol property then
    ⟨.ok (getKnownSymbol record property), record, []⟩
  else ⟨.ok (.value .undefined), record, []⟩

/-- Source: static #setRecordField. The record returned is the record after the assignment;
an error leaves the record as it was. -/
def setRecordField (modelName : String) (record : Record) (field : Field) (value : Value)
    (isRelationship : Bool) : Except JsError Record :=
  let recordValue := if !isRelationship && isUndefined value then field.defaultValue else value
  if !isRelationship && !field.typeCheck recordValue then
    .error ⟨.TypeError,
      [.val (.str modelName), .lit " record has invalid value for field ",
        .val (.str field.name), .lit "."]⟩
  else
    let cleared := if record.wrapped then { record with cachedProperties := [] } else record
    .ok { cleared with recordValue := setProp cleared.recordValue field.name recordValue }

/-- The RangeError thrown by set and createRecord when a validator fails. -/
def validationError (modelName : String) (recordId : Value) (validatorName : String) : JsError :=
  ⟨.RangeError,
    [.val (.str modelName), .lit " record with id ", .val recordId,
      .lit " failed validation for ", .val (.str validatorName), .lit "."]⟩

/-- Source: set, the write trap. -/
def set (m : Model) (record : Record) (property : PropertyKey) (value : Value)
    (skipValidation : Bool) : SetOutcome :=
  let recordId := getRecordId record
  let otherRecords := RecordSet.except m.records recordId
  if hasProperty m property then
    ⟨.error ⟨.TypeError,
      [.val (.str (getModelName m)), .lit " record ", .val recordId,
        .lit " cannot set property ", .key property, .lit "."]⟩, record⟩
  else if hasMethod m property then
    ⟨.error ⟨.TypeError,
      [.val (.str (getModelName m)), .lit " record ", .val recordId,
        .lit " cannot set method ", .key property, .lit "."]⟩, record⟩
  else
    let written : Option JsError × Record :=
      if hasField m property then
        match getField m property with
        | none => (some undefinedAccess, record)
        | some field =>
          match setRecordField m.name record field value (hasRelationshipField m property) with
          | .error e => (some e, record)
          | .ok record1 =>
            match firstFailing field.validators (fun validator =>
                !([Value.null, Value.undefined].contains (getFieldValue record1 property)) &&
                !validator record1.recordValue otherRecords) with
            | some validatorName =>
              (some (validationError (getModelName m) recordId validatorName), record1)
            | none => (none, record1)
      else (none, record)
    match written with
    | (some e, record1) => ⟨.error e, record1⟩
    | (none, record1) =>
      if !skipValidation then
        match firstFailing (getValidators m) (fun validator =>
            !validator record1.recordValue otherRecords) with
        | some validatorName =>
          ⟨.error (validationError (getModelName m) recordId validatorName), record1⟩
        | none => ⟨.ok true, record1⟩
      else ⟨.ok true, record1⟩

/-- Source: static #validateNewRecordId. -/
def validateNewRecordId (modelName : String) (id : Value) (records : RecordSet) :
    Except JsError Value :=
  match recordId id with
  | .error e => .error e
  | .ok false => .error ⟨.TypeError, [.val (.str modelName), .lit " record has invalid id."]⟩
  | .ok true =>
    if RecordSet.has records id then
      .error ⟨.DuplicationError,
        [.val (.str modelName), .lit " record with id ", .val id, .lit " already exists."]⟩
    else .ok id

/-- The loop of createRecord over the field names: each field is written with skipValidation
set, and the first write that throws ends the loop with its error. -/
def setFields (m : Model) (clonedRecord : Value) : List String → Record → Except JsError Record
  | [], newRecord => .ok newRecord
  | field :: rest, newRecord =>
    let outcome := set m newRecord (.str field) (clonedRecord.getMember field) true
    match outcome.result with
    | .error e => .error e
    | .ok _ => setFields m clonedRecord rest outcome.record

/-- Source: createRecord. The model validators are handed the new record, of which they read
the field mapping. -/
def createRecord (m : Model) (recordData : Value) : Except JsError (Value × Record) :=
  if !recordData.truthy then .error ⟨.TypeError, [.lit "Record data cannot be empty."]⟩
  else if recordData.typeOf != .object then
    .error ⟨.TypeError, [.lit "Record data must be an object."]⟩
  else
    let modelName := getModelName m
    match validateNewRecordId modelName (recordData.getMember "id") m.records with
    | .error e => .error e
    | .ok newRecordId =>
      let clonedRecord := deepClone recordData
      match setFields m clonedRecord (getFieldNames m) (Record.new [("id", newRecordId)]) with
      | .error e => .error e
      | .ok newRecord =>
        match firstFailing (getValidators m) (fun validator =>
            !validator newRecord.recordValue m.records) with
        | some validatorName => .error (validationError modelName newRecordId validatorName)
        | none => .ok (newRecordId, newRecord)

/-- Source: set, the write trap, with the calls of model validators made during the write. The
outcome is that of set; the calls are those of the loop over the model validators, which is
entered only when skipValidation is not set and the write itself has not thrown. -/
def setLogged (m : Model) (record : Record) (property : PropertyKey) (value : Value)
    (skipValidation : Bool) : SetOutcome × List ValidatorCall :=
  let recordId := getRecordId record
  let otherRecords := RecordSet.except m.records recordId
  if hasProperty m property then
    (⟨.error ⟨.TypeError,
      [.val (.str (getModelName m)), .lit " record ", .val recordId,
        .lit " cannot set property ", .key property, .lit "."]⟩, record⟩, [])
  else if hasMethod m property then
    (⟨.error ⟨.TypeError,
      [.val (.str (getModelName m)), .lit " record ", .val recordId,
        .lit " cannot set method ", .key property, .lit "."]⟩, record⟩, [])
  else
    let written : Option JsError × Record :=
      if hasField m property then
        match getField m property with
        | none => (some undefinedAccess, record)
        | some field =>
          match setRecordField m.name record field value (hasRelationshipField m property) with
          | .error e => (some e, record)
          | .ok record1 =>
            match firstFailing field.validators (fun validator =>
                !([Value.null, Value.undefined].contains (getFieldValue record1 property)) &&
                !validator record1.recordValue otherRecords) with
            | some validatorName =>
              (some (validationError (getModelName m) recordId validatorName), record1)
            | none => (none, record1)
      else (none, record)
    match written with
    | (some e, record1) => (⟨.error e, record1⟩, [])
    | (none, record1) =>
      if !skipValidation then
        let calls : List ValidatorCall :=
          (calledUntilFailure (getValidators m) (fun validator =>
            !validator record1.recordValue otherRecords)).map
            (fun validatorName => ⟨validatorName, record1.recordValue⟩)
        match firstFailing (getValidators m) (fun validator =>
            !validator record1.recordValue otherRecords) with
        | some validatorName =>
          (⟨.error (validationError (getModelName m) recordId validatorName), record1⟩, calls)
        | none => (⟨.ok true, record1⟩, calls)
      else (⟨.ok true, record1⟩, [])

/-- The loop of createRecord over the field names, with the calls of model validators made
during the writes. -/
def setFieldsLogged (m : Model) (clonedRecord : Value) :
    List String → Record → Except JsError Record × List ValidatorCall
  | [], newRecord => (.ok newRecord, [])
  | field :: rest, newRecord =>
    let written := setLogged m newRecord (.str field) (clonedRecord.getMember field) true
    match written.1.result with
    | .error e => (.error e, written.2)
    | .ok _ =>
      let others := setFieldsLogged m clonedRecord rest written.1.record
      (others.1, written.2 ++ others.2)

/-- Source: createRecord, with the calls of model validators made during the construction:
those of the writes of the fields, followed by those of the loop over the model validators
that comes after the writes. -/
def createRecordLogged (m : Model) (recordData : Value) :
    Except JsError (Value × Record) × List ValidatorCall :=
  if !recordData.truthy then (.error ⟨.TypeError, [.lit "Record data cannot be empty."]⟩, [])
  else if recordData.typeOf != .object then
    (.error ⟨.TypeError, [.lit "Record data must be an object."]⟩, [])
  else
    let modelName := getModelName m
    match validateNewRecordId modelName (recordData.getMember "id") m.records with
    | .error e => (.error e, [])
    | .ok newRecordId =>
      let clonedRecord := deepClone recordData
      let written :=
        setFieldsLogged m clonedRecord (getFieldNames m) (Record.new [("id", newRecordId)])
      match written.1 with
      | .error e => (.error e, written.2)
      | .ok newRecord =>
        let calls : List ValidatorCall :=
          (calledUntilFailure (getValidators m) (fun validator =>
            !validator newRecord.recordValue m.records)).map
            (fun validatorName => ⟨validatorName, newRecord.recordValue⟩)
        match firstFailing (getValidators m) (fun validator =>
            !validator newRecord.recordValue m.records) with
        | some validatorName =>
          (.error (validationError modelName newRecordId validatorName), written.2 ++ calls)
        | none => (.ok (newRecordId, newRecord), written.2 ++ calls)

/-- Source: static #setRecordField, the number of reads of the default value of the field. The
conditional expression that resolves the value to store reads the default only in its first
branch, taken when the field is not a relationship field and the value is undefined. -/
def setRecordFieldDefaultReads (value : Value) (isRelationship : Bool) : Nat :=
  if !isRelationship && isUndefined value then 1 else 0

/-- Source: set, the number of reads of the default value of a field made during the write:
those of #setRecordField, which is called when the name passes the guard on computed
properties and methods and is a field. -/
def setDefaultReads (m : Model) (property : PropertyKey) (value : Value) : Nat :=
  if hasProperty m property then 0
  else if hasMethod m property then 0
  else if hasField m property then
    match getField m property with
    | none => 0
    | some _ => setRecordFieldDefaultReads value (hasRelationshipField m property)
  else 0

/-- The loop of createRecord over the field names, the fields whose default value is read, in
order: each write reads the default of its field as often as set does, and the loop ends with
the first write that throws. -/
def setFieldsDefaultReads (m : Model) (clonedRecord : Value) :
    List String → Record → List String
  | [], _ => []
  | field :: rest, newRecord =>
    let outcome := set m newRecord (.str field) (clonedRecord.getMember field) true
    let reads :=
      List.replicate (setDefaultReads m (.str field) (clonedRecord.getMember field)) field
    match outcome.result with
    | .error _ => reads
    | .ok _ => reads ++ setFieldsDefaultReads m clonedRecord rest outcome.record

end RecordHandler

/-! ## src/model.js -/

/-- Outcome of Model.add: the record returned or the error thrown, and the model as it stands
afterwards. -/
structure AddOutcome where
  result : Except JsError Record
  model : Model

/-- Source: Model.add. The record is put into the collection only once createRecord has
returned; when createRecord throws, the model is as it was. -/
def Model.add (m : Model) (record : Value) : AddOutcome :=
  match RecordHandler.createRecord m record with
  | .error e => ⟨.error e, m⟩
  | .ok (newRecordKey, newRecord) =>
    ⟨.ok newRecord, { m with records := RecordSet.set m.records newRecordKey newRecord }⟩

/-- Outcome of a call that changes the structure of a model: the value returned or the error
thrown, the model as it stands afterwards, and the names of the events emitted, in order. -/
structure ModelOutcome (α : Type) where
  result : Except JsError α
  model : Model
  events : List String

/-- The retrofill argument of addField: left undefined, a value that is neither undefined nor
a function, or a function of the record. -/
inductive Retrofill where
  | undefined
  | value (v : Value)
  | function (f : Record → Value)

/-- Map.set on a map kept as an association list: the entry under the key is replaced in place
when there is one, and the entry is added at the end otherwise. -/
def mapSet {α : Type} : List (String × α) → String → α → List (String × α)
  | [], key, a => [(key, a)]
  | (k, b) :: rest, key, a =>
    if k = key then (k, a) :: rest else (k, b) :: mapSet rest key a

/-- Map.set on the map of fields, which is keyed by the name of the field. -/
def setFieldEntry : List Field → Field → List Field
  | [], field => [field]
  | f :: rest, field =>
    if f.name = field.name then field :: rest else f :: setFieldEntry rest field

/-- The model as the constructor has it before the fields, methods, relationships and
validators of its options are added: the maps are empty and so is the collection. -/
def Model.empty (name keyName : String) (keyType : KeyType) : Model :=
  { name := name, fields := [], properties := [], cachedProperties := [], methods := [],
    relationships := [], validators := [], records := [], keyName := keyName,
    keyType := keyType }

/-- The list of names that addField, addMethod and addRelationship pass as restricted names:
the keys of the fields, the name of the key and the keys of the methods. -/
def Model.restrictedNames (m : Model) : List Value :=
  m.fields.map (fun field => Value.str field.name) ++ [Value.str m.keyName] ++
    m.methods.map (fun entry => Value.str entry.1)

/-- Source: static #parseModelField. The construction of the field by the Field class
(src/field.js is not among the sources) is the parameter makeField. -/
def Model.parseModelField (makeField : Value → Except JsError Field) (modelName : String)
    (field : Value) (restrictedNames : List Value) : Except JsError Field :=
  match validateObjectWithUniqueName "Field" "Model" modelName field restrictedNames with
  | .error e => .error e
  | .ok _ => makeField field

/-- Source: static #validateModelMethod. A callback that is not a function is none. -/
def Model.validateModelMethod {α : Type} (callbackType : String) (callbackName : Value)
    (callback : Option α) (restrictedNames : List Value) : Except JsError α :=
  match callback with
  | none =>
    .error ⟨.TypeError,
      [.lit callbackType, .lit " ", .val callbackName, .lit " is not a function."]⟩
  | some fn =>
    if restrictedNames.contains callbackName then
      .error ⟨.DuplicationError,
        [.lit callbackType, .lit " ", .val callbackName, .lit " already exists."]⟩
    else .ok fn

/-- Source: static #validateModelContains, on the keys of the map it is given. -/
def Model.validateModelContains (objectName : Value) (keys : List String) : Bool :=
  match objectName with
  | .str s => keys.contains s
  | _ => false

/-- Modelled from the spec: an assignment record[name] = value on a record of the collection
(src/record/record.js is not among the sources). Every write to a record goes through the
write path of the handler: it is the write trap, called without skipValidation on the fully
constructed record. -/
def Record.assign (m : Model) (record : Record) (name : String) (value : Value) : SetOutcome :=
  RecordHandler.set m { record with wrapped := true } (.str name) value false

/-- The forEach loop of #applyModelFieldRetrofill over the collection: the records before the
current one have been assigned, each assignment sees the collection as it stands, and an
assignment that throws ends the loop with the collection as it stands then. -/
def Model.retrofillRecords (m : Model) (field : Field) (retrofillFunction : Record → Value) :
    RecordSet → RecordSet → Option JsError × RecordSet
  | done, [] => (none, done)
  | done, (key, record) :: rest =>
    let outcome :=
      Record.assign { m with records := done ++ (key, record) :: rest } record field.name
        (retrofillFunction record)
    match outcome.result with
    | .error e => (some e, done ++ (key, outcome.record) :: rest)
    | .ok _ => Model.retrofillRecords m field retrofillFunction (done ++ [(key, outcome.record)]) rest

/-- Source: static #applyModelFieldRetrofill. A read record[field.name] of a record of the
collection gives the value of its field mapping, and the test of that value is a test of
truthiness. -/
def Model.applyModelFieldRetrofill (m : Model) (field : Field) (retrofill : Retrofill) :
    Option JsError × RecordSet :=
  match field.required, retrofill with
  | false, .undefined => (none, m.records)
  | _, _ =>
    let retrofillFunction : Record → Value :=
      match retrofill with
      | .function f => f
      | .value v => fun _ => v
      | .undefined => fun record =>
        if (getProp record.recordValue field.name).truthy
        then getProp record.recordValue field.name else field.defaultValue
    Model.retrofillRecords m field retrofillFunction [] m.records

/-- Source: Model.addField. The field is stored under fieldOptions.name, which is the name
that the field carries. -/
def Model.addField (makeField : Value → Except JsError Field) (m : Model)
    (fieldOptions : Value) (retrofill : Retrofill) : ModelOutcome Field :=
  let before := if !m.updatingField then ["beforeAddField"] else []
  match Model.parseModelField makeField m.name fieldOptions (Model.restrictedNames m) with
  | .error e => ⟨.error e, m, before⟩
  | .ok parsed =>
    let field : Field :=
      match fieldOptions.getMember "name" with
      | .str fieldName => { parsed with name := fieldName }
      | _ => parsed
    let m1 : Model := { m with fields := setFieldEntry m.fields field }
    let added := if !m.updatingField then ["fieldAdded"] else []
    match Model.applyModelFieldRetrofill m1 field retrofill with
    | (some e, records) =>
      ⟨.error e, { m1 with records := records }, before ++ added ++ ["beforeRetrofillField"]⟩
    | (none, records) =>
      ⟨.ok field, { m1 with records := records },
        before ++ added ++ ["beforeRetrofillField", "fieldRetrofilled"] ++
          (if !m.updatingField then ["change"] else [])⟩

/-- Source: Model.removeField. Both paths end without a value: the call returns undefined. -/
def Model.removeField (m : Model) (name : Value) : ModelOutcome Value :=
  if !Model.validateModelContains name (m.fields.map (fun field => field.name)) then
    ⟨.ok .undefined, m, []⟩
  else
    ⟨.ok .undefined,
      { m with fields := m.fields.filter (fun field => Value.str field.name != name) },
      (if !m.updatingField then ["beforeRemoveField"] else []) ++
        (if !m.updatingField then ["fieldRemoved", "change"] else [])⟩

/-- Source: Model.addMethod. The call validateName('Method', name) hands two arguments to a
function of one parameter: the name that is validated, and under which the method is stored,
is the text Method. -/
def Model.addMethod (m : Model) (name : Value) (method : Option Method) : ModelOutcome Value :=
  match validateName (.str "Method") with
  | .error e => ⟨.error e, m, ["beforeAddMethod"]⟩
  | .ok methodName =>
    match Model.validateModelMethod "Method" name method (Model.restrictedNames m) with
    | .error e => ⟨.error e, m, ["beforeAddMethod"]⟩
    | .ok callback =>
      ⟨.ok .undefined,
        { m with
          methods :=
            match methodName with
            | .str key => mapSet m.methods key callback
            | _ => m.methods },
        ["beforeAddMethod", "methodAdded", "change"]⟩

/-- Source: Model.removeMethod. -/
def Model.removeMethod (m : Model) (name : Value) : ModelOutcome Value :=
  if !Model.validateModelContains name (m.methods.map (fun entry => entry.1)) then
    ⟨.ok .undefined, m, []⟩
  else
    ⟨.ok .undefined,
      { m with methods := m.methods.filter (fun entry => Value.str entry.1 != name) },
      ["beforeRemoveMethod", "methodRemoved", "change"]⟩

/-- Source: Model.addRelationship. The first argument is the pair of the name of the
relationship and its field. The field is stored in the map of fields under the name of the
relationship, which is taken to be the name that the field carries, and the relationship in
the map of relationships under the same name. The relationship is taken to answer getType,
which the events call. In the first message the field is interpolated as an object. -/
def Model.addRelationship (m : Model) (relationshipName : String) (relationshipField : Field)
    (relationship : Relationship) : ModelOutcome Value :=
  if (Model.restrictedNames m).contains (Value.str relationshipName) then
    ⟨.error ⟨.NameError,
      [.lit "Relationship field ", .lit "[object Object]", .lit " is already in use."]⟩,
      m, ["beforeAddRelationship"]⟩
  else if m.relationships.any (fun entry => entry.1 == relationshipName) then
    ⟨.error ⟨.NameError,
      [.lit "Relationship ", .val (.str relationshipName), .lit " is already in use."]⟩,
      m, ["beforeAddRelationship"]⟩
  else
    ⟨.ok .undefined,
      { m with
        fields := setFieldEntry m.fields { relationshipField with name := relationshipName }
        relationships := mapSet m.relationships relationshipName relationship },
      ["beforeAddRelationship", "relationshipAdded", "change"]⟩

/-- A call to one of the methods that change the fields, the methods or the relationships of a
model. -/
inductive ModelCall where
  | addField (fieldOptions : Value) (retrofill : Retrofill)
  | removeField (name : Value)
  | addMethod (name : Value) (method : Option Method)
  | removeMethod (name : Value)
  | addRelationship (relationshipName : String) (relationshipField : Field)
      (relationship : Relationship)

/-- The model after a call, whether the call returned or threw. -/
def Model.afterCall (makeField : Value → Except JsError Field) (m : Model) : ModelCall → Model
  | .addField fieldOptions retrofill => (Model.addField makeField m fieldOptions retrofill).model
  | .removeField name => (Model.removeField m name).model
  | .addMethod name method => (Model.addMethod m name method).model
  | .removeMethod name => (Model.removeMethod m name).model
  | .addRelationship relationshipName relationshipField relationship =>
    (Model.addRelationship m relationshipName relationshipField relationship).model

/-- The model after a sequence of calls. -/
def Model.afterCalls (makeField : Value → Except JsError Field) (m : Model)
    (calls : List ModelCall) : Model :=
  calls.foldl (Model.afterCall makeField) m

/-- Source: Model.updateField. The read field.name throws a TypeError when the field is null
or undefined. The flag updatingField is set before the removal and cleared after the addition:
when the addition throws, the statements after it are not reached. -/
def Model.updateField (makeField : Value → Except JsError Field) (m : Model)
    (name field : Value) (retrofill : Retrofill) : ModelOutcome Value :=
  if field == .null || field == .undefined then
    ⟨.error RecordHandler.undefinedAccess, m, []⟩
  else if field.getMember "name" != name then
    ⟨.error ⟨.NameError,
      [.lit "Field name ", .val (field.getMember "name"), .lit " does not match ", .val name,
        .lit "."]⟩, m, []⟩
  else
    let removed := Model.removeField { m with updatingField := true } name
    let added := Model.addField makeField removed.model field retrofill
    match added.result with
    | .error e =>
      ⟨.error e, added.model, ["beforeUpdateField"] ++ removed.events ++ added.events⟩
    | .ok _ =>
      ⟨.ok .undefined, { added.model with updatingField := false },
        ["beforeUpdateField"] ++ removed.events ++ added.events ++ ["fieldUpdated", "change"]⟩

/-- Source: static #validateModelMethod, as Model.addValidator calls it: the restricted names
it is handed are the map of validators itself, not an array of names. A map has no method
includes, so that the call restrictedNames.includes, reached when the callback is a function,
throws a TypeError. -/
def Model.validateModelMethodOfMap {α : Type} (callbackType : String) (callbackName : Value)
    (callback : Option α) : Except JsError α :=
  match callback with
  | none =>
    .error ⟨.TypeError,
      [.lit callbackType, .lit " ", .val callbackName, .lit " is not a function."]⟩
  | some _ => .error ⟨.TypeError, [.lit "restrictedNames.includes is not a function"]⟩

/-- Source: Model.addValidator. The validator is stored under the name once
#validateModelMethod has returned it. -/
def Model.addValidator (m : Model) (name : Value) (validator : Option Validator) :
    ModelOutcome Value :=
  match Model.validateModelMethodOfMap "Validator" name validator with
  | .error e => ⟨.error e, m, []⟩
  | .ok callback =>
    ⟨.ok .undefined,
      { m with
        validators :=
          match name with
          | .str key => mapSet m.validators key callback
          | _ => m.validators },
      []⟩

/-- Source: static #createKey. The construction of the key field by the Field class is the
parameter makeKeyField, which is given the name and the type of the key; a type that is
neither string nor auto leaves the key field undefined, and defining a property on it throws
a TypeError. -/
def Model.createKey (makeKeyField : Value → KeyType → Except JsError Field) (options : Value) :
    Except JsError (Field × KeyType) :=
  let name : Value :=
    if options.typeOf == .string then options
    else if options.typeOf == .object then
      (if (options.getMember "name").truthy then options.getMember "name" else .str "id")
    else .str "id"
  let type : Value :=
    if options.typeOf == .string then .str "string"
    else if options.typeOf == .object then
      (if (options.getMember "type").truthy then options.getMember "type" else .str "string")
    else .str "string"
  if type == .str "string" then
    match makeKeyField name .string with
    | .error e => .error e
    | .ok keyField => .ok (keyField, .string)
  else if type == .str "auto" then
    match makeKeyField name .auto with
    | .error e => .error e
    | .ok keyField => .ok (keyField, .auto)
  else .error ⟨.TypeError, [.lit "Object.defineProperty called on non-object"]⟩

/-- Source: static #parseModelKey. The read key.name on null throws a TypeError. -/
def Model.parseModelKey (makeKeyField : Value → KeyType → Except JsError Field)
    (modelName : String) (key : Value) : Except JsError (Field × KeyType) :=
  if key.typeOf != .string && key.typeOf != .object then
    .error ⟨.TypeError,
      [.lit modelName, .lit " key ", .val key, .lit " is not a string or object."]⟩
  else if key == .null then .error RecordHandler.undefinedAccess
  else if key.typeOf == .object && !(key.getMember "name").truthy then
    .error ⟨.TypeError, [.lit modelName, .lit " key ", .val key, .lit " is missing a name."]⟩
  else if key.typeOf == .object &&
      !([Value.str "auto", Value.str "string"].contains (key.getMember "type")) then
    .error ⟨.TypeError,
      [.lit modelName, .lit " key ", .val key,
        .lit " type must be either \"string\" or \"auto\"."]⟩
  else Model.createKey makeKeyField key

/-- The options of the Model constructor, as far as the sources cover them: the name, the
fields, the key, the methods and the validators. The options scopes and relationships are
left at their defaults, the empty objects, over which the constructor loops without a step. -/
structure ModelOptions where
  name : Value
  fields : List Value := []
  key : Value := .str "id"
  methods : List (String × Option Method) := []
  validators : List (String × Option Validator) := []

/-- Outcome of the construction of a model: the model or the error thrown, and the static map
of instances as it stands afterwards. -/
structure ConstructOutcome where
  result : Except JsError Model
  instances : List (String × Model)

/-- The loop of the constructor over the fields: fields.forEach(field => this.addField(field)),
which ends with the first call that throws. -/
def Model.addFields (makeField : Value → Except JsError Field) :
    Model → List Value → Except JsError Model
  | m, [] => .ok m
  | m, field :: rest =>
    match (Model.addField makeField m field .undefined).result with
    | .error e => .error e
    | .ok _ => Model.addFields makeField (Model.addField makeField m field .undefined).model rest

/-- The loop of the constructor over the entries of methods. -/
def Model.addMethods : Model → List (String × Option Method) → Except JsError Model
  | m, [] => .ok m
  | m, (methodName, method) :: rest =>
    match (Model.addMethod m (.str methodName) method).result with
    | .error e => .error e
    | .ok _ => Model.addMethods (Model.addMethod m (.str methodName) method).model rest

/-- The loop of the constructor over the entries of validators. -/
def Model.addValidators : Model → List (String × Option Validator) → Except JsError Model
  | m, [] => .ok m
  | m, (validatorName, validator) :: rest =>
    match (Model.addValidator m (.str validatorName) validator).result with
    | .error e => .error e
    | .ok _ =>
      Model.addValidators (Model.addValidator m (.str validatorName) validator).model rest

/-- Source: the constructor of Model. The call validateName('Model', name) hands two arguments
to a function of one parameter: the name that is validated, and that becomes the name of the
model, is the text Model, while the test for an existing model reads the name of the options.
The model is entered into the map of instances, under its name, as the last step. -/
def Model.construct (makeField : Value → Except JsError Field)
    (makeKeyField : Value → KeyType → Except JsError Field)
    (instances : List (String × Model)) (options : ModelOptions) : ConstructOutcome :=
  match validateName (.str "Model") with
  | .error e => ⟨.error e, instances⟩
  | .ok validated =>
    let modelName : String :=
      match validated with
      | .str s => s
      | _ => ""
    if (match options.name with
        | .str s => instances.any (fun entry => entry.1 == s)
        | _ => false) then
      ⟨.error ⟨.DuplicationError,
        [.lit "A model named ", .val options.name, .lit " already exists."]⟩, instances⟩
    else
      match Model.parseModelKey makeKeyField modelName options.key with
      | .error e => ⟨.error e, instances⟩
      | .ok (keyField, keyType) =>
        match Model.addFields makeField (Model.empty modelName keyField.name keyType)
            options.fields with
        | .error e => ⟨.error e, instances⟩
        | .ok m1 =>
          match Model.addMethods m1 options.methods with
          | .error e => ⟨.error e, instances⟩
          | .ok m2 =>
            match Model.addValidators m2 options.validators with
            | .error e => ⟨.error e, instances⟩
            | .ok m3 => ⟨.ok m3, mapSet instances m3.name m3⟩

/-! ## src/validator.js -/

/-- Source: Validator.unique. Reading item[field] on a stored record gives the value of the
field in its field mapping; the comparison is the strict one. -/
def Validator.unique (field : String) : Validator :=
  fun value data =>
    data.all (fun item => !strictEq (getProp item.2.recordValue field) (getProp value field))

/-- Source: Validator.integer. Every number of the embedding is an integer. -/
def Validator.integer (field : String) : Validator :=
  fun value _ =>
    match getProp value field with
    | .num _ => true
    | _ => false

/-- Source: Validator.custom. -/
def Validator.custom (field : String) (fn : Value → List Value → Bool) : Validator :=
  fun value data => fn (getProp value field) (data.map (fun item => getProp item.2.recordValue field))

/-! ## Sample data

The model of the createRecord tests (src/test/model.test.js): an optional string field name
with a uniqueness validator, a required number field age with default 18, the method
nameAndId and the model validator nameNotEqualToId. It is extended with an optional number
field level that has an integer validator, with an optional enum field role, whose default is
its first declared value, and with a cached computed property isAdult. -/

/-- Field name of the test model: { name: 'name', type: 'string', validators: { unique } }. -/
def sampleNameField : Field :=
  { name := "name", typeCheck := isOptional isString, defaultValue := .null,
    validators := [("unique", Validator.unique "name")] }

/-- Field age of the test model: { name: 'age', type: 'numberRequired', defaultValue: 18 }. -/
def sampleAgeField : Field :=
  { name := "age", typeCheck := isNumber, defaultValue := .num 18, validators := [],
    required := true }

/-- An optional number field with an integer validator:
{ name: 'level', type: 'number', validators: { integer } }. -/
def sampleLevelField : Field :=
  { name := "level", typeCheck := isOptional isNumber, defaultValue := .null,
    validators := [("integer", Validator.integer "level")] }

/-- An optional enum field: { name: 'role', type: 'enum', values: ['guest', 'admin'] }. Its
default is the first declared value. -/
def sampleRoleField : Field :=
  { name := "role", typeCheck := isOptional (isEnum [.str "guest", .str "admin"]),
    defaultValue := .str "guest", validators := [] }

/-- The sample model. -/
def sampleModel : Model :=
  { name := "aModel"
    fields := [sampleNameField, sampleAgeField, sampleLevelField, sampleRoleField]
    properties :=
      [("isAdult", fun wrapped =>
          match wrapped with
          | some value =>
            (match getProp value "age" with
             | .num n => .bool (decide (18 ≤ n))
             | _ => .bool false)
          | none => .undefined)]
    cachedProperties := ["isAdult"]
    methods :=
      [("nameAndId", fun wrapped _ =>
          match wrapped with
          | some value =>
            (match getProp value "name", getProp value "id" with
             | .str name, .str id => .str (name ++ "_" ++ id)
             | _, _ => .undefined)
          | none => .undefined)]
    relationships := []
    validators := [("nameNotEqualToId", fun record _ => getProp record "id" != getProp record "name")]
    records := [] }

/-- A fully constructed record of the sample model whose cache is empty. -/
def sampleRecord : Record :=
  { recordValue :=
      [("id", .str "a"), ("name", .str "b"), ("age", .num 18), ("level", .num 1),
        ("role", .str "admin")]
    wrapped := true
    cachedProperties := [] }

/-- The same record after isAdult has been read once: the cache holds its value. -/
def sampleCachedRecord : Record :=
  { sampleRecord with cachedProperties := [("isAdult", .bool true)] }

/-- A record stored in the collection of the sample model: { id: 'a', name: 'x' } after its
creation. -/
def sampleStoredRecord : Record :=
  { recordValue :=
      [("id", .str "a"), ("name", .str "x"), ("age", .num 18), ("level", .null),
        ("role", .str "guest")]
    wrapped := false
    cachedProperties := [] }

/-- The sample model once the record { id: 'a', name: 'x' } has been created. -/
def sampleModelWithRecord : Model :=
  { sampleModel with records := [(.str "a", sampleStoredRecord)] }

/-- The sample model with the field age declared before the field name. -/
def sampleAgeFirstModel : Model :=
  { sampleModelWithRecord with fields := [sampleAgeField, sampleNameField] }

/-- The sample model with a second model validator, registered after nameNotEqualToId. -/
def sampleTwoValidatorsModel : Model :=
  { sampleModel with
    validators :=
      [("nameNotEqualToId", fun record _ => getProp record "id" != getProp record "name"),
        ("ageIsNumber", fun record _ => isNumber (getProp record "age"))] }

/-- The auto-increment model of the createRecord tests (src/test/model.test.js):
{ name: 'bModel', key: { name: 'id', type: 'auto' }, fields: [{ name: 'name', type: 'string' }] }. -/
def sampleAutoModel : Model :=
  { name := "bModel"
    fields := [{ name := "name", typeCheck := isOptional isString, defaultValue := .null,
                 validators := [] }]
    properties := []
    cachedProperties := []
    methods := []
    relationships := []
    validators := []
    records := []
    keyName := "id"
    keyType := .auto }

/-- The model with a custom key name of the tests (src/test/model.test.js):
{ name: 'bModel', key: 'myKey' }. -/
def sampleCustomKeyModel : Model :=
  { name := "bModel"
    fields := []
    properties := []
    cachedProperties := []
    methods := []
    relationships := []
    validators := []
    records := []
    keyName := "myKey"
    keyType := .string }

/-- A record of the model with the custom key name, whose identity is a. -/
def sampleCustomKeyRecord : Record :=
  { recordValue := [("id", .str "a")], wrapped := true, cachedProperties := [] }

/-- A model with a relationship field category: the field is registered under category and the
relationship under category.category; the accessor answers with the name of the model. -/
def sampleRelationshipModel : Model :=
  { name := "post"
    fields := [{ name := "category", typeCheck := fun _ => true, defaultValue := .null,
                 validators := [] }]
    properties := []
    cachedProperties := []
    methods := []
    relationships := [("category.category", { get := fun modelName _ _ => .str modelName })]
    validators := []
    records := [] }

/-- A record of the model with the relationship field, which stores the id c1 for category. -/
def sampleRelationshipRecord : Record :=
  { recordValue := [("id", .str "p1"), ("category", .str "c1")], wrapped := true,
    cachedProperties := [] }

/-- The four restrictions that the documentation of validateName lists, in its words: the name
must be a string, must be at least 1 character long, must not start with a number, and must
contain only alphanumeric characters, numbers or underscores. -/
def documentedNameRestrictions : Value → Bool
  | .str s =>
    decide (1 ≤ s.length) && !(s.toList.head?.any Char.isDigit) &&
      s.toList.all (fun c => c.isAlpha || c.isDigit || c == '_')
  | _ => false

/-- The sample model with a computed property and a method registered under name, the name of
one of its fields. -/
def sampleCollisionModel : Model :=
  { sampleModel with
    properties := [("name", fun _ => .str "from the property")]
    cachedProperties := []
    methods := [("name", fun _ _ => .str "from the method")] }

/-- A sample of the construction of a field from its options: the name of the options is
validated with validateName and becomes the name of the field, which accepts every value and
has the default null. -/
def sampleMakeField (options : Value) : Except JsError Field :=
  match options.getMember "name", validateName (options.getMember "name") with
  | .str fieldName, .ok _ =>
    .ok { name := fieldName, typeCheck := fun _ => true, defaultValue := .null, validators := [] }
  | _, .error e => .error e
  | _, .ok _ => .error RecordHandler.undefinedAccess

/-- A sequence of calls on a new model post whose key is id: a field title is added, a field
named id is refused, the relationship category is added with its field, a method is added and
the field title is removed. -/
def sampleCalls : List ModelCall :=
  [.addField (.obj [("name", .str "title"), ("type", .str "string")]) .undefined,
    .addField (.obj [("name", .str "id"), ("type", .str "string")]) .undefined,
    .addRelationship "category"
      { name := "category", typeCheck := fun _ => true, defaultValue := .null, validators := [] }
      { get := fun modelName _ _ => .str modelName },
    .addMethod (.str "greet") (some (fun _ _ => .str "hello")),
    .removeField (.str "title")]

/-- Source: and, the number of the predicates that are called: types.every calls them in order
and stops after the first one that answers false or throws. -/
def andCalled : List (Value → Except JsError Bool) → Value → Nat
  | [], _ => 0
  | type :: rest, val =>
    match type val with
    | .ok true => 1 + andCalled rest val
    | _ => 1

/-- A sample of the construction of a field from its options that reads more of them: the name
is validated with validateName, the types string and number are known and any other type is
refused, the field is required when the options say so, and its default is the one of the
options, or null when they give none. -/
def sampleStrictMakeField (options : Value) : Except JsError Field :=
  match options.getMember "name", validateName (options.getMember "name") with
  | .str fieldName, .ok _ =>
    let required := (options.getMember "required").truthy
    let defaultValue :=
      if options.getMember "defaultValue" == .undefined then Value.null
      else options.getMember "defaultValue"
    if options.getMember "type" == .str "string" then
      .ok { name := fieldName, typeCheck := if required then isString else isOptional isString,
            defaultValue := defaultValue, validators := [], required := required }
    else if options.getMember "type" == .str "number" then
      .ok { name := fieldName, typeCheck := if required then isNumber else isOptional isNumber,
            defaultValue := defaultValue, validators := [], required := required }
    else .error ⟨.TypeError, [.lit "Field type is invalid."]⟩
  | _, .error e => .error e
  | _, .ok _ => .error RecordHandler.undefinedAccess

/-- A sample of the construction of a key field: the name must be a string that meets the
documented restrictions on names. -/
def sampleMakeKeyField (name : Value) (_keyType : KeyType) : Except JsError Field :=
  match name with
  | .str keyName =>
    if documentedNameRestrictions name then
      .ok { name := keyName, typeCheck := isString, defaultValue := .str "__emptyKey__",
            validators := [], required := true }
    else .error ⟨.NameError, [.lit "Name is invalid."]⟩
  | _ => .error ⟨.NameError, [.lit "Name is invalid."]⟩

/-- The model of the updateField tests (src/test/model.test.js): a new model aModel with the
key id to which the field { name: 'aField', type: 'string' } has been added. -/
def sampleFieldModel : Model :=
  (Model.addField sampleStrictMakeField (Model.empty "aModel" "id" .string)
    (.obj [("name", .str "aField"), ("type", .str "string")]) .undefined).model

/-- A model whose record holds the value 0 for a name that is not a field any more: the field
count is added to a new model, the record { id: 'a', count: 0 } is added, and the field count
is removed. -/
def sampleCounterModel : Model :=
  (Model.removeField
    (Model.add
      (Model.addField sampleStrictMakeField (Model.empty "counter" "id" .string)
        (.obj [("name", .str "count"), ("type", .str "number")]) .undefined).model
      (.obj [("id", .str "a"), ("count", .num 0)])).model
    (.str "count")).model

/-- The same with a record that holds the value 3: { id: 'a', count: 3 }. -/
def sampleCounterThreeModel : Model :=
  (Model.removeField
    (Model.add
      (Model.addField sampleStrictMakeField (Model.empty "counter" "id" .string)
        (.obj [("name", .str "count"), ("type", .str "number")]) .undefined).model
      (.obj [("id", .str "a"), ("count", .num 3)])).model
    (.str "count")).model

/-- A record of the sample model whose name equals its id, so that the model validator
nameNotEqualToId rejects it. -/
def sampleSameNameRecord : Record :=
  { recordValue :=
      [("id", .str "a"), ("name", .str "a"), ("age", .num 18), ("level", .num 1),
        ("role", .str "admin")]
    wrapped := true
    cachedProperties := [] }

/-- A model with a field tags of a function type that accepts every value whose typeof is
object; the default of the field is null. -/
def sampleTagsModel : Model :=
  { name := "post"
    fields := [{ name := "tags", typeCheck := fun value => value.typeOf == .object,
                 defaultValue := .null, validators := [] }]
    properties := []
    cachedProperties := []
    methods := []
    relationships := []
    validators := []
    records := [] }

/-- A record of the model with the field tags, to which an object with an own entry under the
name __proto__ has been written, such as JSON.parse gives. -/
def sampleTagsRecord : Record :=
  { recordValue := [("id", .str "a"), ("tags", .obj [("__proto__", .num 1), ("x", .num 2)])]
    wrapped := true
    cachedProperties := [] }

/-- A model in which a name is a field and a method at once: the field Method is added to a
new model, and a method is then added, which addMethod stores under the name Method. -/
def sampleMethodFieldModel : Model :=
  Model.afterCalls sampleStrictMakeField (Model.empty "aModel" "id" .string)
    [.addField (.obj [("name", .str "Method"), ("type", .str "string")]) .undefined,
      .addMethod (.str "greet") (some (fun _ _ => .str "hello"))]

/-- The same model with a cached computed property label, which gives the value of the field
Method. -/
def sampleMethodFieldCachedModel : Model :=
  { sampleMethodFieldModel with
    properties := [("label", fun wrapped =>
      match wrapped with
      | some value => getProp value "Method"
      | none => .undefined)]
    cachedProperties := ["label"] }

/-- A fully constructed record of that model whose cache holds the value of label. -/
def sampleMethodFieldRecord : Record :=
  { recordValue := [("id", .str "a"), ("Method", .str "x")]
    wrapped := true
    cachedProperties := [("label", .str "x")] }

/-! ## Lemmas on objects and validator loops -/

theorem getProp_setProp_same (kvs : List (String × Value)) (key : String) (v : Value) :
    getProp (setProp kvs key v) key = v := by
  induction kvs with
  | nil => simp [setProp, getProp]
  | cons entry rest ih =>
    obtain ⟨k, w⟩ := entry
    by_cases h : k = key
    · simp [setProp, getProp, h]
    · simp [setProp, getProp, h, ih]

theorem getProp_setProp_other (kvs : List (String × Value)) (key other : String) (v : Value)
    (hne : key ≠ other) : getProp (setProp kvs key v) other = getProp kvs other := by
  induction kvs with
  | nil => simp [setProp, getProp, hne]
  | cons entry rest ih =>
    obtain ⟨k, w⟩ := entry
    by_cases h : k = key
    · subst h
      simp [setProp, getProp, hne]
    · by_cases h2 : k = other
      · subst h2
        simp [setProp, getProp, h]
      · simp [setProp, getProp, h, h2, ih]

theorem firstFailing_eq_none_iff (validators : List (String × Validator))
    (fails : Validator → Bool) :
    firstFailing validators fails = none ↔ ∀ entry ∈ validators, fails entry.2 = false := by
  induction validators with
  | nil => simp [firstFailing]
  | cons entry rest ih =>
    obtain ⟨n, v⟩ := entry
    by_cases h : fails v = true
    · simp [firstFailing, h]
    · simp [firstFailing, h, ih]

theorem firstFailing_some_mem (validators : List (String × Validator))
    (fails : Validator → Bool) (validatorName : String)
    (h : firstFailing validators fails = some validatorName) :
    ∃ validator, (validatorName, validator) ∈ validators ∧ fails validator = true := by
  induction validators with
  | nil => simp [firstFailing] at h
  | cons entry rest ih =>
    obtain ⟨n, v⟩ := entry
    by_cases hv : fails v = true
    · simp [firstFailing, hv] at h
      exact ⟨v, by simp [h], hv⟩
    · simp [firstFailing, hv] at h
      obtain ⟨w, hw, hf⟩ := ih h
      exact ⟨w, by simp [hw], hf⟩

theorem firstFailing_isSome_of_mem (validators : List (String × Validator))
    (fails : Validator → Bool) (entry : String × Validator) (hmem : entry ∈ validators)
    (hfails : fails entry.2 = true) : ∃ validatorName, firstFailing validators fails = some validatorName := by
  cases hres : firstFailing validators fails with
  | some n => exact ⟨n, rfl⟩
  | none =>
    have := (firstFailing_eq_none_iff validators fails).1 hres entry hmem
    simp [this] at hfails

mutual
/-- On a value whose typeof is object and none of whose objects has an own entry under the name
__proto__, deepClone gives back a structurally equal value. -/
theorem deepClone_eq_self :
    ∀ v : Value, v.typeOf = .object → hasNoProtoKey v = true → deepClone v = v
  | .null, _, _ => by rw [deepClone]
  | .date _, _, _ => by rw [deepClone]
  | .arr xs, _, h => by
    rw [hasNoProtoKey] at h
    rw [deepClone, deepCloneItems_eq_self xs h]
  | .obj kvs, _, h => by
    rw [hasNoProtoKey] at h
    rw [deepClone, deepCloneEntries_eq_self kvs h]
  | .undefined, h, _ => by simp [Value.typeOf] at h
  | .bool _, h, _ => by simp [Value.typeOf] at h
  | .num _, h, _ => by simp [Value.typeOf] at h
  | .str _, h, _ => by simp [Value.typeOf] at h
theorem deepCloneItems_eq_self :
    ∀ xs : List Value, hasNoProtoKeyItems xs = true → deepCloneItems xs = xs
  | [], _ => by rw [deepCloneItems]
  | value :: rest, h => by
    rw [hasNoProtoKeyItems, Bool.and_eq_true] at h
    rw [deepCloneItems, deepCloneItems_eq_self rest h.2]
    by_cases hobj : value.typeOf = .object
    · rw [if_pos hobj, deepClone_eq_self value hobj h.1]
    · rw [if_neg hobj]
theorem deepCloneEntries_eq_self :
    ∀ kvs : List (String × Value), hasNoProtoKeyEntries kvs = true → deepCloneEntries kvs = kvs
  | [], _ => by rw [deepCloneEntries]
  | (key, value) :: rest, h => by
    rw [hasNoProtoKeyEntries, Bool.and_eq_true, Bool.and_eq_true] at h
    have hkey : ¬ key = "__proto__" := by simpa using h.1.1
    rw [deepCloneEntries, if_neg hkey, deepCloneEntries_eq_self rest h.2]
    by_cases hobj : value.typeOf = .object
    · rw [if_pos hobj, deepClone_eq_self value hobj h.1.2]
    · rw [if_neg hobj]
end

/-- A value that is not a date, an array or an object, and not null, is strictly equal to
itself. -/
theorem strictEq_self_of_primitive (x : Value) (h : x.typeOf ≠ .object) : strictEq x x = true := by
  cases x with
  | undefined => rfl
  | null => exact absurd rfl h
  | bool b => simp [strictEq]
  | num n => simp [strictEq]
  | str s => simp [strictEq]
  | date d => exact absurd rfl h
  | arr xs => exact absurd rfl h
  | obj kvs => exact absurd rfl h

/-- What the clone of an object holds under a name other than __proto__: the clone of what the
object holds under it. -/
theorem getProp_deepCloneEntries (kvs : List (String × Value)) (p : String)
    (hp : p ≠ "__proto__") :
    getProp (deepCloneEntries kvs) p =
      if (getProp kvs p).typeOf = .object then deepClone (getProp kvs p) else getProp kvs p := by
  induction kvs with
  | nil => rfl
  | cons entry rest ih =>
    obtain ⟨key, value⟩ := entry
    by_cases hkey : key = "__proto__"
    · have hne : ¬ key = p := fun h => hp (h ▸ hkey)
      simp only [deepCloneEntries, hkey, if_true, getProp]
      rw [hkey] at hne
      simp only [hne, if_false]
      exact ih
    · by_cases hkp : key = p
      · subst hkp
        simp only [deepCloneEntries, hkey, if_false, getProp, if_true]
      · simp only [deepCloneEntries, hkey, if_false, getProp, hkp]
        exact ih

/-- When no object within an object has an own entry under __proto__, none within what the
object holds under a name has one. -/
theorem hasNoProtoKey_getProp (kvs : List (String × Value)) (p : String)
    (h : hasNoProtoKeyEntries kvs = true) : hasNoProtoKey (getProp kvs p) = true := by
  induction kvs with
  | nil => rfl
  | cons entry rest ih =>
    obtain ⟨key, value⟩ := entry
    rw [hasNoProtoKeyEntries, Bool.and_eq_true, Bool.and_eq_true] at h
    by_cases hkp : key = p
    · simp only [getProp, hkp, if_true]
      exact h.1.2
    · simp only [getProp, hkp, if_false]
      exact ih h.2

/-- What the clone of a value whose typeof is object holds under a name other than __proto__,
when what the value holds under it is a primitive or has no own entry under __proto__ within
it: the same as the value. -/
theorem getMember_deepClone (v : Value) (p : String) (hobj : v.typeOf = .object)
    (hp : p ≠ "__proto__")
    (hvalue : (v.getMember p).typeOf = .object → hasNoProtoKey (v.getMember p) = true) :
    (deepClone v).getMember p = v.getMember p := by
  cases v with
  | obj kvs =>
    simp only [deepClone, Value.getMember] at hvalue ⊢
    rw [getProp_deepCloneEntries kvs p hp]
    by_cases hty : (getProp kvs p).typeOf = .object
    · rw [if_pos hty, deepClone_eq_self _ hty (hvalue hty)]
    · rw [if_neg hty]
  | arr xs => simp only [deepClone, Value.getMember]
  | date d => simp only [deepClone, Value.getMember]
  | null => simp only [deepClone, Value.getMember]
  | undefined => simp [Value.typeOf] at hobj
  | bool b => simp [Value.typeOf] at hobj
  | num n => simp [Value.typeOf] at hobj
  | str s => simp [Value.typeOf] at hobj

namespace RecordHandler

theorem getField_name (m : Model) (p : String) (f : Field) (h : getField m (.str p) = some f) :
    f.name = p := by
  have := List.find?_some h
  simpa using this

theorem hasField_of_getField (m : Model) (p : String) (f : Field)
    (h : getField m (.str p) = some f) : hasField m (.str p) = true := by
  have hn := List.find?_some h
  have hmem := List.mem_of_find?_eq_some h
  simp only [hasField, List.any_eq_true]
  exact ⟨f, hmem, hn⟩

theorem getField_none_of_hasField_false (m : Model) (property : PropertyKey)
    (h : hasField m property = false) : getField m property = none := by
  cases property with
  | sym s => rfl
  | str p =>
    cases hg : getField m (.str p) with
    | none => rfl
    | some f => simp [hasField_of_getField m p f hg] at h

/-- The write of set on a name that is a field and neither a computed property nor a method,
spelled out: the record after the assignment, the field validators, then the model
validators. -/
theorem set_field_eq (m : Model) (record : Record) (p : String) (value : Value)
    (skipValidation : Bool) (f : Field)
    (hp : hasProperty m (.str p) = false) (hm : hasMethod m (.str p) = false)
    (hf : getField m (.str p) = some f) :
    set m record (.str p) value skipValidation =
      match setRecordField m.name record f value (hasRelationshipField m (.str p)) with
      | .error e => ⟨.error e, record⟩
      | .ok record1 =>
        match firstFailing f.validators (fun validator =>
            !([Value.null, Value.undefined].contains (getProp record1.recordValue p)) &&
            !validator record1.recordValue (RecordSet.except m.records (getRecordId record))) with
        | some validatorName =>
          ⟨.error (validationError m.name (getRecordId record) validatorName), record1⟩
        | none =>
          if skipValidation then ⟨.ok true, record1⟩
          else
            match firstFailing m.validators (fun validator =>
                !validator record1.recordValue
                  (RecordSet.except m.records (getRecordId record))) with
            | some validatorName =>
              ⟨.error (validationError m.name (getRecordId record) validatorName), record1⟩
            | none => ⟨.ok true, record1⟩ := by
  have hhas := hasField_of_getField m p f hf
  unfold set
  simp only [hp, hm, hhas, hf, if_true, Bool.false_eq_true, if_false, getModelName,
    getValidators, getFieldValue]
  cases setRecordField m.name record f value (hasRelationshipField m (.str p)) with
  | error e => rfl
  | ok record1 =>
    simp only []
    cases firstFailing f.validators _ with
    | some n => rfl
    | none =>
      cases skipValidation <;> simp

/-- The assignment of setRecordField when the type check does not refuse the value. -/
theorem setRecordField_ok (modelName : String) (record : Record) (f : Field) (value : Value)
    (isRelationship : Bool)
    (h : isRelationship = true ∨
      f.typeCheck (if isUndefined value then f.defaultValue else value) = true) :
    setRecordField modelName record f value isRelationship =
      .ok { recordValue := setProp record.recordValue f.name
              (if !isRelationship && isUndefined value then f.defaultValue else value)
            wrapped := record.wrapped
            cachedProperties := if record.wrapped then [] else record.cachedProperties } := by
  unfold setRecordField
  cases isRelationship with
  | true => cases hw : record.wrapped <;> simp [hw]
  | false =>
    have h2 : f.typeCheck (if isUndefined value then f.defaultValue else value) = true := by
      simpa using h
    cases hw : record.wrapped <;> simp [h2, hw]

theorem any_key_setProp (kvs : List (String × Value)) (key : String) (v : Value) :
    (setProp kvs key v).any (fun entry => entry.1 == key) = true := by
  induction kvs with
  | nil => simp [setProp]
  | cons entry rest ih =>
    obtain ⟨k, w⟩ := entry
    by_cases h : k = key
    · simp [setProp, h]
    · simp only [setProp, h, if_false, List.any_cons, ih, Bool.or_true]

/-- A read of a name that is a computed property and neither id nor a field goes to
getProperty. -/
theorem get_property_eq (m : Model) (record : Record) (q : String)
    (hid : q ≠ "id") (hfield : hasField m (.str q) = false)
    (hprop : hasProperty m (.str q) = true) :
    get m record (.str q) = getProperty m record q := by
  have hidb : isRecordId (.str q) = false := by
    simp [isRecordId, hid]
  simp [get, hasRelationshipField, hfield, hidb, hprop]

theorem find_property_of_hasProperty (m : Model) (q : String)
    (hprop : hasProperty m (.str q) = true) :
    ∃ entry, m.properties.find? (fun entry => entry.1 == q) = some entry := by
  cases hfind : m.properties.find? (fun entry => entry.1 == q) with
  | some entry => exact ⟨entry, rfl⟩
  | none =>
    rw [List.find?_eq_none] at hfind
    simp only [hasProperty, List.any_eq_true] at hprop
    obtain ⟨entry, hmem, heq⟩ := hprop
    exact absurd heq (hfind entry hmem)

/-- A read of a computed property on a record whose cache is empty invokes the function of the
property. -/
theorem getProperty_invoked_of_empty_cache (m : Model) (record : Record) (q : String)
    (hprop : hasProperty m (.str q) = true) (hcache : record.cachedProperties = []) :
    (getProperty m record q).invoked = [q] := by
  obtain ⟨entry, hentry⟩ := find_property_of_hasProperty m q hprop
  unfold getProperty
  rw [hentry]
  simp only [hcache, List.any_nil, Bool.false_eq_true, if_false]
  split <;> rfl

theorem getField_of_hasField (m : Model) (property : PropertyKey)
    (h : hasField m property = true) :
    ∃ p f, property = .str p ∧ getField m (.str p) = some f := by
  cases property with
  | sym s => simp [hasField] at h
  | str p =>
    simp only [hasField, List.any_eq_true] at h
    obtain ⟨f, hmem, hname⟩ := h
    cases hg : getField m (.str p) with
    | some g => exact ⟨p, g, rfl, hg⟩
    | none =>
      simp only [getField, List.find?_eq_none] at hg
      exact absurd hname (hg f hmem)

/-- The write of set on a field that the type check does not refuse: the record afterwards is
the record with the stored value assigned and, when it is wrapped, its cache cleared,
whatever the validators answer; the result is decided by the field validators, then by the
model validators. -/
theorem set_field_written (m : Model) (record : Record) (p : String) (value : Value)
    (skipValidation : Bool) (f : Field)
    (hp : hasProperty m (.str p) = false) (hm : hasMethod m (.str p) = false)
    (hf : getField m (.str p) = some f)
    (hty : hasRelationshipField m (.str p) = true ∨
      f.typeCheck (if isUndefined value then f.defaultValue else value) = true) :
    set m record (.str p) value skipValidation =
      ⟨match firstFailing f.validators (fun validator =>
            !([Value.null, Value.undefined].contains
              (if !hasRelationshipField m (.str p) && isUndefined value then f.defaultValue
                else value)) &&
            !validator
              (setProp record.recordValue p
                (if !hasRelationshipField m (.str p) && isUndefined value then f.defaultValue
                  else value))
              (RecordSet.except m.records (getRecordId record))) with
        | some validatorName =>
          .error (validationError m.name (getRecordId record) validatorName)
        | none =>
          if skipValidation then .ok true
          else
            match firstFailing m.validators (fun validator =>
                !validator
                  (setProp record.recordValue p
                    (if !hasRelationshipField m (.str p) && isUndefined value then f.defaultValue
                      else value))
                  (RecordSet.except m.records (getRecordId record))) with
            | some validatorName =>
              .error (validationError m.name (getRecordId record) validatorName)
            | none => .ok true,
        ⟨setProp record.recordValue p
            (if !hasRelationshipField m (.str p) && isUndefined value then f.defaultValue
              else value),
          record.wrapped, if record.wrapped then [] else record.cachedProperties⟩⟩ := by
  have hname := getField_name m p f hf
  rw [set_field_eq m record p value skipValidation f hp hm hf,
    setRecordField_ok m.name record f value _ hty]
  simp only [hname, getProp_setProp_same]
  split
  · rfl
  · cases skipValidation with
    | true => rfl
    | false =>
      simp only [Bool.false_eq_true, if_false]
      split <;> rfl

/-- The write of set on a name that is neither a field, a computed property nor a method:
nothing is stored and only the model validators are consulted. -/
theorem set_unknown_eq (m : Model) (record : Record) (property : PropertyKey) (value : Value)
    (skipValidation : Bool)
    (hp : hasProperty m property = false) (hm : hasMethod m property = false)
    (hf : hasField m property = false) :
    set m record property value skipValidation =
      if skipValidation then ⟨.ok true, record⟩
      else
        match firstFailing m.validators (fun validator =>
            !validator record.recordValue (RecordSet.except m.records (getRecordId record))) with
        | some validatorName =>
          ⟨.error (validationError m.name (getRecordId record) validatorName), record⟩
        | none => ⟨.ok true, record⟩ := by
  unfold set
  simp only [hp, hm, hf, Bool.false_eq_true, if_false, getModelName, getValidators]
  cases skipValidation <;> simp

/-- Whenever set returns, it returns true. -/
theorem set_ok_true (m : Model) (record : Record) (property : PropertyKey) (value : Value)
    (skipValidation b : Bool)
    (h : (set m record property value skipValidation).result = .ok b) : b = true := by
  by_cases hp : hasProperty m property = true
  · simp [set, hp] at h
  · by_cases hm : hasMethod m property = true
    · simp [set, hp, hm] at h
    · simp only [Bool.not_eq_true] at hp hm
      by_cases hfield : hasField m property = true
      · obtain ⟨p, f, hpk, hf⟩ := getField_of_hasField m property hfield
        subst hpk
        rw [set_field_eq m record p value skipValidation f hp hm hf] at h
        revert h
        split
        · simp
        · split
          · simp
          · split
            · simp
            · split <;> simp
      · simp only [Bool.not_eq_true] at hfield
        rw [set_unknown_eq m record property value skipValidation hp hm hfield] at h
        revert h
        split
        · simp
        · split <;> simp

/-- With skipValidation not set, set and the same write with skipValidation set differ only by
the pass over the model validators, made on the record as the write with skipValidation set
leaves it, and only when that write does not throw. -/
theorem set_noskip_eq (m : Model) (record : Record) (property : PropertyKey) (value : Value) :
    set m record property value false =
      match (set m record property value true).result with
      | .error _ => set m record property value true
      | .ok _ =>
        match firstFailing m.validators (fun validator =>
            !validator (set m record property value true).record.recordValue
              (RecordSet.except m.records (getRecordId record))) with
        | some validatorName =>
          ⟨.error (validationError m.name (getRecordId record) validatorName),
            (set m record property value true).record⟩
        | none => set m record property value true := by
  by_cases hp : hasProperty m property = true
  · simp [set, hp]
  · by_cases hm : hasMethod m property = true
    · simp [set, hp, hm]
    · simp only [Bool.not_eq_true] at hp hm
      by_cases hfield : hasField m property = true
      · obtain ⟨p, f, hpk, hf⟩ := getField_of_hasField m property hfield
        subst hpk
        rw [set_field_eq m record p value false f hp hm hf,
          set_field_eq m record p value true f hp hm hf]
        cases setRecordField m.name record f value (hasRelationshipField m (.str p)) with
        | error e => rfl
        | ok record1 =>
          simp only []
          cases firstFailing f.validators _ with
          | some n => rfl
          | none =>
            simp only [Bool.false_eq_true, if_false, if_true]
      · simp only [Bool.not_eq_true] at hfield
        rw [set_unknown_eq m record property value false hp hm hfield,
          set_unknown_eq m record property value true hp hm hfield]
        simp only [Bool.false_eq_true, if_false, if_true]

theorem hasField_with_validators (m : Model) (q : String)
    (validators : List (String × Validator)) (property : PropertyKey) :
    hasField { m with fields := m.fields.map (fun f =>
        if f.name = q then { f with validators := validators } else f) } property =
      hasField m property := by
  cases property with
  | sym s => rfl
  | str p =>
    simp only [hasField, List.any_map]
    congr 1
    funext f
    simp only [Function.comp]
    split <;> rfl

theorem find_map_validators (fields : List Field) (p q : String)
    (validators : List (String × Validator)) (hne : p ≠ q) :
    (fields.map (fun f =>
        if f.name = q then { f with validators := validators } else f)).find?
        (fun field => field.name == p) =
      fields.find? (fun field => field.name == p) := by
  induction fields with
  | nil => rfl
  | cons f rest ih =>
    rw [List.map_cons, List.find?_cons, List.find?_cons, ih]
    by_cases hq : f.name = q
    · have hp : (f.name == p) = false := by
        rw [beq_eq_false_iff_ne]
        exact fun h => hne (h.symm.trans hq)
      simp only [hq, if_true]
      rw [hq] at hp
      rw [hp]
    · simp only [hq, if_false]

theorem getField_with_validators (m : Model) (p q : String)
    (validators : List (String × Validator)) (hne : p ≠ q) :
    getField { m with fields := m.fields.map (fun f =>
        if f.name = q then { f with validators := validators } else f) } (.str p) =
      getField m (.str p) :=
  find_map_validators m.fields p q validators hne

/-- When set returns on a field, the field mapping afterwards is the former one with the stored
value assigned to the field. -/
theorem set_ok_recordValue_of_field (m : Model) (record : Record) (p : String) (value : Value)
    (skipValidation b : Bool) (f : Field)
    (h : (set m record (.str p) value skipValidation).result = .ok b)
    (hf : getField m (.str p) = some f) :
    (set m record (.str p) value skipValidation).record.recordValue =
      setProp record.recordValue p
        (if !hasRelationshipField m (.str p) && isUndefined value then f.defaultValue
          else value) := by
  by_cases hp : hasProperty m (.str p) = true
  · simp [set, hp] at h
  · by_cases hm : hasMethod m (.str p) = true
    · simp [set, hp, hm] at h
    · simp only [Bool.not_eq_true] at hp hm
      by_cases hty : hasRelationshipField m (.str p) = true ∨
          f.typeCheck (if isUndefined value then f.defaultValue else value) = true
      · rw [set_field_written m record p value skipValidation f hp hm hf hty]
      · have hrel : hasRelationshipField m (.str p) = false := by
          cases hr : hasRelationshipField m (.str p) with
          | true => exact absurd (Or.inl hr) hty
          | false => rfl
        have htc : f.typeCheck (if isUndefined value then f.defaultValue else value) = false := by
          cases ht : f.typeCheck (if isUndefined value then f.defaultValue else value) with
          | true => exact absurd (Or.inr ht) hty
          | false => rfl
        rw [set_field_eq m record p value skipValidation f hp hm hf, hrel] at h
        simp [setRecordField, htc] at h

/-- When set returns on a name that is not a field, the record is as it was. -/
theorem set_ok_record_of_not_field (m : Model) (record : Record) (property : PropertyKey)
    (value : Value) (skipValidation b : Bool)
    (h : (set m record property value skipValidation).result = .ok b)
    (hf : hasField m property = false) :
    (set m record property value skipValidation).record = record := by
  by_cases hp : hasProperty m property = true
  · simp [set, hp] at h
  · by_cases hm : hasMethod m property = true
    · simp [set, hp, hm] at h
    · simp only [Bool.not_eq_true] at hp hm
      rw [set_unknown_eq m record property value skipValidation hp hm hf]
      cases skipValidation with
      | true => rfl
      | false =>
        simp only [Bool.false_eq_true, if_false]
        split <;> rfl

/-- The loop of createRecord over field names: when it completes, every name of the list that
is a field holds its stored value, and every other entry of the field mapping is as before. -/
theorem setFields_spec (m : Model) (clonedRecord : Value) :
    ∀ (names : List String) (record newRecord : Record),
      setFields m clonedRecord names record = .ok newRecord →
      ∀ p : String,
        (p ∈ names → ∀ f, getField m (.str p) = some f →
          getProp newRecord.recordValue p =
            (if !hasRelationshipField m (.str p) && isUndefined (clonedRecord.getMember p)
              then f.defaultValue else clonedRecord.getMember p)) ∧
        (p ∉ names → getProp newRecord.recordValue p = getProp record.recordValue p)
  | [], record, newRecord, h, p => by
    simp only [setFields, Except.ok.injEq] at h
    subst h
    simp
  | field :: rest, record, newRecord, h, p => by
    simp only [setFields] at h
    cases hres : (set m record (.str field) (clonedRecord.getMember field) true).result with
    | error e => simp [hres] at h
    | ok b =>
      simp only [hres] at h
      have ih := setFields_spec m clonedRecord rest _ newRecord h p
      have hstep : ∀ other : String, other ≠ field →
          getProp (set m record (.str field) (clonedRecord.getMember field)
            true).record.recordValue other = getProp record.recordValue other := by
        intro other hother
        cases hg : getField m (.str field) with
        | some g =>
          rw [set_ok_recordValue_of_field m record field _ true b g hres hg]
          exact getProp_setProp_other _ _ _ _ (fun h => hother h.symm)
        | none =>
          have hnf : hasField m (.str field) = false := by
            cases hh : hasField m (.str field) with
            | false => rfl
            | true =>
              obtain ⟨p2, f2, hpk, hf2⟩ := getField_of_hasField m (.str field) hh
              cases hpk
              rw [hg] at hf2
              cases hf2
          rw [set_ok_record_of_not_field m record (.str field) _ true b hres hnf]
      constructor
      · intro hmem f hf
        by_cases hrest : p ∈ rest
        · exact ih.1 hrest f hf
        · have hp : p = field := by
            cases List.mem_cons.1 hmem with
            | inl h1 => exact h1
            | inr h2 => exact absurd h2 hrest
          subst hp
          rw [ih.2 hrest, set_ok_recordValue_of_field m record p _ true b f hres hf]
          exact getProp_setProp_same _ _ _
      · intro hnot
        have hne : p ≠ field := fun h1 => hnot (h1 ▸ List.mem_cons_self _ _)
        have hrest : p ∉ rest := fun h1 => hnot (List.mem_cons_of_mem _ h1)
        rw [ih.2 hrest, hstep p hne]

theorem mem_getFieldNames_of_getField (m : Model) (p : String) (f : Field)
    (hf : getField m (.str p) = some f) : p ∈ getFieldNames m := by
  have hmem := List.mem_of_find?_eq_some hf
  have hname := getField_name m p f hf
  simp only [getFieldNames, List.mem_map]
  exact ⟨f, hmem, hname⟩

/-! ## The write path -/

/-- C1: a write to a name that is a computed property or a method of the model always fails,
whatever the record, the value and skipValidation. The error is the write error of the
handler, the TypeError whose message says that the property or the method cannot be set, and
the record is left as it was. -/
theorem set_property_or_method_throws (m : Model) (record : Record) (property : PropertyKey)
    (value : Value) (skipValidation : Bool)
    (h : hasProperty m property = true ∨ hasMethod m property = true) :
    ∃ what, (what = " cannot set property " ∨ what = " cannot set method ") ∧
      set m record property value skipValidation =
        ⟨.error ⟨.TypeError,
          [.val (.str m.name), .lit " record ", .val (getRecordId record), .lit what,
            .key property, .lit "."]⟩, record⟩ := by
  by_cases hp : hasProperty m property = true
  · exact ⟨" cannot set property ", Or.inl rfl, by simp [set, hp, getModelName]⟩
  · have hm : hasMethod m property = true := by
      cases h with
      | inl h1 => exact absurd h1 hp
      | inr h2 => exact h2
    exact ⟨" cannot set method ", Or.inr rfl, by simp [set, hp, hm, getModelName]⟩

/-- Witness of C1 on the sample model: isAdult is a computed property, and writing it throws. -/
theorem set_property_or_method_throws_witness :
    (hasProperty sampleModel (.str "isAdult") = true ∨
        hasMethod sampleModel (.str "isAdult") = true) ∧
      ∃ what, (what = " cannot set property " ∨ what = " cannot set method ") ∧
        set sampleModel sampleRecord (.str "isAdult") (.bool false) true =
          ⟨.error ⟨.TypeError,
            [.val (.str sampleModel.name), .lit " record ", .val (getRecordId sampleRecord),
              .lit what, .key (.str "isAdult"), .lit "."]⟩, sampleRecord⟩ :=
  ⟨Or.inl (by decide),
    set_property_or_method_throws sampleModel sampleRecord (.str "isAdult") (.bool false) true
      (Or.inl (by decide))⟩

/-- C2, as stated, fails: on the sample model the field level accepts null, its integer
validator rejects the record in which level is null, and yet the write of null returns true,
because a field validator is not consulted when the stored value is null or undefined. -/
theorem set_null_passes_rejecting_field_validator :
    getField sampleModel (.str "level") = some sampleLevelField ∧
      hasRelationshipField sampleModel (.str "level") = false ∧
      sampleLevelField.typeCheck (if isUndefined Value.null then sampleLevelField.defaultValue
        else Value.null) = true ∧
      (∃ entry ∈ sampleLevelField.validators,
        entry.2 (setProp sampleRecord.recordValue "level" .null)
          (RecordSet.except sampleModel.records (getRecordId sampleRecord)) = false) ∧
      (set sampleModel sampleRecord (.str "level") .null false).result = .ok true := by
  refine ⟨rfl, by decide, by decide, ⟨("integer", Validator.integer "level"), ?_, by decide⟩,
    by decide⟩
  simp [sampleLevelField]

/-- C2, amended: a write to a field that the type check does not refuse (its effective value
passes the type check, or the field is a relationship field, which is not type checked)
throws a validation error, and the field mapping of the record afterwards holds the new value
of the field, whenever a validator bound to the field rejects the updated record while the
stored value is neither null nor undefined, or skipValidation is not set and a model validator
rejects the updated record. The write is not rolled back. -/
theorem set_validator_failure_keeps_write (m : Model) (record : Record) (p : String)
    (value : Value) (skipValidation : Bool) (f : Field) (stored : Value)
    (hp : hasProperty m (.str p) = false) (hm : hasMethod m (.str p) = false)
    (hf : getField m (.str p) = some f)
    (hty : hasRelationshipField m (.str p) = true ∨
      f.typeCheck (if isUndefined value then f.defaultValue else value) = true)
    (hstored : stored =
      if !hasRelationshipField m (.str p) && isUndefined value then f.defaultValue else value)
    (hrej :
      ([Value.null, Value.undefined].contains stored = false ∧
        ∃ entry ∈ f.validators,
          entry.2 (setProp record.recordValue p stored)
            (RecordSet.except m.records (getRecordId record)) = false) ∨
      (skipValidation = false ∧
        ∃ entry ∈ m.validators,
          entry.2 (setProp record.recordValue p stored)
            (RecordSet.except m.records (getRecordId record)) = false)) :
    ∃ validatorName,
      (set m record (.str p) value skipValidation).result =
          .error (validationError m.name (getRecordId record) validatorName) ∧
        getProp (set m record (.str p) value skipValidation).record.recordValue p = stored := by
  rw [set_field_written m record p value skipValidation f hp hm hf hty, ← hstored]
  simp only [getProp_setProp_same, and_true]
  cases hff : firstFailing f.validators _ with
  | some n => exact ⟨n, rfl⟩
  | none =>
    have hnone := (firstFailing_eq_none_iff _ _).1 hff
    cases hrej with
    | inl h1 =>
      obtain ⟨hnn, entry, hmem, hfalse⟩ := h1
      have := hnone entry hmem
      rw [hnn, hfalse] at this
      exact absurd this (by decide)
    | inr h2 =>
      obtain ⟨hskip, entry, hmem, hfalse⟩ := h2
      subst hskip
      obtain ⟨n, hn⟩ := firstFailing_isSome_of_mem m.validators
        (fun validator => !validator (setProp record.recordValue p stored)
          (RecordSet.except m.records (getRecordId record))) entry hmem
        (by show (!entry.2 _ _) = true; rw [hfalse]; rfl)
      simp only [Bool.false_eq_true, if_false, hn]
      exact ⟨n, rfl⟩

/-- Witness of the amended C2 on the sample model: writing the name a to the record whose id is
a is accepted by the type check and rejected by the model validator nameNotEqualToId; set
throws and the record holds the new name. -/
theorem set_validator_failure_keeps_write_witness :
    getField sampleModel (.str "name") = some sampleNameField ∧
      sampleNameField.typeCheck (.str "a") = true ∧
      (∃ entry ∈ sampleModel.validators,
        entry.2 (setProp sampleRecord.recordValue "name" (.str "a"))
          (RecordSet.except sampleModel.records (getRecordId sampleRecord)) = false) ∧
      ∃ validatorName,
        (set sampleModel sampleRecord (.str "name") (.str "a") false).result =
            .error (validationError sampleModel.name (getRecordId sampleRecord) validatorName) ∧
          getProp (set sampleModel sampleRecord (.str "name") (.str "a") false).record.recordValue
            "name" = .str "a" :=
  ⟨rfl, by decide,
    ⟨("nameNotEqualToId", fun record _ => getProp record "id" != getProp record "name"),
      by simp [sampleModel], by decide⟩,
    set_validator_failure_keeps_write sampleModel sampleRecord "name" (.str "a") false
      sampleNameField (.str "a") (by decide) (by decide) rfl (Or.inr (by decide)) (by decide)
      (Or.inr ⟨rfl,
        ⟨("nameNotEqualToId", fun record _ => getProp record "id" != getProp record "name"),
          by simp [sampleModel], by decide⟩⟩)⟩

/-- C3, counterexample: in the model to which the field Method and then a method have been
added, Method is a field that is not a relationship field, and it is a method as well. The
type predicate of the field accepts the text y, yet the write of y to Method fails with the
TypeError that says that the method cannot be set. -/
theorem set_field_named_as_method_throws :
    hasField sampleMethodFieldModel (.str "Method") = true ∧
      hasRelationshipField sampleMethodFieldModel (.str "Method") = false ∧
      hasMethod sampleMethodFieldModel (.str "Method") = true ∧
      (getField sampleMethodFieldModel (.str "Method")).map (fun f =>
        f.typeCheck (if isUndefined (.str "y") then f.defaultValue else .str "y")) =
        some true ∧
      (set sampleMethodFieldModel sampleMethodFieldRecord (.str "Method") (.str "y")
        false).result =
        .error ⟨.TypeError,
          [.val (.str "aModel"), .lit " record ", .val (.str "a"), .lit " cannot set method ",
            .key (.str "Method"), .lit "."]⟩ := by
  decide

/-- C3, amended: for a field that is not a relationship field and whose name is registered
neither as a computed property nor as a method, set fails with a TypeError exactly when the
type predicate of the field rejects the effective value: the default value of the field when
the value written is undefined, the value written otherwise. -/
theorem set_typeError_iff_typeCheck_rejects (m : Model) (record : Record) (p : String)
    (value : Value) (skipValidation : Bool) (f : Field)
    (hp : hasProperty m (.str p) = false) (hm : hasMethod m (.str p) = false)
    (hf : getField m (.str p) = some f)
    (hrel : hasRelationshipField m (.str p) = false) :
    (∃ e, (set m record (.str p) value skipValidation).result = .error e ∧
        e.cls = .TypeError) ↔
      f.typeCheck (if isUndefined value then f.defaultValue else value) = false := by
  rw [set_field_eq m record p value skipValidation f hp hm hf, hrel]
  cases hty : f.typeCheck (if isUndefined value then f.defaultValue else value) with
  | false =>
    simp only [iff_true]
    have hthrow : setRecordField m.name record f value false =
        .error ⟨.TypeError,
          [.val (.str m.name), .lit " record has invalid value for field ",
            .val (.str f.name), .lit "."]⟩ := by
      simp [setRecordField, hty]
    rw [hthrow]
    exact ⟨_, rfl, rfl⟩
  | true =>
    rw [setRecordField_ok m.name record f value false (Or.inr hty)]
    simp only [Bool.true_eq_false, iff_false]
    rintro ⟨e, he, hcls⟩
    revert he
    cases firstFailing f.validators _ with
    | some n =>
      intro he
      simp only [Except.error.injEq] at he
      subst he
      simp [validationError] at hcls
    | none =>
      cases skipValidation with
      | true => simp
      | false =>
        simp only [Bool.false_eq_true, if_false]
        cases firstFailing m.validators _ with
        | some n =>
          intro he
          simp only [Except.error.injEq] at he
          subst he
          simp [validationError] at hcls
        | none => simp

/-- Witness of the amended C3 on the sample model: the field age rejects a string, and the
write fails with a TypeError. -/
theorem set_typeError_iff_typeCheck_rejects_witness :
    getField sampleModel (.str "age") = some sampleAgeField ∧
      ((∃ e, (set sampleModel sampleRecord (.str "age") (.str "old") false).result = .error e ∧
          e.cls = .TypeError) ↔
        sampleAgeField.typeCheck
          (if isUndefined (.str "old") then sampleAgeField.defaultValue else .str "old") = false) :=
  ⟨rfl,
    set_typeError_iff_typeCheck_rejects sampleModel sampleRecord "age" (.str "old") false
      sampleAgeField (by decide) (by decide) rfl (by decide)⟩

/-- C4, evaluated on the sample model: the field role is not a relationship field, accepts
null and has the default guest; the write of null succeeds and stores null, not the default.
Only undefined is replaced by the default. -/
theorem set_null_stores_null :
    getField sampleModel (.str "role") = some sampleRoleField ∧
      hasRelationshipField sampleModel (.str "role") = false ∧
      sampleRoleField.defaultValue = .str "guest" ∧
      (set sampleModel sampleRecord (.str "role") .null false).result = .ok true ∧
      getProp (set sampleModel sampleRecord (.str "role") .null false).record.recordValue
        "role" = .null ∧
      getProp (set sampleModel sampleRecord (.str "role") .undefined false).record.recordValue
        "role" = .str "guest" := by
  refine ⟨rfl, by decide, rfl, by decide, by decide, by decide⟩

/-! ## Computed properties and their cache -/

/-- C5, as stated, fails: when the cache of the record already holds a value for the
cache-eligible property isAdult, reading isAdult twice invokes the function of the property
not once but never. -/
theorem get_twice_on_cached_invokes_nothing :
    sampleModel.cachedProperties.contains "isAdult" = true ∧
      hasProperty sampleModel (.str "isAdult") = true ∧
      (get sampleModel sampleCachedRecord (.str "isAdult")).invoked ++
        (get sampleModel (get sampleModel sampleCachedRecord (.str "isAdult")).record
          (.str "isAdult")).invoked = [] := by
  refine ⟨by decide, by decide, by decide⟩

/-- C5, amended: for a cache-eligible computed property q that is neither id nor a field name,
reading q twice with no write in between invokes the function of q at most once: once, in the
first read, when the cache of the record held no value for q, and never when it did. The
second read invokes nothing, leaves the record as the first read left it, and returns the
value held for q in the cache after the first read, which is the result of the first read. -/
theorem get_property_twice (m : Model) (record : Record) (q : String)
    (first second : GetOutcome)
    (hid : q ≠ "id") (hfield : hasField m (.str q) = false)
    (hprop : hasProperty m (.str q) = true)
    (hcached : m.cachedProperties.contains q = true)
    (hfirst : first = get m record (.str q))
    (hsecond : second = get m first.record (.str q)) :
    first.invoked =
        (if record.cachedProperties.any (fun cached => cached.1 == q) then [] else [q]) ∧
      second.invoked = [] ∧
      second.record = first.record ∧
      first.result = .ok (.value (getProp first.record.cachedProperties q)) ∧
      second.result = first.result := by
  subst hsecond
  subst hfirst
  rw [get_property_eq m _ q hid hfield hprop, get_property_eq m _ q hid hfield hprop]
  obtain ⟨entry, hentry⟩ := find_property_of_hasProperty m q hprop
  by_cases hc : record.cachedProperties.any (fun cached => cached.1 == q) = true
  · have h1 : getProperty m record q =
        ⟨.ok (.value (getProp record.cachedProperties q)), record, []⟩ := by
      simp only [getProperty, hentry, hcached, hc, if_true]
    rw [h1]
    simp only [h1, hc, if_true, and_self]
  · have h1 : getProperty m record q =
        ⟨.ok (.value (entry.2 (wrappedRecordValue record))),
          ⟨record.recordValue, record.wrapped,
            setProp record.cachedProperties q (entry.2 (wrappedRecordValue record))⟩,
          [q]⟩ := by
      simp only [getProperty, hentry, hcached, hc, if_true, if_false, Bool.false_eq_true]
    rw [h1]
    simp only [getProperty, hentry, hcached, hc, if_true, if_false, any_key_setProp,
      getProp_setProp_same, and_self, Bool.false_eq_true]

/-- Witness of the amended C5 on the sample model, from a record whose cache is empty. -/
theorem get_property_twice_witness :
    hasProperty sampleModel (.str "isAdult") = true ∧
      sampleModel.cachedProperties.contains "isAdult" = true ∧
      (get sampleModel sampleRecord (.str "isAdult")).invoked = [("isAdult" : String)] ∧
      (get sampleModel (get sampleModel sampleRecord (.str "isAdult")).record
        (.str "isAdult")).invoked = [] ∧
      (get sampleModel (get sampleModel sampleRecord (.str "isAdult")).record
          (.str "isAdult")).result =
        (get sampleModel sampleRecord (.str "isAdult")).result :=
  have h := get_property_twice sampleModel sampleRecord "isAdult"
    (get sampleModel sampleRecord (.str "isAdult"))
    (get sampleModel (get sampleModel sampleRecord (.str "isAdult")).record (.str "isAdult"))
    (by decide) (by decide) (by decide) (by decide) rfl rfl
  ⟨by decide, by decide, h.1, h.2.1, h.2.2.2.2⟩

/-- C6, counterexample: in the model in which Method is a field and a method at once, the
record is fully constructed and its cache holds the value of the computed property label.
The type predicate of the field accepts the text y, yet after the write of y to Method, which
set refuses, the cache still holds its entry, and the next read of label does not invoke its
function. -/
theorem set_refused_as_method_keeps_cache :
    hasField sampleMethodFieldCachedModel (.str "Method") = true ∧
      hasMethod sampleMethodFieldCachedModel (.str "Method") = true ∧
      (getField sampleMethodFieldCachedModel (.str "Method")).map (fun f =>
        f.typeCheck (if isUndefined (.str "y") then f.defaultValue else .str "y")) =
        some true ∧
      sampleMethodFieldRecord.wrapped = true ∧
      (set sampleMethodFieldCachedModel sampleMethodFieldRecord (.str "Method") (.str "y")
        false).record.cachedProperties = [("label", .str "x")] ∧
      (get sampleMethodFieldCachedModel
        (set sampleMethodFieldCachedModel sampleMethodFieldRecord (.str "Method") (.str "y")
          false).record (.str "label")).invoked = [] := by
  decide

/-- C6, amended: on a fully constructed record, a write to a field whose name is registered
neither as a computed property nor as a method, and that the type check does not refuse (the
type check passes, or the field is a relationship field, which is not type checked), leaves
the cache of computed properties empty, whatever the cache held and whether or not a
validator then makes set throw; the next read of any computed property (one that is neither
id nor a field name) therefore invokes its function again. -/
theorem set_clears_cache (m : Model) (record : Record) (p : String) (value : Value)
    (skipValidation : Bool) (f : Field)
    (hp : hasProperty m (.str p) = false) (hm : hasMethod m (.str p) = false)
    (hf : getField m (.str p) = some f)
    (hty : hasRelationshipField m (.str p) = true ∨
      f.typeCheck (if isUndefined value then f.defaultValue else value) = true)
    (hwrapped : record.wrapped = true) :
    (set m record (.str p) value skipValidation).record.cachedProperties = [] ∧
      ∀ q, q ≠ "id" → hasField m (.str q) = false → hasProperty m (.str q) = true →
        (get m (set m record (.str p) value skipValidation).record (.str q)).invoked = [q] := by
  have hcache : (set m record (.str p) value skipValidation).record.cachedProperties = [] := by
    rw [set_field_written m record p value skipValidation f hp hm hf hty]
    simp only [hwrapped, if_true]
  refine ⟨hcache, ?_⟩
  intro q hid hfield hprop
  rw [get_property_eq m _ q hid hfield hprop]
  exact getProperty_invoked_of_empty_cache m _ q hprop hcache

/-- Witness of the amended C6 on the sample model: a write of age to the record whose cache holds isAdult
empties the cache, and the next read of isAdult invokes its function. -/
theorem set_clears_cache_witness :
    sampleCachedRecord.cachedProperties = [("isAdult", .bool true)] ∧
      sampleCachedRecord.wrapped = true ∧
      (set sampleModel sampleCachedRecord (.str "age") (.num 12) false).record.cachedProperties
        = [] ∧
      (get sampleModel (set sampleModel sampleCachedRecord (.str "age") (.num 12) false).record
        (.str "isAdult")).invoked = [("isAdult" : String)] :=
  have h := set_clears_cache sampleModel sampleCachedRecord "age" (.num 12) false sampleAgeField
    (by decide) (by decide) rfl (Or.inr (by decide)) rfl
  ⟨rfl, rfl, h.1, h.2 "isAdult" (by decide) (by decide) (by decide)⟩

/-! ## Validators on the write path -/

/-- C7: for a write to a field that the type check does not refuse, every failure of set is a
validation error that names a rejecting validator, and when that validator is one bound to
the field, the value stored for the field after the write is neither null nor undefined and
the validator rejects the updated record; otherwise skipValidation is not set and it is a
model validator that rejects. When the stored value is null or undefined, no validator bound
to the field fails the write: with skipValidation set the write returns true. -/
theorem set_field_validator_failure (m : Model) (record : Record) (p : String) (value : Value)
    (skipValidation : Bool) (f : Field) (stored : Value)
    (hp : hasProperty m (.str p) = false) (hm : hasMethod m (.str p) = false)
    (hf : getField m (.str p) = some f)
    (hty : hasRelationshipField m (.str p) = true ∨
      f.typeCheck (if isUndefined value then f.defaultValue else value) = true)
    (hstored : stored =
      if !hasRelationshipField m (.str p) && isUndefined value then f.defaultValue else value) :
    getProp (set m record (.str p) value skipValidation).record.recordValue p = stored ∧
      (∀ e, (set m record (.str p) value skipValidation).result = .error e →
        ([Value.null, Value.undefined].contains stored = false ∧
          ∃ validatorName validator, (validatorName, validator) ∈ f.validators ∧
            validator (setProp record.recordValue p stored)
              (RecordSet.except m.records (getRecordId record)) = false ∧
            e = validationError m.name (getRecordId record) validatorName) ∨
        (skipValidation = false ∧
          ∃ validatorName validator, (validatorName, validator) ∈ m.validators ∧
            validator (setProp record.recordValue p stored)
              (RecordSet.except m.records (getRecordId record)) = false ∧
            e = validationError m.name (getRecordId record) validatorName)) ∧
      ([Value.null, Value.undefined].contains stored = true →
        (set m record (.str p) value true).result = .ok true) := by
  rw [set_field_written m record p value skipValidation f hp hm hf hty,
    set_field_written m record p value true f hp hm hf hty, ← hstored]
  refine ⟨by simp only [getProp_setProp_same], ?_, ?_⟩
  · intro e
    simp only []
    cases hff : firstFailing f.validators _ with
    | some n =>
      intro he
      simp only [Except.error.injEq] at he
      obtain ⟨validator, hmem, hfails⟩ := firstFailing_some_mem _ _ n hff
      simp only [Bool.and_eq_true, Bool.not_eq_true_eq_eq_false] at hfails
      exact Or.inl ⟨hfails.1, n, validator, hmem, hfails.2, he.symm⟩
    | none =>
      cases skipValidation with
      | true => simp
      | false =>
        simp only [Bool.false_eq_true, if_false]
        cases hmf : firstFailing m.validators _ with
        | some n =>
          intro he
          simp only [Except.error.injEq] at he
          obtain ⟨validator, hmem, hfails⟩ := firstFailing_some_mem _ _ n hmf
          simp only [Bool.not_eq_true_eq_eq_false] at hfails
          exact Or.inr ⟨trivial, n, validator, hmem, hfails, he.symm⟩
        | none => simp
  · intro hnull
    simp only [hnull, Bool.not_true, Bool.false_and]
    have hnone : firstFailing f.validators (fun _ => false) = none :=
      (firstFailing_eq_none_iff _ _).2 (fun _ _ => rfl)
    rw [hnone]
    rfl

/-- Witness of C7 on the sample model: null is written to the field level, whose integer
validator rejects a record in which level is null; with skipValidation set the write returns
true. -/
theorem set_field_validator_failure_witness :
    getField sampleModel (.str "level") = some sampleLevelField ∧
      [Value.null, Value.undefined].contains Value.null = true ∧
      Validator.integer "level" (setProp sampleRecord.recordValue "level" .null)
        (RecordSet.except sampleModel.records (getRecordId sampleRecord)) = false ∧
      (set sampleModel sampleRecord (.str "level") .null true).result = .ok true :=
  ⟨rfl, by decide, by decide,
    (set_field_validator_failure sampleModel sampleRecord "level" .null true sampleLevelField
      .null (by decide) (by decide) rfl (Or.inr (by decide)) (by decide)).2.2 (by decide)⟩

/-- C8: set runs the model validators exactly when skipValidation is not set. With
skipValidation set, the outcome is the same whatever the model validators are. With
skipValidation not set, the outcome is that of the write with skipValidation set when every
model validator accepts the updated record, and whenever the write passes the guard on
computed properties and methods and the type check, and some model validator rejects the
updated record, set throws a validation error (a RangeError). Whenever set does not throw it
returns true. -/
theorem set_model_validators_iff_not_skip (m : Model) (record : Record)
    (property : PropertyKey) (value : Value) :
    (∀ validators : List (String × Validator),
        set { m with validators := validators } record property value true =
          set m record property value true) ∧
      ((∀ entry ∈ m.validators,
          entry.2 (set m record property value true).record.recordValue
            (RecordSet.except m.records (getRecordId record)) = true) →
        set m record property value false = set m record property value true) ∧
      (hasProperty m property = false → hasMethod m property = false →
        (∀ f, getField m property = some f → hasRelationshipField m property = false →
          f.typeCheck (if isUndefined value then f.defaultValue else value) = true) →
        (∃ entry ∈ m.validators,
          entry.2 (set m record property value false).record.recordValue
            (RecordSet.except m.records (getRecordId record)) = false) →
        ∃ e, (set m record property value false).result = .error e ∧ e.cls = .RangeError) ∧
      (∀ skipValidation b,
        (set m record property value skipValidation).result = .ok b → b = true) := by
  refine ⟨fun _ => rfl, ?_, ?_, fun skipValidation b h =>
    set_ok_true m record property value skipValidation b h⟩
  · intro hall
    rw [set_noskip_eq]
    have hnone := (firstFailing_eq_none_iff m.validators (fun validator =>
      !validator (set m record property value true).record.recordValue
        (RecordSet.except m.records (getRecordId record)))).2
      (fun entry hmem => by simp [hall entry hmem])
    rw [hnone]
    split <;> rfl
  · intro hp hm hty hrej
    obtain ⟨entry, hmem, hfalse⟩ := hrej
    by_cases hfield : hasField m property = true
    · obtain ⟨p, f, hpk, hf⟩ := getField_of_hasField m property hfield
      subst hpk
      have hty2 : hasRelationshipField m (.str p) = true ∨
          f.typeCheck (if isUndefined value then f.defaultValue else value) = true := by
        cases hrel : hasRelationshipField m (.str p) with
        | true => exact Or.inl rfl
        | false => exact Or.inr (hty f hf hrel)
      rw [set_field_written m record p value false f hp hm hf hty2] at hfalse ⊢
      simp only [] at hfalse
      simp only []
      cases firstFailing f.validators _ with
      | some n => exact ⟨_, rfl, rfl⟩
      | none =>
        obtain ⟨n, hn⟩ := firstFailing_isSome_of_mem m.validators
          (fun validator => !validator
            (setProp record.recordValue p
              (if !hasRelationshipField m (.str p) && isUndefined value then f.defaultValue
                else value))
            (RecordSet.except m.records (getRecordId record))) entry hmem
          (by show (!entry.2 _ _) = true; rw [hfalse]; rfl)
        simp only [Bool.false_eq_true, if_false, hn]
        exact ⟨_, rfl, rfl⟩
    · simp only [Bool.not_eq_true] at hfield
      rw [set_unknown_eq m record property value false hp hm hfield] at hfalse ⊢
      have hrec : (if false = true then (⟨.ok true, record⟩ : SetOutcome)
          else
            match firstFailing m.validators (fun validator =>
                !validator record.recordValue
                  (RecordSet.except m.records (getRecordId record))) with
            | some validatorName =>
              ⟨.error (validationError m.name (getRecordId record) validatorName), record⟩
            | none => ⟨.ok true, record⟩).record = record := by
        simp only [Bool.false_eq_true, if_false]
        split <;> rfl
      rw [hrec] at hfalse
      obtain ⟨n, hn⟩ := firstFailing_isSome_of_mem m.validators
        (fun validator => !validator record.recordValue
          (RecordSet.except m.records (getRecordId record))) entry hmem
          (by show (!entry.2 _ _) = true; rw [hfalse]; rfl)
      simp only [Bool.false_eq_true, if_false, hn]
      exact ⟨_, rfl, rfl⟩

/-- Witness of C8 on the sample model: writing the name a to the record whose id is a passes
the type check and is rejected by the model validator nameNotEqualToId, so set without
skipValidation throws a RangeError, while the same write with skipValidation set returns
true. -/
theorem set_model_validators_iff_not_skip_witness :
    (set sampleModel sampleRecord (.str "name") (.str "a") true).result = .ok true ∧
      ∃ e, (set sampleModel sampleRecord (.str "name") (.str "a") false).result = .error e ∧
        e.cls = .RangeError :=
  ⟨by decide,
    (set_model_validators_iff_not_skip sampleModel sampleRecord (.str "name") (.str "a")).2.2.1
      (by decide) (by decide)
      (fun f hf _ => by
        have hfield : f = sampleNameField := (Option.some.inj hf).symm
        subst hfield
        decide)
      ⟨("nameNotEqualToId", fun record _ => getProp record "id" != getProp record "name"),
        by simp [sampleModel], by decide⟩⟩

/-- C9: a write to the field p consults only the validators bound to p (and the model
validators). Whatever validators are bound to another field q, and whether or not the record
satisfies them, the outcome of the write to p is the same. -/
theorem set_ignores_validators_of_other_field (m : Model) (record : Record) (p q : String)
    (value : Value) (skipValidation : Bool) (validators : List (String × Validator))
    (hne : p ≠ q) :
    set { m with fields := m.fields.map (fun f =>
        if f.name = q then { f with validators := validators } else f) }
        record (.str p) value skipValidation =
      set m record (.str p) value skipValidation := by
  have h1 := hasField_with_validators m q validators (.str p)
  have h2 := getField_with_validators m p q validators hne
  unfold set
  simp only [hasRelationshipField, h1, h2]
  rfl

/-- Witness of C9 on the sample model: the record holds the level 1; binding to level a
validator that rejects every record does not change the outcome of a write to age. -/
theorem set_ignores_validators_of_other_field_witness :
    ("age" : String) ≠ "level" ∧
      set { sampleModel with fields := sampleModel.fields.map (fun f =>
          if f.name = "level" then { f with validators := [("never", fun _ _ => false)] }
          else f) }
          sampleRecord (.str "age") (.num 30) false =
        set sampleModel sampleRecord (.str "age") (.num 30) false :=
  ⟨by decide,
    set_ignores_validators_of_other_field sampleModel sampleRecord "age" "level" (.num 30) false
      [("never", fun _ _ => false)] (by decide)⟩

/-! ## Record construction -/

/-- C10, counterexample: on the model with the field tags, createRecord succeeds on data that
supply for tags an object with an own entry under the name __proto__, and the record it
returns holds for tags the object without that entry, not what the data hold. -/
theorem createRecord_drops_nested_proto_entry :
    (Value.obj [("id", .str "a"),
        ("tags", .obj [("__proto__", .num 1), ("x", .num 2)])]).getMember "tags" =
        .obj [("__proto__", .num 1), ("x", .num 2)] ∧
      createRecord sampleTagsModel
          (.obj [("id", .str "a"), ("tags", .obj [("__proto__", .num 1), ("x", .num 2)])]) =
        .ok (.str "a", ⟨[("id", .str "a"), ("tags", .obj [("x", .num 2)])], false, []⟩) := by
  decide

/-- C10, amended: when createRecord succeeds on data none of whose objects has an own entry
under the name __proto__, the record it returns holds, for every declared field that is not a
relationship field and whose name is not one of the names that objects inherit, the value of
the data for that field when the data supply one (a value other than undefined) and the
default value of the field otherwise. -/
theorem createRecord_field_values (m : Model) (recordData id : Value) (newRecord : Record)
    (p : String) (f : Field)
    (h : createRecord m recordData = .ok (id, newRecord))
    (hf : getField m (.str p) = some f)
    (hrel : hasRelationshipField m (.str p) = false)
    (hproto : hasNoProtoKey recordData = true)
    (hname : p ∉ inheritedNames) :
    getProp newRecord.recordValue p =
      if isUndefined (recordData.getMember p) then f.defaultValue
      else recordData.getMember p := by
  have hp : p ≠ "__proto__" := by
    intro heq
    apply hname
    rw [heq]
    decide
  have hvalue : hasNoProtoKey (recordData.getMember p) = true := by
    cases recordData with
    | obj kvs =>
      rw [hasNoProtoKey] at hproto
      exact hasNoProtoKey_getProp kvs p hproto
    | undefined => rfl
    | null => rfl
    | bool b => rfl
    | num n => rfl
    | str s => rfl
    | date d => rfl
    | arr xs => rfl
  unfold createRecord at h
  by_cases htruthy : recordData.truthy = true
  · by_cases hobj : recordData.typeOf = .object
    · simp only [htruthy, hobj, Bool.not_true, Bool.false_eq_true, if_false, bne_self_eq_false]
        at h
      cases hid : validateNewRecordId (getModelName m) (recordData.getMember "id") m.records with
      | error e => simp [hid] at h
      | ok newRecordId =>
        simp only [hid] at h
        cases hset : setFields m (deepClone recordData) (getFieldNames m)
            (Record.new [("id", newRecordId)]) with
        | error e => simp [hset] at h
        | ok built =>
          simp only [hset] at h
          cases hval : firstFailing (getValidators m) (fun validator =>
              !validator built.recordValue m.records) with
          | some n => simp [hval] at h
          | none =>
            simp only [hval, Except.ok.injEq, Prod.mk.injEq] at h
            obtain ⟨_, hrec⟩ := h
            subst hrec
            have hspec := (setFields_spec m (deepClone recordData) (getFieldNames m) _ built
              hset p).1 (mem_getFieldNames_of_getField m p f hf) f hf
            rw [hspec, hrel, getMember_deepClone recordData p hobj hp (fun _ => hvalue)]
            rfl
    · have hne : (recordData.typeOf != JsType.object) = true := by
        simpa using hobj
      simp [htruthy, hne] at h
  · simp [htruthy] at h

/-- Witness of C10 on the sample model, whose field age is a required number with default 18:
createRecord on the data with id a and name b succeeds, and the record reads 18 for age. -/
theorem createRecord_field_values_witness :
    createRecord sampleModel (.obj [("id", .str "a"), ("name", .str "b")]) =
        .ok (.str "a",
          ⟨[("id", .str "a"), ("name", .str "b"), ("age", .num 18), ("level", .null),
              ("role", .str "guest")], false, []⟩) ∧
      getField sampleModel (.str "age") = some sampleAgeField ∧
      getProp
        [("id", Value.str "a"), ("name", .str "b"), ("age", .num 18), ("level", .null),
          ("role", .str "guest")] "age" = .num 18 :=
  ⟨by decide, rfl,
    createRecord_field_values sampleModel (.obj [("id", .str "a"), ("name", .str "b")])
      (.str "a")
      ⟨[("id", .str "a"), ("name", .str "b"), ("age", .num 18), ("level", .null),
        ("role", .str "guest")], false, []⟩
      "age" sampleAgeField (by decide) rfl (by decide) (by decide) (by decide)⟩

/-! ## Identities and input of createRecord -/

/-- Trimming leaves nothing exactly when every character is white space. -/
theorem jsTrim_eq_nil_iff (cs : List Char) :
    jsTrim cs = [] ↔ ∀ c ∈ cs, isJsWhitespace c = true := by
  unfold jsTrim
  rw [List.reverse_eq_nil_iff, List.dropWhile_eq_nil_iff]
  constructor
  · intro h
    have hnil : cs.dropWhile isJsWhitespace = [] := by
      cases hd : cs.dropWhile isJsWhitespace with
      | nil => rfl
      | cons c rest =>
        have hne : cs.dropWhile isJsWhitespace ≠ [] := by simp [hd]
        have hhead := List.head_dropWhile_not isJsWhitespace cs hne
        have hmem : (cs.dropWhile isJsWhitespace).head hne ∈
            (cs.dropWhile isJsWhitespace).reverse :=
          List.mem_reverse.2 (List.head_mem hne)
        have := h _ hmem
        rw [hhead] at this
        exact absurd this (by decide)
    exact List.dropWhile_eq_nil_iff.1 hnil
  · intro h c hc
    have hnil : cs.dropWhile isJsWhitespace = [] := List.dropWhile_eq_nil_iff.2 h
    rw [hnil] at hc
    simp at hc

/-- The value of recordId: it never throws, and it accepts exactly the strings that keep a
character once trimmed. -/
theorem recordId_eq (val : Value) :
    recordId val =
      .ok (match val with
        | .str s => (jsTrim s.toList).length != 0
        | _ => false) := by
  cases val with
  | str s =>
    simp only [recordId, and_, isString, Value.typeOf, isNonEmptyString]
    generalize ((jsTrim s.toList).length != 0) = b
    cases b <;> rfl
  | _ => rfl

theorem recordId_true_iff (val : Value) :
    recordId val = .ok true ↔
      ∃ s, val = .str s ∧ ∃ c ∈ s.toList, isJsWhitespace c = false := by
  rw [recordId_eq]
  cases val with
  | str s =>
    simp only [Except.ok.injEq, Value.str.injEq, exists_eq_left']
    have hiff := jsTrim_eq_nil_iff s.toList
    constructor
    · intro h
      by_contra hno
      have hall : ∀ c ∈ s.toList, isJsWhitespace c = true := by
        intro c hc
        cases hw : isJsWhitespace c with
        | true => rfl
        | false => exact absurd ⟨c, hc, hw⟩ hno
      rw [hiff.2 hall] at h
      simp at h
    · rintro ⟨c, hc, hw⟩
      cases ht : jsTrim s.toList with
      | nil =>
        have := hiff.1 ht c hc
        rw [hw] at this
        exact absurd this (by decide)
      | cons d rest => simp
  | _ => simp

theorem getMember_str_obj (recordData : Value) (key s : String)
    (h : recordData.getMember key = .str s) : ∃ kvs, recordData = .obj kvs := by
  cases recordData <;> simp [Value.getMember] at h
  exact ⟨_, rfl⟩

/-- What validateNewRecordId answers: a TypeError for an identity that recordId refuses, a
DuplicationError for an accepted identity that is stored already, the identity otherwise. -/
theorem validateNewRecordId_eq (modelName : String) (id : Value) (records : RecordSet) :
    validateNewRecordId modelName id records =
      if recordId id = .ok true then
        if RecordSet.has records id then
          .error ⟨.DuplicationError,
            [.val (.str modelName), .lit " record with id ", .val id, .lit " already exists."]⟩
        else .ok id
      else .error ⟨.TypeError, [.val (.str modelName), .lit " record has invalid id."]⟩ := by
  unfold validateNewRecordId
  rw [recordId_eq]
  split <;> simp_all

theorem validateNewRecordId_ok (modelName : String) (id newRecordId : Value)
    (records : RecordSet) (h : validateNewRecordId modelName id records = .ok newRecordId) :
    newRecordId = id ∧ recordId id = .ok true ∧ RecordSet.has records id = false := by
  rw [validateNewRecordId_eq] at h
  by_cases hv : recordId id = .ok true
  · rw [if_pos hv] at h
    cases hh : RecordSet.has records id with
    | true => simp [hh] at h
    | false =>
      simp only [hh, Bool.false_eq_true, if_false, Except.ok.injEq] at h
      exact ⟨h.symm, hv, rfl⟩
  · rw [if_neg hv] at h
    simp at h

/-- C16: createRecord fails with a TypeError for every input that is undefined or null, whose
typeof is not object, or whose id is not a string with at least one character that is not
white space (a missing id included). The statement holds for every model, whatever its
collection contains, so the refusal comes before the test for a duplicate identity. -/
theorem createRecord_rejects_bad_input (m : Model) (recordData : Value)
    (h : recordData = .undefined ∨ recordData = .null ∨ recordData.typeOf ≠ .object ∨
      ¬ ∃ s, recordData.getMember "id" = .str s ∧ ∃ c ∈ s.toList, isJsWhitespace c = false) :
    ∃ e, createRecord m recordData = .error e ∧ e.cls = .TypeError := by
  unfold createRecord
  by_cases htruthy : recordData.truthy = true
  · by_cases hobj : recordData.typeOf = .object
    · have hbad : ¬ recordId (recordData.getMember "id") = .ok true := by
        intro hok
        have hex := (recordId_true_iff _).1 hok
        rcases h with h1 | h2 | h3 | h4
        · rw [h1] at htruthy
          simp [Value.truthy] at htruthy
        · rw [h2] at htruthy
          simp [Value.truthy] at htruthy
        · exact h3 hobj
        · exact h4 hex
      simp only [htruthy, hobj, Bool.not_true, Bool.false_eq_true, if_false, bne_self_eq_false,
        validateNewRecordId_eq, hbad]
      exact ⟨_, rfl, rfl⟩
    · have hne : (recordData.typeOf != JsType.object) = true := by
        simpa using hobj
      simp only [htruthy, hne, Bool.not_true, Bool.false_eq_true, if_false, if_true]
      exact ⟨_, rfl, rfl⟩
  · simp only [htruthy, Bool.not_false, if_true]
    exact ⟨_, rfl, rfl⟩

/-- Witness of C16 on the model that already stores a record: the data without an id, and the
data whose id is white space, are refused with a TypeError. -/
theorem createRecord_rejects_bad_input_witness :
    (¬ ∃ s, (Value.obj [("name", .str "aName")]).getMember "id" = .str s ∧
        ∃ c ∈ s.toList, isJsWhitespace c = false) ∧
      ∃ e, createRecord sampleModelWithRecord (.obj [("name", .str "aName")]) = .error e ∧
        e.cls = .TypeError :=
  ⟨by simp [Value.getMember, getProp],
    createRecord_rejects_bad_input sampleModelWithRecord (.obj [("name", .str "aName")])
      (Or.inr (Or.inr (Or.inr (by simp [Value.getMember, getProp]))))⟩

theorem recordSet_set_of_not_has (records : RecordSet) (id : Value) (record : Record)
    (h : RecordSet.has records id = false) :
    RecordSet.set records id record = records ++ [(id, record)] := by
  induction records with
  | nil => rfl
  | cons entry rest ih =>
    obtain ⟨key, stored⟩ := entry
    simp only [RecordSet.has, List.any_cons, Bool.or_eq_false_iff, beq_eq_false_iff_ne] at h
    have hrest : RecordSet.has rest id = false := h.2
    simp only [RecordSet.set, h.1, if_false, ih hrest, List.cons_append]

theorem createRecord_ok_not_has (m : Model) (recordData id : Value) (newRecord : Record)
    (h : createRecord m recordData = .ok (id, newRecord)) :
    RecordSet.has m.records id = false := by
  unfold createRecord at h
  by_cases htruthy : recordData.truthy = true
  · by_cases hobj : recordData.typeOf = .object
    · simp only [htruthy, hobj, Bool.not_true, Bool.false_eq_true, if_false, bne_self_eq_false]
        at h
      cases hid : validateNewRecordId (getModelName m) (recordData.getMember "id") m.records with
      | error e => simp [hid] at h
      | ok newRecordId =>
        simp only [hid] at h
        have hval := validateNewRecordId_ok _ _ _ _ hid
        cases hset : setFields m (deepClone recordData) (getFieldNames m)
            (Record.new [("id", newRecordId)]) with
        | error e => simp [hset] at h
        | ok built =>
          simp only [hset] at h
          cases hv : firstFailing (getValidators m) (fun validator =>
              !validator built.recordValue m.records) with
          | some n => simp [hv] at h
          | none =>
            simp only [hv, Except.ok.injEq, Prod.mk.injEq] at h
            rw [← h.1, hval.1]
            exact hval.2.2
    · have hne : (recordData.typeOf != JsType.object) = true := by
        simpa using hobj
      simp [htruthy, hne] at h
  · simp [htruthy] at h

/-! ## Identities in the collection -/

/-- C13: creating a record from data whose id is already stored in the collection of the model
(a collection whose identities are all valid, as record creation stores no other) fails with a
DuplicationError, through createRecord and through Model.add, and Model.add leaves the model
as it was: every record of the collection is still stored, unchanged. -/
theorem createRecord_duplicate_identity (m : Model) (recordData id : Value)
    (hid : recordData.getMember "id" = id)
    (hhas : RecordSet.has m.records id = true)
    (hvalid : ∀ entry ∈ m.records, recordId entry.1 = .ok true) :
    createRecord m recordData =
        .error ⟨.DuplicationError,
          [.val (.str m.name), .lit " record with id ", .val id, .lit " already exists."]⟩ ∧
      (∃ e, (Model.add m recordData).result = .error e ∧ e.cls = .DuplicationError) ∧
      (Model.add m recordData).model = m ∧
      ∀ entry ∈ m.records, entry ∈ (Model.add m recordData).model.records := by
  have hrid : recordId id = .ok true := by
    simp only [RecordSet.has, List.any_eq_true, beq_iff_eq] at hhas
    obtain ⟨entry, hmem, heq⟩ := hhas
    rw [← heq]
    exact hvalid entry hmem
  obtain ⟨s, hs, _⟩ := (recordId_true_iff id).1 hrid
  obtain ⟨kvs, hkvs⟩ := getMember_str_obj recordData "id" s (hid.trans hs)
  have hcreate : createRecord m recordData =
      .error ⟨.DuplicationError,
        [.val (.str m.name), .lit " record with id ", .val id, .lit " already exists."]⟩ := by
    have htruthy : recordData.truthy = true := by rw [hkvs]; rfl
    have hobj : recordData.typeOf = .object := by rw [hkvs]; rfl
    unfold createRecord
    simp only [htruthy, hobj, Bool.not_true, Bool.false_eq_true, if_false, bne_self_eq_false,
      validateNewRecordId_eq, hid, hrid, hhas, if_true, getModelName]
  refine ⟨hcreate,
    ⟨⟨.DuplicationError,
      [.val (.str m.name), .lit " record with id ", .val id, .lit " already exists."]⟩,
      ?_, rfl⟩, ?_, ?_⟩
  · simp only [Model.add, hcreate]
  · simp only [Model.add, hcreate]
  · intro entry hmem
    simpa only [Model.add, hcreate] using hmem

/-- Witness of C13 on the sample model that stores the record with id a: creating a record
with id a again throws a DuplicationError and the stored record is kept. -/
theorem createRecord_duplicate_identity_witness :
    RecordSet.has sampleModelWithRecord.records (.str "a") = true ∧
      (∃ e, (Model.add sampleModelWithRecord
          (.obj [("id", .str "a"), ("name", .str "bName")])).result = .error e ∧
        e.cls = .DuplicationError) ∧
      (Value.str "a", sampleStoredRecord) ∈
        (Model.add sampleModelWithRecord
          (.obj [("id", .str "a"), ("name", .str "bName")])).model.records :=
  have h := createRecord_duplicate_identity sampleModelWithRecord
    (.obj [("id", .str "a"), ("name", .str "bName")]) (.str "a") rfl (by decide)
    (by
      intro entry hmem
      have he : entry = (Value.str "a", sampleStoredRecord) := by
        simpa [sampleModelWithRecord] using hmem
      subst he
      decide)
  ⟨by decide, h.2.1, h.2.2.2 _ (by simp [sampleModelWithRecord])⟩

/-- C14, evaluated on the auto-increment model of the tests: createRecord does not generate an
identity. Data without an id is refused with a TypeError, and a supplied id is not ignored
but becomes the identity of the record. -/
theorem createRecord_auto_key_not_generated :
    sampleAutoModel.keyType = .auto ∧
      createRecord sampleAutoModel (.obj [("name", .str "aName")]) =
        .error ⟨.TypeError, [.val (.str "bModel"), .lit " record has invalid id."]⟩ ∧
      createRecord sampleAutoModel (.obj [("id", .num 0), ("name", .str "aName")]) =
        .error ⟨.TypeError, [.val (.str "bModel"), .lit " record has invalid id."]⟩ ∧
      createRecord sampleAutoModel (.obj [("id", .str "x"), ("name", .str "aName")]) =
        .ok (.str "x", ⟨[("id", .str "x"), ("name", .str "aName")], false, []⟩) := by
  refine ⟨rfl, by decide, by decide, by decide⟩

/-- C15: record creation is all or nothing for the collection. When createRecord throws,
Model.add throws the same error and the model, its collection included, is as it was. When
createRecord returns, the identity it returns is not yet stored, and Model.add returns the new
record and adds it to the collection as one new entry, under that identity, after the entries
that were there, which are unchanged. -/
theorem add_all_or_nothing (m : Model) (recordData : Value) :
    (∀ e, createRecord m recordData = .error e →
        (Model.add m recordData).result = .error e ∧ (Model.add m recordData).model = m) ∧
      (∀ id newRecord, createRecord m recordData = .ok (id, newRecord) →
        RecordSet.has m.records id = false ∧
          (Model.add m recordData).result = .ok newRecord ∧
          (Model.add m recordData).model =
            { m with records := m.records ++ [(id, newRecord)] }) := by
  constructor
  · intro e h
    simp only [Model.add, h, and_self]
  · intro id newRecord h
    have hnot := createRecord_ok_not_has m recordData id newRecord h
    refine ⟨hnot, ?_, ?_⟩
    · simp only [Model.add, h]
    · simp only [Model.add, h, recordSet_set_of_not_has m.records id newRecord hnot]

/-- Witness of C15 on the sample model that stores the record with id a: a creation that
throws leaves the collection as it was, and the creation of the record with id b adds one
entry under b. -/
theorem add_all_or_nothing_witness :
    (Model.add sampleModelWithRecord (.obj [("id", .str "b"), ("name", .str "x")])).model =
        sampleModelWithRecord ∧
      (Model.add sampleModelWithRecord
          (.obj [("id", .str "b"), ("name", .str "y")])).model.records =
        [(.str "a", sampleStoredRecord),
          (.str "b",
            ⟨[("id", .str "b"), ("name", .str "y"), ("age", .num 18), ("level", .null),
              ("role", .str "guest")], false, []⟩)] :=
  ⟨((add_all_or_nothing sampleModelWithRecord (.obj [("id", .str "b"), ("name", .str "x")])).1
      (validationError "aModel" (.str "b") "unique") (by decide)).2,
    by
      rw [((add_all_or_nothing sampleModelWithRecord
        (.obj [("id", .str "b"), ("name", .str "y")])).2 (.str "b")
        ⟨[("id", .str "b"), ("name", .str "y"), ("age", .num 18), ("level", .null),
          ("role", .str "guest")], false, []⟩ (by decide)).2.2]
      rfl⟩

/-- What a successful createRecord tells: the data is an object whose id is a valid identity
that is not stored yet, every field has been written, and no model validator rejects the
record that is returned. -/
theorem createRecord_ok_inv (m : Model) (recordData id : Value) (newRecord : Record)
    (h : createRecord m recordData = .ok (id, newRecord)) :
    recordData.typeOf = .object ∧ id = recordData.getMember "id" ∧
      recordId id = .ok true ∧ RecordSet.has m.records id = false ∧
      setFields m (deepClone recordData) (getFieldNames m) (Record.new [("id", id)]) =
        .ok newRecord ∧
      firstFailing m.validators (fun validator =>
        !validator newRecord.recordValue m.records) = none := by
  unfold createRecord at h
  by_cases htruthy : recordData.truthy = true
  · by_cases hobj : recordData.typeOf = .object
    · simp only [htruthy, hobj, Bool.not_true, Bool.false_eq_true, if_false, bne_self_eq_false]
        at h
      cases hid : validateNewRecordId (getModelName m) (recordData.getMember "id") m.records with
      | error e => simp [hid] at h
      | ok newRecordId =>
        simp only [hid] at h
        have hval := validateNewRecordId_ok _ _ _ _ hid
        cases hset : setFields m (deepClone recordData) (getFieldNames m)
            (Record.new [("id", newRecordId)]) with
        | error e => simp [hset] at h
        | ok built =>
          simp only [hset] at h
          cases hv : firstFailing (getValidators m) (fun validator =>
              !validator built.recordValue m.records) with
          | some n => simp [hv] at h
          | none =>
            simp only [hv, Except.ok.injEq, Prod.mk.injEq] at h
            obtain ⟨h1, h2⟩ := h
            subst h1
            subst h2
            refine ⟨hobj, hval.1, ?_, ?_, hset, hv⟩
            · rw [hval.1]
              exact hval.2.1
            · rw [hval.1]
              exact hval.2.2
    · have hne : (recordData.typeOf != JsType.object) = true := by
        simpa using hobj
      simp [htruthy, hne] at h
  · simp [htruthy] at h

/-- Model.add keeps the identities of the collection valid. -/
theorem add_keeps_identities_valid (m : Model) (recordData : Value)
    (hvalid : ∀ entry ∈ m.records, recordId entry.1 = .ok true) :
    ∀ entry ∈ (Model.add m recordData).model.records, recordId entry.1 = .ok true := by
  cases hc : createRecord m recordData with
  | error e =>
    simp only [Model.add, hc]
    exact hvalid
  | ok created =>
    obtain ⟨id, newRecord⟩ := created
    have hinv := createRecord_ok_inv m recordData id newRecord hc
    simp only [Model.add, hc, recordSet_set_of_not_has m.records id newRecord hinv.2.2.2.1]
    intro entry hmem
    rcases List.mem_append.1 hmem with h1 | h2
    · exact hvalid entry h1
    · have he : entry = (id, newRecord) := by simpa using h2
      rw [he]
      exact hinv.2.2.1

/-! ## The read path -/

/-- C18: a read of a name that is not id, not a field, not a computed property, not a method,
not toObject, toJSON or toString and not one of the known symbols returns undefined: it does
not throw, invokes nothing and leaves the record as it was. -/
theorem get_unknown_is_undefined (m : Model) (record : Record) (property : PropertyKey)
    (hid : isRecordId property = false) (hfield : hasField m property = false)
    (hprop : hasProperty m property = false) (hmeth : hasMethod m property = false)
    (hser : isCallToSerialize property = false) (hstr : isCallToString property = false)
    (hsym : isKnownSymbol property = false) :
    get m record property = ⟨.ok (.value .undefined), record, []⟩ := by
  simp [get, hasRelationshipField, hid, hfield, hprop, hmeth, hser, hstr, hsym]

/-- Witness of C18 on the sample model: the name nickname is unknown, and reading it gives
undefined. -/
theorem get_unknown_is_undefined_witness :
    hasField sampleModel (.str "nickname") = false ∧
      get sampleModel sampleRecord (.str "nickname") =
        ⟨.ok (.value .undefined), sampleRecord, []⟩ :=
  ⟨by decide,
    get_unknown_is_undefined sampleModel sampleRecord (.str "nickname") (by decide) (by decide)
      (by decide) (by decide) (by decide) (by decide) (by decide)⟩

/-- C19: for a name p that is a field of the model and for which a relationship is stored under
the key p.p, a read returns what the accessor of that relationship gives for the model name,
p and the field mapping of the record. The read does not go to the plain field lookup. -/
theorem get_relationship_field (m : Model) (record : Record) (p key : String)
    (relationship : Relationship)
    (hfield : hasField m (.str p) = true)
    (hrel : m.relationships.find? (fun entry => entry.1 == p ++ "." ++ p) =
      some (key, relationship)) :
    get m record (.str p) =
      ⟨.ok (.value (relationship.get m.name p record.recordValue)), record, []⟩ := by
  have hany : m.relationships.any (fun entry => entry.1 == p ++ "." ++ p) = true := by
    rw [List.any_eq_true]
    have hkey := List.find?_some hrel
    exact ⟨(key, relationship), List.mem_of_find?_eq_some hrel, hkey⟩
  simp [get, hasRelationshipField, hfield, hany, getRelationship, hrel, getModelName]

/-- Witness of C19 on the model with the relationship field category: the record stores c1
for category, and the read gives what the accessor answers, not c1. -/
theorem get_relationship_field_witness :
    getProp sampleRelationshipRecord.recordValue "category" = .str "c1" ∧
      get sampleRelationshipModel sampleRelationshipRecord (.str "category") =
        ⟨.ok (.value (.str "post")), sampleRelationshipRecord, []⟩ :=
  ⟨by decide,
    get_relationship_field sampleRelationshipModel sampleRelationshipRecord "category"
      "category.category" { get := fun modelName _ _ => .str modelName } (by decide) rfl⟩

/-- C20, evaluated on the model of the tests whose key is named myKey: the identity of the
record is a, stored under id, and a read of myKey gives undefined while a read of id gives the
identity. Data that carries the identity under myKey is refused by createRecord. -/
theorem get_custom_key_is_undefined :
    sampleCustomKeyModel.keyName = "myKey" ∧
      getRecordId sampleCustomKeyRecord = .str "a" ∧
      get sampleCustomKeyModel sampleCustomKeyRecord (.str "myKey") =
        ⟨.ok (.value .undefined), sampleCustomKeyRecord, []⟩ ∧
      get sampleCustomKeyModel sampleCustomKeyRecord (.str "id") =
        ⟨.ok (.value (.str "a")), sampleCustomKeyRecord, []⟩ ∧
      createRecord sampleCustomKeyModel (.obj [("myKey", .str "a")]) =
        .error ⟨.TypeError, [.val (.str "bModel"), .lit " record has invalid id."]⟩ := by
  refine ⟨rfl, by decide, rfl, rfl, by decide⟩

/-! ## Serialisation and round trip -/

/-- When createRecord succeeds, every declared field holds the value of the copy of the data for
it, or the default of the field when the field is not a relationship field and the copy has
none. -/
theorem createRecord_ok_field (m : Model) (recordData id : Value) (newRecord : Record)
    (p : String) (f : Field)
    (h : createRecord m recordData = .ok (id, newRecord))
    (hf : getField m (.str p) = some f) :
    getProp newRecord.recordValue p =
      if !hasRelationshipField m (.str p) && isUndefined ((deepClone recordData).getMember p)
      then f.defaultValue else (deepClone recordData).getMember p := by
  have hinv := createRecord_ok_inv m recordData id newRecord h
  exact (setFields_spec m (deepClone recordData) (getFieldNames m) _ newRecord
    hinv.2.2.2.2.1 p).1 (mem_getFieldNames_of_getField m p f hf) f hf

/-- The entry of the serialised object under a name: the value of the record for it when the
name is a field whose value is not undefined, the entry of the initial object otherwise. -/
theorem getProp_serialise_fold (recordValue : List (String × Value)) (p : String) :
    ∀ (fields : List Field) (object : List (String × Value)),
      getProp (fields.foldl
        (fun object field =>
          let value := getProp recordValue field.name
          if value != .undefined then setProp object field.name value else object)
        object) p =
        if fields.any (fun field => field.name == p) && getProp recordValue p != .undefined
        then getProp recordValue p else getProp object p
  | [], object => by simp
  | f :: rest, object => by
    rw [List.foldl_cons, getProp_serialise_fold recordValue p rest]
    by_cases hname : f.name = p
    · subst hname
      by_cases hval : getProp recordValue f.name = .undefined
      · simp [hval]
      · simp [hval, getProp_setProp_same]
    · by_cases hval : getProp recordValue f.name = .undefined
      · simp [hval, hname]
      · simp [hval, hname, getProp_setProp_other _ _ _ _ hname]

theorem getProp_recordToObject (m : Model) (record : Record) (p : String) (f : Field)
    (hf : getField m (.str p) = some f)
    (hset : getProp record.recordValue p ≠ .undefined) :
    getProp (recordToObject record m) p = getProp record.recordValue p := by
  have hany : m.fields.any (fun field => field.name == p) = true :=
    hasField_of_getField m p f hf
  unfold recordToObject
  rw [getProp_serialise_fold record.recordValue p m.fields]
  simp [hany, hset]

/-- C17, counterexample: the record of the model with the field tags holds for tags an object
with an own entry under the name __proto__. The creation from its serialised object, with the
id replaced by c, succeeds, and the record it returns holds for tags the object without that
entry, which is not the value that the first record holds. -/
theorem createRecord_roundtrip_drops_proto_entry :
    getProp sampleTagsRecord.recordValue "tags" = .obj [("__proto__", .num 1), ("x", .num 2)] ∧
      createRecord sampleTagsModel
          (.obj (setProp (recordToObject sampleTagsRecord sampleTagsModel) "id" (.str "c"))) =
        .ok (.str "c", ⟨[("id", .str "c"), ("tags", .obj [("x", .num 2)])], false, []⟩) ∧
      getProp [("id", Value.str "c"), ("tags", .obj [("x", .num 2)])] "tags" ≠
        getProp sampleTagsRecord.recordValue "tags" := by
  refine ⟨by decide, by decide, by decide⟩

/-- C17, amended: round trip. Let p be a field of the model (another name than id and than
__proto__) whose value in the record r is set, that is, not undefined, and holds no object
with an own entry under the name __proto__. When createRecord succeeds on the object that
serialises r, with its id replaced by another identity, the record it returns holds for p the
value that r holds. This is so for each of the fields a and b of the claim. -/
theorem createRecord_roundtrip (m : Model) (record : Record) (p : String) (f : Field)
    (freshId id : Value) (newRecord : Record)
    (hf : getField m (.str p) = some f) (hpid : p ≠ "id") (hpp : p ≠ "__proto__")
    (hset : getProp record.recordValue p ≠ .undefined)
    (hproto : hasNoProtoKey (getProp record.recordValue p) = true)
    (h : createRecord m (.obj (setProp (recordToObject record m) "id" freshId)) =
      .ok (id, newRecord)) :
    getProp newRecord.recordValue p = getProp record.recordValue p := by
  have hdata : (Value.obj (setProp (recordToObject record m) "id" freshId)).getMember p =
      getProp record.recordValue p := by
    simp only [Value.getMember]
    rw [getProp_setProp_other _ _ _ _ (fun h => hpid h.symm),
      getProp_recordToObject m record p f hf hset]
  have hclone : (deepClone (Value.obj (setProp (recordToObject record m) "id"
      freshId))).getMember p = getProp record.recordValue p := by
    rw [getMember_deepClone (Value.obj (setProp (recordToObject record m) "id" freshId)) p rfl
      hpp (fun _ => by rw [hdata]; exact hproto), hdata]
  have hnot : isUndefined (getProp record.recordValue p) = false := by
    simp [isUndefined, hset]
  rw [createRecord_ok_field m _ id newRecord p f h hf, hclone, hnot]
  simp

/-- Witness of the amended C17 on the sample model: the record with id a is serialised, the id
is replaced by c, and the record created from the result has the name and the age of the
first one. -/
theorem createRecord_roundtrip_witness :
    createRecord sampleModel (.obj (setProp (recordToObject sampleRecord sampleModel) "id"
        (.str "c"))) =
        .ok (.str "c",
          ⟨[("id", .str "c"), ("name", .str "b"), ("age", .num 18), ("level", .num 1),
            ("role", .str "admin")], false, []⟩) ∧
      getProp
        [("id", Value.str "c"), ("name", .str "b"), ("age", .num 18), ("level", .num 1),
          ("role", .str "admin")] "name" = getProp sampleRecord.recordValue "name" :=
  ⟨by decide,
    createRecord_roundtrip sampleModel sampleRecord "name" sampleNameField (.str "c") (.str "c")
      ⟨[("id", .str "c"), ("name", .str "b"), ("age", .num 18), ("level", .num 1),
        ("role", .str "admin")], false, []⟩
      rfl (by decide) (by decide) (by decide) (by decide) (by decide)⟩

/-! ## Model validators during record construction -/

theorem calledUntilFailure_isPrefix (validators : List (String × Validator))
    (fails : Validator → Bool) :
    calledUntilFailure validators fails <+: validators.map (fun entry => entry.1) := by
  induction validators with
  | nil => exact ⟨[], rfl⟩
  | cons entry rest ih =>
    obtain ⟨n, v⟩ := entry
    obtain ⟨t, ht⟩ := ih
    by_cases h : fails v = true
    · exact ⟨rest.map (fun entry => entry.1), by simp [calledUntilFailure, h]⟩
    · exact ⟨t, by simp [calledUntilFailure, h, ht]⟩

theorem calledUntilFailure_of_none (validators : List (String × Validator))
    (fails : Validator → Bool) (h : firstFailing validators fails = none) :
    calledUntilFailure validators fails = validators.map (fun entry => entry.1) := by
  induction validators with
  | nil => rfl
  | cons entry rest ih =>
    obtain ⟨n, v⟩ := entry
    by_cases hv : fails v = true
    · simp [firstFailing, hv] at h
    · simp only [firstFailing, hv, if_false] at h
      simp [calledUntilFailure, hv, ih h]

/-- When the validators ahead of a validator do not meet the failure test and that validator
does, the loop calls exactly those validators and that one, and that one is the first failing
validator. -/
theorem calledUntilFailure_append_failing (front back : List (String × Validator))
    (validatorName : String) (validator : Validator) (fails : Validator → Bool)
    (hfront : ∀ entry ∈ front, fails entry.2 = false) (hv : fails validator = true) :
    calledUntilFailure (front ++ (validatorName, validator) :: back) fails =
        front.map (fun entry => entry.1) ++ [validatorName] ∧
      firstFailing (front ++ (validatorName, validator) :: back) fails =
        some validatorName := by
  induction front with
  | nil => simp [calledUntilFailure, firstFailing, hv]
  | cons entry rest ih =>
    obtain ⟨n, v⟩ := entry
    have hn : fails v = false := hfront (n, v) (List.mem_cons_self _ _)
    have hrest := ih (fun e he => hfront e (List.mem_cons_of_mem _ he))
    refine ⟨?_, ?_⟩
    · show calledUntilFailure ((n, v) :: (rest ++ (validatorName, validator) :: back)) fails =
        n :: (rest.map (fun entry => entry.1) ++ [validatorName])
      simp only [calledUntilFailure, hn, Bool.false_eq_true, if_false, hrest.1]
    · show firstFailing ((n, v) :: (rest ++ (validatorName, validator) :: back)) fails =
        some validatorName
      simp only [firstFailing, hn, Bool.false_eq_true, if_false, hrest.2]

/-- The outcome of the logged write is the outcome of set. -/
theorem setLogged_fst (m : Model) (record : Record) (property : PropertyKey) (value : Value)
    (skipValidation : Bool) :
    (setLogged m record property value skipValidation).1 =
      set m record property value skipValidation := by
  unfold setLogged set
  simp only []
  split
  · rfl
  · split
    · rfl
    · split
      · rfl
      · split
        · split <;> rfl
        · rfl

/-- A write with skipValidation set calls no model validator. -/
theorem setLogged_skip (m : Model) (record : Record) (property : PropertyKey) (value : Value) :
    (setLogged m record property value true).2 = [] := by
  unfold setLogged
  simp only [Bool.not_true, Bool.false_eq_true, if_false]
  split
  · rfl
  · split
    · rfl
    · split <;> rfl

/-- The loop of createRecord over the fields calls no model validator. -/
theorem setFieldsLogged_eq (m : Model) (clonedRecord : Value) :
    ∀ (names : List String) (record : Record),
      setFieldsLogged m clonedRecord names record = (setFields m clonedRecord names record, [])
  | [], record => rfl
  | field :: rest, record => by
    simp only [setFieldsLogged, setFields, setLogged_fst, setLogged_skip]
    cases (set m record (.str field) (clonedRecord.getMember field) true).result with
    | error e => rfl
    | ok b =>
      simp only [setFieldsLogged_eq m clonedRecord rest, List.nil_append]

/-- The result of the logged construction is that of createRecord, and its calls are either
none or the calls of the loop over the model validators on the record that the writes of all
the fields have built. -/
theorem createRecordLogged_cases (m : Model) (recordData : Value) :
    (createRecordLogged m recordData).1 = createRecord m recordData ∧
      ((createRecordLogged m recordData).2 = [] ∨
        ∃ newRecordId newRecord,
          validateNewRecordId m.name (recordData.getMember "id") m.records = .ok newRecordId ∧
          setFields m (deepClone recordData) (getFieldNames m)
            (Record.new [("id", newRecordId)]) = .ok newRecord ∧
          (createRecordLogged m recordData).2 =
            (calledUntilFailure m.validators (fun validator =>
              !validator newRecord.recordValue m.records)).map
              (fun validatorName => ⟨validatorName, newRecord.recordValue⟩)) := by
  unfold createRecordLogged createRecord
  by_cases htruthy : recordData.truthy = true
  · by_cases hobj : recordData.typeOf = .object
    · simp only [htruthy, hobj, Bool.not_true, Bool.false_eq_true, if_false, bne_self_eq_false,
        getModelName, setFieldsLogged_eq, getValidators, List.nil_append]
      cases hid : validateNewRecordId m.name (recordData.getMember "id") m.records with
      | error e => exact ⟨rfl, Or.inl rfl⟩
      | ok newRecordId =>
        simp only []
        cases hset : setFields m (deepClone recordData) (getFieldNames m)
            (Record.new [("id", newRecordId)]) with
        | error e => exact ⟨rfl, Or.inl rfl⟩
        | ok built =>
          simp only []
          cases hv : firstFailing m.validators (fun validator =>
              !validator built.recordValue m.records) with
          | some n => exact ⟨rfl, Or.inr ⟨newRecordId, built, rfl, hset, rfl⟩⟩
          | none => exact ⟨rfl, Or.inr ⟨newRecordId, built, rfl, hset, rfl⟩⟩
    · have hne : (recordData.typeOf != JsType.object) = true := by
        simpa using hobj
      simp only [htruthy, hne, Bool.not_true, Bool.false_eq_true, if_false, if_true]
      exact ⟨trivial, Or.inl trivial⟩
  · simp only [htruthy, Bool.not_false, if_true]
    exact ⟨trivial, Or.inl trivial⟩

/-- C11, as stated, fails: on the sample model with the two model validators nameNotEqualToId
and ageIsNumber, the creation of { id: 'a', name: 'a' } writes all the fields, calls
nameNotEqualToId, which rejects, and throws; ageIsNumber is not called at all. -/
theorem createRecord_stops_at_first_rejection :
    sampleTwoValidatorsModel.validators.map (fun entry => entry.1) =
        ["nameNotEqualToId", "ageIsNumber"] ∧
      (createRecordLogged sampleTwoValidatorsModel
          (.obj [("id", .str "a"), ("name", .str "a")])).1 =
        .error (validationError "aModel" (.str "a") "nameNotEqualToId") ∧
      (createRecordLogged sampleTwoValidatorsModel
          (.obj [("id", .str "a"), ("name", .str "a")])).2 =
        [⟨"nameNotEqualToId",
          [("id", .str "a"), ("name", .str "a"), ("age", .num 18), ("level", .null),
            ("role", .str "guest")]⟩] ∧
      ((createRecordLogged sampleTwoValidatorsModel
          (.obj [("id", .str "a"), ("name", .str "a")])).2.filter
        (fun call => call.validatorName == "ageIsNumber")).length = 0 := by
  refine ⟨by decide, by decide, by decide, by decide⟩

/-- C11, amended: during createRecord no model validator is called by the writes of the fields,
and none at all unless every declared field has been written. The calls are made on the
record that these writes have built, in registration order. When every model validator
accepts that record, each is called exactly once and createRecord succeeds with that record.
When one rejects it, exactly the validators registered ahead of the first rejecting one and
that one are called, once each, and none after it, and createRecord fails with the validation
error that names that first rejecting validator. -/
theorem createRecord_model_validator_calls (m : Model) (recordData : Value) :
    (createRecordLogged m recordData).1 = createRecord m recordData ∧
      (∀ record property value,
        (setLogged m record property value true).1 = set m record property value true ∧
          (setLogged m record property value true).2 = []) ∧
      (∀ call ∈ (createRecordLogged m recordData).2,
        ∃ newRecordId newRecord,
          validateNewRecordId m.name (recordData.getMember "id") m.records = .ok newRecordId ∧
          setFields m (deepClone recordData) (getFieldNames m)
            (Record.new [("id", newRecordId)]) = .ok newRecord ∧
          call.argument = newRecord.recordValue) ∧
      ((createRecordLogged m recordData).2.map (fun call => call.validatorName) <+:
        m.validators.map (fun entry => entry.1)) ∧
      (∀ id newRecord, createRecord m recordData = .ok (id, newRecord) →
        (createRecordLogged m recordData).2 =
          m.validators.map (fun entry => ⟨entry.1, newRecord.recordValue⟩)) ∧
      (∀ newRecordId newRecord,
        validateNewRecordId m.name (recordData.getMember "id") m.records = .ok newRecordId →
        setFields m (deepClone recordData) (getFieldNames m)
          (Record.new [("id", newRecordId)]) = .ok newRecord →
        ((∀ entry ∈ m.validators, entry.2 newRecord.recordValue m.records = true) →
          (createRecordLogged m recordData).2 =
              m.validators.map (fun entry => ⟨entry.1, newRecord.recordValue⟩) ∧
            createRecord m recordData = .ok (newRecordId, newRecord)) ∧
        (∀ (front back : List (String × Validator)) (validatorName : String)
            (validator : Validator),
          m.validators = front ++ (validatorName, validator) :: back →
          (∀ entry ∈ front, entry.2 newRecord.recordValue m.records = true) →
          validator newRecord.recordValue m.records = false →
          (createRecordLogged m recordData).2 =
              (front ++ [(validatorName, validator)]).map
                (fun entry => ⟨entry.1, newRecord.recordValue⟩) ∧
            createRecord m recordData =
              .error (validationError m.name newRecordId validatorName))) := by
  obtain ⟨hfst, hsnd⟩ := createRecordLogged_cases m recordData
  refine ⟨hfst, fun record property value =>
    ⟨setLogged_fst m record property value true, setLogged_skip m record property value⟩,
    ?_, ?_, ?_, ?_⟩
  · intro call hcall
    rcases hsnd with hnil | ⟨newRecordId, newRecord, hid, hset, hlog⟩
    · rw [hnil] at hcall
      simp at hcall
    · rw [hlog] at hcall
      obtain ⟨n, _, hn⟩ := List.mem_map.1 hcall
      exact ⟨newRecordId, newRecord, hid, hset, by rw [← hn]⟩
  · rcases hsnd with hnil | ⟨newRecordId, newRecord, hid, hset, hlog⟩
    · rw [hnil]
      exact ⟨_, rfl⟩
    · rw [hlog, List.map_map]
      have hid : ((fun call : ValidatorCall => call.validatorName) ∘
          fun validatorName => (⟨validatorName, newRecord.recordValue⟩ : ValidatorCall)) =
          id := rfl
      rw [hid, List.map_id]
      exact calledUntilFailure_isPrefix _ _
  · intro id newRecord hok
    have hinv := createRecord_ok_inv m recordData id newRecord hok
    have hset : setFields m (deepClone recordData) (getFieldNames m)
        (Record.new [("id", id)]) = .ok newRecord := hinv.2.2.2.2.1
    have htruthy : recordData.truthy = true := by
      cases recordData <;> simp_all [Value.typeOf, Value.truthy, createRecord]
    have hval : validateNewRecordId m.name (recordData.getMember "id") m.records = .ok id := by
      rw [validateNewRecordId_eq, ← hinv.2.1, hinv.2.2.1, hinv.2.2.2.1]
      simp
    unfold createRecordLogged
    simp only [htruthy, hinv.1, Bool.not_true, Bool.false_eq_true, if_false,
      bne_self_eq_false, getModelName, hval, setFieldsLogged_eq, hset, getValidators,
      hinv.2.2.2.2.2, List.nil_append, calledUntilFailure_of_none _ _ hinv.2.2.2.2.2,
      List.map_map]
    rfl
  · intro newRecordId newRecord hid hset
    obtain ⟨s, hs, _⟩ := (recordId_true_iff _).1 (validateNewRecordId_ok _ _ _ _ hid).2.1
    obtain ⟨kvs, hkvs⟩ := getMember_str_obj recordData "id" s hs
    have htruthy : recordData.truthy = true := by rw [hkvs]; rfl
    have hobj : recordData.typeOf = .object := by rw [hkvs]; rfl
    constructor
    · intro hall
      have hnone : firstFailing m.validators (fun validator =>
          !validator newRecord.recordValue m.records) = none :=
        (firstFailing_eq_none_iff _ _).2 (fun entry hentry => by simp [hall entry hentry])
      unfold createRecordLogged createRecord
      simp only [htruthy, hobj, Bool.not_true, Bool.false_eq_true, if_false,
        bne_self_eq_false, getModelName, hid, setFieldsLogged_eq, hset, getValidators, hnone,
        List.nil_append, calledUntilFailure_of_none _ _ hnone, List.map_map]
      exact ⟨rfl, trivial⟩
    · intro front back validatorName validator hsplit hfront hrejects
      have hboth := calledUntilFailure_append_failing front back validatorName validator
        (fun validator => !validator newRecord.recordValue m.records)
        (fun entry hentry => by simp [hfront entry hentry]) (by simp [hrejects])
      rw [← hsplit] at hboth
      unfold createRecordLogged createRecord
      simp only [htruthy, hobj, Bool.not_true, Bool.false_eq_true, if_false,
        bne_self_eq_false, getModelName, hid, setFieldsLogged_eq, hset, getValidators,
        hboth.1, hboth.2, List.nil_append, List.map_append, List.map_map, List.map_cons,
        List.map_nil]
      exact ⟨rfl, trivial⟩

/-- Witness of the amended C11 on the sample model with the two model validators: the creation
of { id: 'a', name: 'a' } writes all the fields, the model validator nameNotEqualToId, the
first one, rejects the record, only that validator is called, and createRecord fails with the
validation error that names it. -/
theorem createRecord_model_validator_calls_witness :
    setFields sampleTwoValidatorsModel (deepClone (.obj [("id", .str "a"), ("name", .str "a")]))
        (getFieldNames sampleTwoValidatorsModel) (Record.new [("id", .str "a")]) =
        .ok ⟨[("id", .str "a"), ("name", .str "a"), ("age", .num 18), ("level", .null),
          ("role", .str "guest")], false, []⟩ ∧
      (createRecordLogged sampleTwoValidatorsModel
          (.obj [("id", .str "a"), ("name", .str "a")])).2 =
        [⟨"nameNotEqualToId",
          [("id", .str "a"), ("name", .str "a"), ("age", .num 18), ("level", .null),
            ("role", .str "guest")]⟩] ∧
      createRecord sampleTwoValidatorsModel (.obj [("id", .str "a"), ("name", .str "a")]) =
        .error (validationError sampleTwoValidatorsModel.name (.str "a") "nameNotEqualToId") :=
  ⟨by decide,
    ((createRecord_model_validator_calls sampleTwoValidatorsModel
      (.obj [("id", .str "a"), ("name", .str "a")])).2.2.2.2.2 (.str "a")
      ⟨[("id", .str "a"), ("name", .str "a"), ("age", .num 18), ("level", .null),
        ("role", .str "guest")], false, []⟩
      (by decide) (by decide)).2 []
      [("ageIsNumber", fun record _ => isNumber (getProp record "age"))]
      "nameNotEqualToId" (fun record _ => getProp record "id" != getProp record "name")
      rfl (by simp) (by decide)⟩

/-! ## Uniqueness of a field on creation -/

theorem firstFailing_append (front back : List (String × Validator))
    (fails : Validator → Bool) (h : ∀ entry ∈ front, fails entry.2 = false) :
    firstFailing (front ++ back) fails = firstFailing back fails := by
  induction front with
  | nil => rfl
  | cons entry rest ih =>
    obtain ⟨n, v⟩ := entry
    have hv : fails v = false := h (n, v) (List.mem_cons_self _ _)
    simp only [List.cons_append, firstFailing, hv, Bool.false_eq_true, if_false]
    exact ih (fun e he => h e (List.mem_cons_of_mem _ he))

theorem setFields_append (m : Model) (clonedRecord : Value) :
    ∀ (front back : List String) (record : Record),
      setFields m clonedRecord (front ++ back) record =
        match setFields m clonedRecord front record with
        | .error e => .error e
        | .ok record1 => setFields m clonedRecord back record1
  | [], back, record => rfl
  | field :: rest, back, record => by
    simp only [List.cons_append, setFields]
    cases (set m record (.str field) (clonedRecord.getMember field) true).result with
    | error e => rfl
    | ok b => exact setFields_append m clonedRecord rest back _

theorem getField_of_mem_getFieldNames (m : Model) (p : String) (h : p ∈ getFieldNames m) :
    ∃ f, getField m (.str p) = some f := by
  simp only [getFieldNames, List.mem_map] at h
  obtain ⟨g, hmem, hname⟩ := h
  have hhas : hasField m (.str p) = true := by
    simp only [hasField, List.any_eq_true]
    exact ⟨g, hmem, by simp [hname]⟩
  obtain ⟨q, f, hq, hf⟩ := getField_of_hasField m (.str p) hhas
  cases hq
  exact ⟨f, hf⟩

/-- The writes of fields of the model keep the identity of the record, when the data carry
that identity under id. -/
theorem setFields_keeps_id (m : Model) (clonedRecord : Value) (names : List String)
    (record newRecord : Record)
    (hnames : ∀ n ∈ names, n ∈ getFieldNames m)
    (hid : clonedRecord.getMember "id" = getRecordId record)
    (hdef : clonedRecord.getMember "id" ≠ .undefined)
    (h : setFields m clonedRecord names record = .ok newRecord) :
    getRecordId newRecord = getRecordId record := by
  have hspec := setFields_spec m clonedRecord names record newRecord h "id"
  by_cases hmem : "id" ∈ names
  · obtain ⟨f, hf⟩ := getField_of_mem_getFieldNames m "id" (hnames "id" hmem)
    have hval := hspec.1 hmem f hf
    have hnot : isUndefined (clonedRecord.getMember "id") = false := by
      simp [isUndefined, hdef]
    rw [hnot] at hval
    simp only [Bool.and_false, Bool.false_eq_true, if_false] at hval
    simp only [getRecordId, hval]
    exact hid
  · exact hspec.2 hmem

/-- A write of a value that another record of the collection holds for a field with a
uniqueness validator does not return. -/
theorem set_duplicate_value_fails (m : Model) (record : Record) (p : String) (f : Field)
    (uname : String) (x otherId : Value) (other : Record) (skipValidation b : Bool)
    (hf : getField m (.str p) = some f)
    (hu : (uname, Validator.unique p) ∈ f.validators)
    (hother : (otherId, other) ∈ m.records)
    (hx : getProp other.recordValue p = x)
    (hprim : x.typeOf ≠ .object) (hxu : x ≠ .undefined)
    (hdiff : getRecordId record ≠ otherId) :
    (set m record (.str p) x skipValidation).result ≠ .ok b := by
  intro hok
  have hxn : x ≠ .null := by
    intro hnull
    rw [hnull] at hprim
    exact hprim rfl
  have hnotu : isUndefined x = false := by simp [isUndefined, hxu]
  have hcontains : [Value.null, Value.undefined].contains x = false := by
    simp [hxn, hxu]
  have hunique : Validator.unique p (setProp record.recordValue p x)
      (RecordSet.except m.records (getRecordId record)) = false := by
    simp only [Validator.unique, List.all_eq_false, getProp_setProp_same]
    refine ⟨(otherId, other), ?_, by simp [hx, strictEq_self_of_primitive x hprim]⟩
    simp only [RecordSet.except, List.mem_filter]
    exact ⟨hother, by simpa using fun h => hdiff h.symm⟩
  by_cases hp : hasProperty m (.str p) = true
  · simp [set, hp] at hok
  · by_cases hm : hasMethod m (.str p) = true
    · simp [set, hp, hm] at hok
    · simp only [Bool.not_eq_true] at hp hm
      by_cases hty : hasRelationshipField m (.str p) = true ∨
          f.typeCheck (if isUndefined x then f.defaultValue else x) = true
      · rw [set_field_written m record p x skipValidation f hp hm hf hty] at hok
        simp only [hnotu, Bool.and_false, Bool.false_eq_true, if_false, hcontains,
          Bool.not_false, Bool.true_and] at hok
        cases hff : firstFailing f.validators (fun validator =>
            !validator (setProp record.recordValue p x)
              (RecordSet.except m.records (getRecordId record))) with
        | some n => simp [hff] at hok
        | none =>
          have := (firstFailing_eq_none_iff _ _).1 hff (uname, Validator.unique p) hu
          simp only [hunique] at this
          exact absurd this (by decide)
      · have hrel : hasRelationshipField m (.str p) = false := by
          cases hr : hasRelationshipField m (.str p) with
          | true => exact absurd (Or.inl hr) hty
          | false => rfl
        have htc : f.typeCheck (if isUndefined x then f.defaultValue else x) = false := by
          cases ht : f.typeCheck (if isUndefined x then f.defaultValue else x) with
          | true => exact absurd (Or.inr ht) hty
          | false => rfl
        rw [set_field_eq m record p x skipValidation f hp hm hf, hrel] at hok
        simp [setRecordField, htc] at hok

/-- C12, as stated, fails: the model has a uniqueness validator on its field name and its
collection holds a record named x, yet the creation of a record with another id, the name x
and an age that is not a number fails with a TypeError, not with a validation error: age is
declared before name, and its write is refused first. -/
theorem createRecord_same_name_fails_with_typeError :
    getField sampleAgeFirstModel (.str "name") = some sampleNameField ∧
      ("unique", Validator.unique "name") ∈ sampleNameField.validators ∧
      (Value.str "a", sampleStoredRecord) ∈ sampleAgeFirstModel.records ∧
      getProp sampleStoredRecord.recordValue "name" = .str "x" ∧
      createRecord sampleAgeFirstModel
          (.obj [("id", .str "b"), ("name", .str "x"), ("age", .str "old")]) =
        .error ⟨.TypeError,
          [.val (.str "aModel"), .lit " record has invalid value for field ",
            .val (.str "age"), .lit "."]⟩ := by
  refine ⟨rfl, by simp [sampleNameField], by simp [sampleAgeFirstModel, sampleModelWithRecord],
    by decide, by decide⟩

/-- C12, amended: let the field p of the model (another name than __proto__) carry a uniqueness
validator, let the collection hold a record whose value for p is x, a primitive value other
than undefined (a string, a number or a boolean), and let the data have another id than that
record and the same value x for p. Then createRecord does not succeed. It fails with the
validation error that names the uniqueness validator whenever nothing fails before that
validator is reached: the id of the data is valid and not stored yet, the fields declared
before p are written without error, p is not refused as a computed property, as a method or
by the type check, and the validators bound to p ahead of the uniqueness validator accept the
record. -/
theorem createRecord_duplicate_field_value (m : Model) (recordData : Value) (p : String)
    (f : Field) (uname : String) (x otherId : Value) (other : Record)
    (hf : getField m (.str p) = some f)
    (hu : (uname, Validator.unique p) ∈ f.validators)
    (hother : (otherId, other) ∈ m.records)
    (hx : getProp other.recordValue p = x)
    (hprim : x.typeOf ≠ .object) (hxu : x ≠ .undefined)
    (hpp : p ≠ "__proto__")
    (hdata : recordData.getMember p = x)
    (hdiff : recordData.getMember "id" ≠ otherId) :
    (∃ e, createRecord m recordData = .error e) ∧
      ∀ (front back : List String) (vfront vback : List (String × Validator)) (id : Value)
        (record1 : Record),
        getFieldNames m = front ++ p :: back →
        validateNewRecordId m.name (recordData.getMember "id") m.records = .ok id →
        setFields m (deepClone recordData) front (Record.new [("id", id)]) = .ok record1 →
        hasProperty m (.str p) = false → hasMethod m (.str p) = false →
        (hasRelationshipField m (.str p) = true ∨ f.typeCheck x = true) →
        f.validators = vfront ++ (uname, Validator.unique p) :: vback →
        (∀ entry ∈ vfront,
          entry.2 (setProp record1.recordValue p x) (RecordSet.except m.records id) = true) →
        createRecord m recordData = .error (validationError m.name id uname) := by
  have hxn : x ≠ .null := by
    intro hnull
    rw [hnull] at hprim
    exact hprim rfl
  have hnotu : isUndefined x = false := by simp [isUndefined, hxu]
  have hclone : recordData.typeOf = .object → (deepClone recordData).getMember p = x := by
    intro hobj
    rw [getMember_deepClone recordData p hobj hpp
      (fun hty => by rw [hdata] at hty; exact absurd hty hprim), hdata]
  have hkeep : ∀ (front back : List String) (id : Value) (record1 : Record),
      recordData.typeOf = .object →
      getFieldNames m = front ++ p :: back →
      id = recordData.getMember "id" → recordId id = .ok true →
      setFields m (deepClone recordData) front (Record.new [("id", id)]) = .ok record1 →
      getRecordId record1 = id := by
    intro front back id record1 hobj hnames hid hrid hfront
    obtain ⟨s, hs, _⟩ := (recordId_true_iff id).1 hrid
    have hcloneId : (deepClone recordData).getMember "id" = id := by
      rw [getMember_deepClone recordData "id" hobj (by decide)
        (fun hty => by rw [← hid, hs] at hty; cases hty), ← hid]
    have h1 := setFields_keeps_id m (deepClone recordData) front (Record.new [("id", id)])
      record1 (fun n hn => by rw [hnames]; exact List.mem_append_left _ hn)
      (by rw [hcloneId]; rfl) (by rw [hcloneId, hs]; simp) hfront
    rw [h1]
    rfl
  constructor
  · cases hc : createRecord m recordData with
    | error e => exact ⟨e, rfl⟩
    | ok created =>
      exfalso
      obtain ⟨id, newRecord⟩ := created
      have hinv := createRecord_ok_inv m recordData id newRecord hc
      obtain ⟨front, back, hnames⟩ := List.append_of_mem (mem_getFieldNames_of_getField m p f hf)
      have hall := hinv.2.2.2.2.1
      rw [hnames, setFields_append] at hall
      cases hfront : setFields m (deepClone recordData) front (Record.new [("id", id)]) with
      | error e => simp [hfront] at hall
      | ok record1 =>
        simp only [hfront, setFields, hclone hinv.1] at hall
        have hrid := hkeep front back id record1 hinv.1 hnames hinv.2.1 hinv.2.2.1 hfront
        cases hres : (set m record1 (.str p) x true).result with
        | error e => simp [hres] at hall
        | ok b =>
          exact set_duplicate_value_fails m record1 p f uname x otherId other true b hf hu
            hother hx hprim hxu (by rw [hrid, hinv.2.1]; exact hdiff) hres
  · intro front back vfront vback id record1 hnames hid hfront hp hm hty hvals hvfront
    have hval := validateNewRecordId_ok _ _ _ _ hid
    obtain ⟨s, hs, _⟩ := (recordId_true_iff _).1 hval.2.1
    obtain ⟨kvs, hkvs⟩ := getMember_str_obj recordData "id" s hs
    have htruthy : recordData.truthy = true := by rw [hkvs]; rfl
    have hobj : recordData.typeOf = .object := by rw [hkvs]; rfl
    have hrid := hkeep front back id record1 hobj hnames hval.1
      (by rw [hval.1]; exact hval.2.1) hfront
    have hty2 : hasRelationshipField m (.str p) = true ∨
        f.typeCheck (if isUndefined x then f.defaultValue else x) = true := by
      simpa [hnotu] using hty
    have hcontains : [Value.null, Value.undefined].contains x = false := by
      simp [hxn, hxu]
    have hunique : Validator.unique p (setProp record1.recordValue p x)
        (RecordSet.except m.records id) = false := by
      simp only [Validator.unique, List.all_eq_false, getProp_setProp_same]
      refine ⟨(otherId, other), ?_, by simp [hx, strictEq_self_of_primitive x hprim]⟩
      simp only [RecordSet.except, List.mem_filter]
      exact ⟨hother, by simpa [hval.1] using fun h => hdiff h.symm⟩
    have hset : (set m record1 (.str p) x true).result =
        .error (validationError m.name id uname) := by
      rw [set_field_written m record1 p x true f hp hm hf hty2]
      simp only [hnotu, Bool.and_false, Bool.false_eq_true, if_false, hcontains,
        Bool.not_false, Bool.true_and, hrid, hvals]
      rw [firstFailing_append vfront _ _ (fun entry he => by simp [hvfront entry he])]
      simp only [firstFailing, hunique, Bool.not_false, if_true]
    unfold createRecord
    simp only [htruthy, hobj, Bool.not_true, Bool.false_eq_true, if_false, bne_self_eq_false,
      getModelName, hid, hnames, setFields_append, hfront, setFields, hclone hobj, hset]

/-- Witness of the amended C12 on the sample model that stores { id: 'a', name: 'x' }: name is
the first field and the uniqueness validator the first validator bound to it, and the
creation of { id: 'b', name: 'x' } fails with the validation error that names it. -/
theorem createRecord_duplicate_field_value_witness :
    getField sampleModelWithRecord (.str "name") = some sampleNameField ∧
      (Value.str "a", sampleStoredRecord) ∈ sampleModelWithRecord.records ∧
      createRecord sampleModelWithRecord (.obj [("id", .str "b"), ("name", .str "x")]) =
        .error (validationError sampleModelWithRecord.name (.str "b") "unique") :=
  ⟨rfl, by simp [sampleModelWithRecord],
    (createRecord_duplicate_field_value sampleModelWithRecord
      (.obj [("id", .str "b"), ("name", .str "x")]) "name" sampleNameField "unique" (.str "x")
      (.str "a") sampleStoredRecord rfl (by simp [sampleNameField])
      (by simp [sampleModelWithRecord]) (by decide) (by decide) (by decide) (by decide)
      (by decide) (by decide)).2
      [] ["age", "level", "role"] [] [] (.str "b") (Record.new [("id", .str "b")])
      (by decide) (by decide) (by decide) (by decide) (by decide) (Or.inr (by decide))
      (by simp [sampleNameField]) (by simp)⟩

/-! ## Resolution order of the read path -/

/-- C21, counterexample: in a model where name is a field, a computed property and a method at
once, a read of name gives the value stored for the field, b, and not undefined. -/
theorem get_colliding_name_reads_field :
    hasField sampleCollisionModel (.str "name") = true ∧
      hasProperty sampleCollisionModel (.str "name") = true ∧
      hasMethod sampleCollisionModel (.str "name") = true ∧
      get sampleCollisionModel sampleRecord (.str "name") =
        ⟨.ok (.value (.str "b")), sampleRecord, []⟩ :=
  ⟨by decide, by decide, by decide, rfl⟩

/-- C21, amended: get does not look for collisions; a name resolves to the first category, in
the order of the tests of get, that it belongs to, whatever other categories it belongs to as
well. A relationship field reads through its relationship. Otherwise id and every field name
read as the value stored under the name, also when a computed property or a method has the
same name. A name that is neither id nor a field and is a computed property reads as that
property, also when a method has the same name; and a name that is none of these and is a
method reads as the method. -/
theorem get_resolves_by_precedence (m : Model) (record : Record) (p : String) :
    (hasRelationshipField m (.str p) = true →
        get m record (.str p) = ⟨getRelationship m record p, record, []⟩) ∧
      (hasRelationshipField m (.str p) = false →
        (p = "id" ∨ hasField m (.str p) = true) →
        get m record (.str p) = ⟨.ok (.value (getProp record.recordValue p)), record, []⟩) ∧
      (p ≠ "id" → hasField m (.str p) = false → hasProperty m (.str p) = true →
        get m record (.str p) = getProperty m record p) ∧
      (p ≠ "id" → hasField m (.str p) = false → hasProperty m (.str p) = false →
        hasMethod m (.str p) = true →
        get m record (.str p) = ⟨getMethod m record p, record, []⟩) := by
  have hnotid : p ≠ "id" → isRecordId (.str p) = false := by
    intro h
    simp [isRecordId, h]
  have hnorel : hasField m (.str p) = false → hasRelationshipField m (.str p) = false := by
    intro h
    simp [hasRelationshipField, h]
  refine ⟨?_, ?_, ?_, ?_⟩
  · intro hrel
    simp only [get, hrel, if_true]
  · intro hrel hor
    have hcond : (isRecordId (.str p) || hasField m (.str p)) = true := by
      rcases hor with h | h
      · subst h
        rfl
      · rw [h, Bool.or_true]
    simp only [get, hrel, Bool.false_eq_true, if_false, hcond, if_true, getFieldValue]
  · intro hid hfield hprop
    simp only [get, hnorel hfield, hnotid hid, hfield, hprop, Bool.false_eq_true, if_false,
      Bool.or_self, if_true]
  · intro hid hfield hprop hmeth
    simp only [get, hnorel hfield, hnotid hid, hfield, hprop, hmeth, Bool.false_eq_true,
      if_false, Bool.or_self, if_true]

/-- Witness of C21 on the model where name is a field, a computed property and a method: the
read gives the value of the field. -/
theorem get_resolves_by_precedence_witness :
    hasMethod sampleCollisionModel (.str "name") = true ∧
      get sampleCollisionModel sampleRecord (.str "name") =
        ⟨.ok (.value (getProp sampleRecord.recordValue "name")), sampleRecord, []⟩ :=
  ⟨by decide,
    (get_resolves_by_precedence sampleCollisionModel sampleRecord "name").2.1 (by decide)
      (Or.inr (by decide))⟩

/-! ## The serialised object -/

theorem mem_keys_setProp (kvs : List (String × Value)) (key k : String) (v : Value) :
    k ∈ (setProp kvs key v).map Prod.fst ↔ k = key ∨ k ∈ kvs.map Prod.fst := by
  induction kvs with
  | nil => simp [setProp]
  | cons entry rest ih =>
    obtain ⟨k1, w⟩ := entry
    by_cases h : k1 = key
    · subst h
      simp [setProp]
    · simp only [setProp, h, if_false, List.map_cons, List.mem_cons, ih]
      constructor
      · rintro (h1 | h1 | h1)
        · exact Or.inr (Or.inl h1)
        · exact Or.inl h1
        · exact Or.inr (Or.inr h1)
      · rintro (h1 | h1 | h1)
        · exact Or.inr (Or.inl h1)
        · exact Or.inl h1
        · exact Or.inr (Or.inr h1)

/-- The keys of the serialised object: those of the initial object and the names of the fields
whose value in the record is not undefined. -/
theorem mem_keys_serialise_fold (recordValue : List (String × Value)) (k : String) :
    ∀ (fields : List Field) (object : List (String × Value)),
      k ∈ (fields.foldl
        (fun object field =>
          let value := getProp recordValue field.name
          if value != .undefined then setProp object field.name value else object)
        object).map Prod.fst ↔
        k ∈ object.map Prod.fst ∨
          ((∃ f ∈ fields, f.name = k) ∧ getProp recordValue k ≠ .undefined)
  | [], object => by simp
  | f :: rest, object => by
    rw [List.foldl_cons, mem_keys_serialise_fold recordValue k rest]
    by_cases hval : getProp recordValue f.name = .undefined
    · have hstep : (if (getProp recordValue f.name != Value.undefined) = true
          then setProp object f.name (getProp recordValue f.name) else object) = object := by
        simp [hval]
      simp only [hstep]
      constructor
      · rintro (h | ⟨⟨g, hg, hname⟩, hne⟩)
        · exact Or.inl h
        · exact Or.inr ⟨⟨g, List.mem_cons_of_mem _ hg, hname⟩, hne⟩
      · rintro (h | ⟨⟨g, hg, hname⟩, hne⟩)
        · exact Or.inl h
        · rcases List.mem_cons.mp hg with hg | hg
          · subst hg
            rw [hname] at hval
            exact absurd hval hne
          · exact Or.inr ⟨⟨g, hg, hname⟩, hne⟩
    · have hstep : (if (getProp recordValue f.name != Value.undefined) = true
          then setProp object f.name (getProp recordValue f.name) else object) =
          setProp object f.name (getProp recordValue f.name) := by
        simp [hval]
      simp only [hstep, mem_keys_setProp]
      constructor
      · rintro ((h | h) | ⟨⟨g, hg, hname⟩, hne⟩)
        · subst h
          exact Or.inr ⟨⟨f, List.mem_cons_self _ _, rfl⟩, hval⟩
        · exact Or.inl h
        · exact Or.inr ⟨⟨g, List.mem_cons_of_mem _ hg, hname⟩, hne⟩
      · rintro (h | ⟨⟨g, hg, hname⟩, hne⟩)
        · exact Or.inl (Or.inr h)
        · rcases List.mem_cons.mp hg with hg | hg
          · subst hg
            exact Or.inl (Or.inl hname.symm)
          · exact Or.inr ⟨⟨g, hg, hname⟩, hne⟩

theorem mem_keys_recordToObject (m : Model) (record : Record) (k : String) :
    k ∈ (recordToObject record m).map Prod.fst ↔
      k = "id" ∨ ((∃ f ∈ m.fields, f.name = k) ∧ getProp record.recordValue k ≠ .undefined) := by
  unfold recordToObject
  rw [mem_keys_serialise_fold record.recordValue k m.fields]
  simp

theorem getProp_recordToObject_of_key (m : Model) (record : Record) (k : String)
    (hk : k ∈ (recordToObject record m).map Prod.fst) :
    getProp (recordToObject record m) k = getProp record.recordValue k := by
  have hcases := (mem_keys_recordToObject m record k).mp hk
  unfold recordToObject
  rw [getProp_serialise_fold record.recordValue k m.fields]
  split
  · rfl
  · rename_i hcond
    rcases hcases with h | ⟨⟨f, hf, hname⟩, hne⟩
    · subst h
      simp [getProp]
    · exfalso
      apply hcond
      have hany : m.fields.any (fun field => field.name == k) = true := by
        rw [List.any_eq_true]
        exact ⟨f, hf, by simp [hname]⟩
      simp [hany, hne]

/-- C22: a read of toObject or toJSON (names that the model does not use for a field, a
computed property or a method) gives a callable, and the object that the callable produces
has an entry id that holds the identity of the record; its keys are id and the names of the
declared fields whose value in the record is not undefined, and no others; and every entry
holds the value that the record holds under that name. -/
theorem recordToObject_entries (m : Model) (record : Record) (property : PropertyKey)
    (hser : isCallToSerialize property = true)
    (hfield : hasField m property = false) (hprop : hasProperty m property = false)
    (hmeth : hasMethod m property = false) :
    (∃ callable, get m record property = ⟨.ok (.callable callable), record, []⟩ ∧
        ∀ args, callable args = .obj (recordToObject record m)) ∧
      getProp (recordToObject record m) "id" = getRecordId record ∧
      (∀ k, k ∈ (recordToObject record m).map Prod.fst ↔
        k = "id" ∨
          ((∃ f ∈ m.fields, f.name = k) ∧ getProp record.recordValue k ≠ .undefined)) ∧
      (∀ k, k ∈ (recordToObject record m).map Prod.fst →
        getProp (recordToObject record m) k = getProp record.recordValue k) := by
  have hid : isRecordId property = false := by
    simp only [isCallToSerialize, Bool.or_eq_true, beq_iff_eq] at hser
    rcases hser with h | h <;> subst h <;> rfl
  refine ⟨⟨fun _ => .obj (recordToObject record m), ?_, fun _ => rfl⟩, ?_,
    mem_keys_recordToObject m record, getProp_recordToObject_of_key m record⟩
  · simp [get, hasRelationshipField, hid, hfield, hprop, hmeth, hser]
  · exact getProp_recordToObject_of_key m record "id"
      ((mem_keys_recordToObject m record "id").mpr (Or.inl rfl))

/-- Witness of C22 on the sample record: the object has the keys id, name, age, level and role
with the values of the record. -/
theorem recordToObject_entries_witness :
    isCallToSerialize (.str "toJSON") = true ∧
      getProp (recordToObject sampleRecord sampleModel) "id" = .str "a" ∧
      recordToObject sampleRecord sampleModel =
        [("id", .str "a"), ("name", .str "b"), ("age", .num 18), ("level", .num 1),
          ("role", .str "admin")] :=
  ⟨by decide,
    (recordToObject_entries sampleModel sampleRecord (.str "toJSON") (by decide) (by decide)
      (by decide) (by decide)).2.1,
    by decide⟩

/-- C23, evaluated on the model with the relationship field category: the callable that a read
of toObject gives takes no account of its arguments. Called with the option include naming
category, as with any other arguments, it produces the object whose entry category is the
value stored in the record, c1, not a serialised record. -/
theorem toObject_ignores_include :
    hasRelationshipField sampleRelationshipModel (.str "category") = true ∧
      ∃ callable,
        get sampleRelationshipModel sampleRelationshipRecord (.str "toObject") =
          ⟨.ok (.callable callable), sampleRelationshipRecord, []⟩ ∧
        callable [.obj [("include", .arr [.str "category"])]] =
          .obj [("id", .str "p1"), ("category", .str "c1")] ∧
        ∀ args, callable args = .obj [("id", .str "p1"), ("category", .str "c1")] :=
  ⟨by decide, fun _ => .obj [("id", .str "p1"), ("category", .str "c1")], rfl, rfl,
    fun _ => rfl⟩

/-! ## Identity, relationship fields and defaults on the write path -/

/-- The record after a write is the record as it was, or the record that the assignment of
setRecordField to the field of the written name gives. -/
theorem set_record_cases (m : Model) (record : Record) (property : PropertyKey) (value : Value)
    (skipValidation : Bool) :
    (set m record property value skipValidation).record = record ∨
      ∃ p f, property = .str p ∧ getField m (.str p) = some f ∧
        setRecordField m.name record f value (hasRelationshipField m (.str p)) =
          .ok (set m record property value skipValidation).record := by
  by_cases hp : hasProperty m property = true
  · left
    simp [set, hp]
  · by_cases hm : hasMethod m property = true
    · left
      simp [set, hp, hm]
    · simp only [Bool.not_eq_true] at hp hm
      cases hfield : hasField m property with
      | false =>
        left
        rw [set_unknown_eq m record property value skipValidation hp hm hfield]
        cases skipValidation with
        | true => rfl
        | false =>
          simp only [Bool.false_eq_true, if_false]
          split <;> rfl
      | true =>
        obtain ⟨p, f, hprop, hf⟩ := getField_of_hasField m property hfield
        subst hprop
        rw [set_field_eq m record p value skipValidation f hp hm hf]
        cases hset : setRecordField m.name record f value (hasRelationshipField m (.str p)) with
        | error e =>
          left
          rfl
        | ok record1 =>
          right
          refine ⟨p, f, rfl, hf, ?_⟩
          simp only []
          split
          · exact hset
          · cases skipValidation with
            | true => exact hset
            | false =>
              simp only [Bool.false_eq_true, if_false]
              split <;> exact hset

theorem setRecordField_keeps_id (modelName : String) (record record1 : Record) (f : Field)
    (value : Value) (isRelationship : Bool) (hname : f.name ≠ "id")
    (h : setRecordField modelName record f value isRelationship = .ok record1) :
    getRecordId record1 = getRecordId record := by
  unfold setRecordField at h
  simp only [] at h
  split at h <;> split at h
  · cases h
  · injection h with h
    subst h
    cases hw : record.wrapped <;>
      simp [getRecordId, getProp_setProp_other _ _ _ _ hname]
  · cases h
  · injection h with h
    subst h
    cases hw : record.wrapped <;>
      simp [getRecordId, getProp_setProp_other _ _ _ _ hname]

/-- C24: in a model none of whose fields is named id, a write through set leaves the identity
of the record as it was, for every record, attribute name, value and skipValidation flag,
whether set returns or throws. -/
theorem set_keeps_id (m : Model) (record : Record) (property : PropertyKey) (value : Value)
    (skipValidation : Bool) (hid : hasField m (.str "id") = false) :
    getRecordId (set m record property value skipValidation).record = getRecordId record := by
  rcases set_record_cases m record property value skipValidation with h | ⟨p, f, _, hf, hset⟩
  · rw [h]
  · have hname : f.name ≠ "id" := by
      intro hn
      have hhas := hasField_of_getField m p f hf
      rw [getField_name m p f hf] at hn
      rw [hn, hid] at hhas
      cases hhas
    exact setRecordField_keeps_id m.name record _ f value _ hname hset

/-- Witness of C24 on the sample model: a write of the field name that returns and a write of
the field age that throws both leave the identity a in place. -/
theorem set_keeps_id_witness :
    (set sampleModel sampleRecord (.str "age") (.str "old") false).result ≠ .ok true ∧
      getRecordId (set sampleModel sampleRecord (.str "name") (.str "c") false).record =
        .str "a" ∧
      getRecordId (set sampleModel sampleRecord (.str "age") (.str "old") false).record =
        .str "a" :=
  ⟨by decide,
    set_keeps_id sampleModel sampleRecord (.str "name") (.str "c") false (by decide),
    set_keeps_id sampleModel sampleRecord (.str "age") (.str "old") false (by decide)⟩

/-- C25, counterexample: on the model with the relationship field category, whose default is
null, a write of undefined to category returns and stores undefined, not the default. -/
theorem set_undefined_on_relationship_field_stores_undefined :
    hasRelationshipField sampleRelationshipModel (.str "category") = true ∧
      getField sampleRelationshipModel (.str "category") =
        some { name := "category", typeCheck := fun _ => true, defaultValue := .null,
               validators := [] } ∧
      (set sampleRelationshipModel sampleRelationshipRecord (.str "category") .undefined
          false).result = .ok true ∧
      getProp (set sampleRelationshipModel sampleRelationshipRecord (.str "category") .undefined
          false).record.recordValue "category" = .undefined :=
  ⟨by decide, rfl, by decide, by decide⟩

/-- C25, amended: a write to a relationship-backed field (a name that is neither a computed
property nor a method) stores the value written as it is, undefined included: the default of
the field is not substituted and the type check is not applied, so the write never throws a
TypeError. The validators are run as for other fields: the write returns true or throws a
validation error, and in both cases the field mapping holds the value written. -/
theorem set_relationship_field_stores_value (m : Model) (record : Record) (p : String)
    (value : Value) (skipValidation : Bool) (f : Field)
    (hp : hasProperty m (.str p) = false) (hm : hasMethod m (.str p) = false)
    (hf : getField m (.str p) = some f)
    (hrel : hasRelationshipField m (.str p) = true) :
    (set m record (.str p) value skipValidation).record.recordValue =
        setProp record.recordValue p value ∧
      ((set m record (.str p) value skipValidation).result = .ok true ∨
        ∃ validatorName, (set m record (.str p) value skipValidation).result =
          .error (validationError m.name (getRecordId record) validatorName)) := by
  rw [set_field_written m record p value skipValidation f hp hm hf (Or.inl hrel)]
  simp only [hrel, Bool.not_true, Bool.false_and, Bool.false_eq_true, if_false, true_and]
  split
  · exact Or.inr ⟨_, rfl⟩
  · cases skipValidation with
    | true => exact Or.inl rfl
    | false =>
      simp only [Bool.false_eq_true, if_false]
      split
      · exact Or.inr ⟨_, rfl⟩
      · exact Or.inl rfl

/-- Witness of C25 on the model with the relationship field category: writes of undefined and
of the number 5 are stored as they are. -/
theorem set_relationship_field_stores_value_witness :
    (set sampleRelationshipModel sampleRelationshipRecord (.str "category") .undefined
        false).record.recordValue = [("id", .str "p1"), ("category", .undefined)] ∧
      (set sampleRelationshipModel sampleRelationshipRecord (.str "category") (.num 5)
        false).record.recordValue = [("id", .str "p1"), ("category", .num 5)] :=
  ⟨(set_relationship_field_stores_value sampleRelationshipModel sampleRelationshipRecord
      "category" .undefined false
      { name := "category", typeCheck := fun _ => true, defaultValue := .null, validators := [] }
      (by decide) (by decide) rfl (by decide)).1,
    (set_relationship_field_stores_value sampleRelationshipModel sampleRelationshipRecord
      "category" (.num 5) false
      { name := "category", typeCheck := fun _ => true, defaultValue := .null, validators := [] }
      (by decide) (by decide) rfl (by decide)).1⟩

theorem setDefaultReads_eq_zero (m : Model) (property : PropertyKey) (value : Value)
    (hvalue : value ≠ .undefined) : setDefaultReads m property value = 0 := by
  have hundef : isUndefined value = false := by
    simp [isUndefined, hvalue]
  unfold setDefaultReads setRecordFieldDefaultReads
  rw [hundef]
  simp only [Bool.and_false, Bool.false_eq_true, if_false]
  split
  · rfl
  · split
    · rfl
    · split
      · split <;> rfl
      · rfl

/-- Every field whose default is read during the loop of createRecord over the field names is
a field for which the data holds undefined. -/
theorem mem_setFieldsDefaultReads (m : Model) (clonedRecord : Value) (n : String) :
    ∀ (names : List String) (newRecord : Record),
      n ∈ setFieldsDefaultReads m clonedRecord names newRecord →
        clonedRecord.getMember n = .undefined
  | [], _ => by
    intro h
    simp [setFieldsDefaultReads] at h
  | field :: rest, newRecord => by
    intro h
    have hreads : n ∈ List.replicate
        (setDefaultReads m (.str field) (clonedRecord.getMember field)) field →
        clonedRecord.getMember n = .undefined := by
      intro hmem
      rw [List.mem_replicate] at hmem
      obtain ⟨hcount, hname⟩ := hmem
      subst hname
      by_contra hne
      exact hcount (setDefaultReads_eq_zero m (.str n) _ hne)
    simp only [setFieldsDefaultReads] at h
    split at h
    · exact hreads h
    · rcases List.mem_append.mp h with h1 | h1
      · exact hreads h1
      · exact mem_setFieldsDefaultReads m clonedRecord n rest _ h1

/-- C26: a write of a value other than undefined never reads the default of a field. The
number of reads of a default during the write is zero; the assignment is the same whatever
the default of the field is; and on a field that is not relationship-backed the type check is
applied to the value itself: the write throws the TypeError of the field when the predicate
refuses the value and stores the value when it accepts it. In the loop of createRecord the
only defaults read are those of fields for which the data holds undefined. -/
theorem set_explicit_value_bypasses_default (m : Model) (record : Record) (p : String)
    (value : Value) (skipValidation : Bool) (f : Field)
    (hvalue : value ≠ .undefined)
    (hp : hasProperty m (.str p) = false) (hm : hasMethod m (.str p) = false)
    (hf : getField m (.str p) = some f) :
    (∀ property, setDefaultReads m property value = 0) ∧
      (∀ d, setRecordField m.name record { f with defaultValue := d } value
          (hasRelationshipField m (.str p)) =
        setRecordField m.name record f value (hasRelationshipField m (.str p))) ∧
      (hasRelationshipField m (.str p) = false → f.typeCheck value = false →
        set m record (.str p) value skipValidation =
          ⟨.error ⟨.TypeError,
            [.val (.str m.name), .lit " record has invalid value for field ",
              .val (.str p), .lit "."]⟩, record⟩) ∧
      (hasRelationshipField m (.str p) = false → f.typeCheck value = true →
        getProp (set m record (.str p) value skipValidation).record.recordValue p = value) ∧
      (∀ clonedRecord names newRecord n,
        n ∈ setFieldsDefaultReads m clonedRecord names newRecord →
          clonedRecord.getMember n = .undefined) := by
  have hundef : isUndefined value = false := by
    simp [isUndefined, hvalue]
  refine ⟨fun property => setDefaultReads_eq_zero m property value hvalue, ?_, ?_, ?_,
    fun clonedRecord names newRecord n => mem_setFieldsDefaultReads m clonedRecord n names
      newRecord⟩
  · intro d
    simp only [setRecordField, hundef, Bool.and_false, Bool.false_eq_true, if_false]
  · intro hrel hty
    rw [set_field_eq m record p value skipValidation f hp hm hf, hrel]
    simp only [setRecordField, hundef, Bool.and_false, Bool.false_eq_true, if_false, hty,
      Bool.not_false, Bool.and_self, if_true, getField_name m p f hf]
  · intro hrel hty
    have hstored : (if isUndefined value then f.defaultValue else value) = value := by
      rw [hundef]
      rfl
    rw [set_field_written m record p value skipValidation f hp hm hf
      (Or.inr (by rw [hstored]; exact hty))]
    simp only [hrel, hundef, Bool.and_false, Bool.false_eq_true, if_false,
      getProp_setProp_same]

/-- Witness of C26 on the sample model: a write of 20 to age, whose default is 18, reads no
default and stores 20, and the creation of a record from data that sets name and age reads
the defaults of level and role only. -/
theorem set_explicit_value_bypasses_default_witness :
    setDefaultReads sampleModel (.str "age") (.num 20) = 0 ∧
      getProp (set sampleModel sampleRecord (.str "age") (.num 20) false).record.recordValue
        "age" = .num 20 ∧
      setFieldsDefaultReads sampleModel
        (.obj [("id", .str "a"), ("name", .str "b"), ("age", .num 20)])
        (getFieldNames sampleModel) (Record.new [("id", .str "a")]) = ["level", "role"] :=
  ⟨(set_explicit_value_bypasses_default sampleModel sampleRecord "age" (.num 20) false
      sampleAgeField (by decide) (by decide) (by decide) rfl).1 (.str "age"),
    (set_explicit_value_bypasses_default sampleModel sampleRecord "age" (.num 20) false
      sampleAgeField (by decide) (by decide) (by decide) rfl).2.2.2.1 (by decide) (by decide),
    by decide⟩

end RecordHandler

/-! ## Type predicates and names -/

/-- C28: the type check of a non-required field, isOptional applied to the predicate of the
field, accepts a value exactly when the value is null or the predicate accepts it. So null is
accepted whatever the predicate is, while undefined is accepted only when the predicate
accepts it: the optional check over the predicate of the test (x is the text test) refuses
undefined. -/
theorem isOptional_undefined_follows_predicate :
    (∀ (type : Value → Bool) (val : Value), isOptional type val = (val == .null || type val)) ∧
      isOptional (fun x => x == .str "test") .null = true ∧
      isOptional (fun x => x == .str "test") .undefined = false := by
  refine ⟨?_, by decide, by decide⟩
  intro type val
  simp only [isOptional, or_, isNull, List.any_cons, List.any_nil, Bool.or_false]

theorem isValidName_fst (name : Value) :
    (isValidName name).1 =
      (documentedNameRestrictions name &&
        match name with
        | .str s => !restrictedNames.contains s
        | _ => true) := by
  cases name with
  | str s =>
    obtain ⟨cs⟩ := s
    cases cs with
    | nil => rfl
    | cons c rest =>
      have hne : ¬ (String.mk (c :: rest) = "") := by
        intro h
        have hlen := congrArg String.length h
        simp [String.length] at hlen
      have hpos : 1 ≤ (String.mk (c :: rest)).length := by
        simp [String.length]
      have hword : ∀ d : Char, isWordChar d = (d.isAlpha || d.isDigit || d == '_') := by
        intro d
        rfl
      cases hdigit : c.isDigit with
      | true =>
        simp [isValidName, documentedNameRestrictions, hne, hdigit]
      | false =>
        cases hres : restrictedNames.contains (String.mk (c :: rest)) with
        | true =>
          have hmem := List.elem_iff.mp hres
          simp [isValidName, documentedNameRestrictions, hne, hdigit, hmem]
        | false =>
          have hmem : String.mk (c :: rest) ∉ restrictedNames := by
            intro h
            have hcontains : restrictedNames.contains (String.mk (c :: rest)) = true :=
              List.elem_iff.mpr h
            rw [hcontains] at hres
            cases hres
          simp [isValidName, documentedNameRestrictions, hne, hdigit, hmem, hpos, hword]
          rfl
  | undefined => rfl
  | null => rfl
  | bool b => rfl
  | num n => rfl
  | date d => rfl
  | arr xs => rfl
  | obj kvs => rfl

/-- C29, counterexample: the name id is a string of two characters that starts with a letter
and is made of letters only, so it meets the four documented restrictions, and validateName
throws a NameError for it: the name is reserved. -/
theorem validateName_rejects_reserved_name :
    documentedNameRestrictions (.str "id") = true ∧
      validateName (.str "id") =
        .error ⟨.NameError,
          [.lit "Name \"", .val (.str "id"), .lit "\" is invalid - ", .lit "is reserved",
            .lit "."]⟩ := by
  decide

/-- C29, amended: validateName returns, and then returns the name itself, exactly when the name
meets the four documented restrictions and is not one of the reserved names toString,
toObject, toJSON and id; in every other case it throws a NameError. -/
theorem validateName_returns_iff (name : Value) :
    (validateName name = .ok name ↔
        documentedNameRestrictions name = true ∧
          ∀ s, name = .str s → s ∉ ["toString", "toObject", "toJSON", "id"]) ∧
      (validateName name = .ok name ∨
        ∃ message, validateName name = .error ⟨.NameError, message⟩) := by
  have hfst := isValidName_fst name
  have hiff : (isValidName name).1 = true ↔
      documentedNameRestrictions name = true ∧
        ∀ s, name = .str s → s ∉ ["toString", "toObject", "toJSON", "id"] := by
    rw [hfst, Bool.and_eq_true]
    apply and_congr_right
    intro _
    cases name with
    | str s =>
      show (!restrictedNames.contains s) = true ↔ _
      constructor
      · intro h t ht hmem
        injection ht with ht
        subst ht
        have hcontains : restrictedNames.contains s = true := List.elem_iff.mpr hmem
        rw [hcontains] at h
        exact absurd h (by decide)
      · intro h
        cases hres : restrictedNames.contains s with
        | true => exact absurd (List.elem_iff.mp hres) (h s rfl)
        | false => rfl
    | undefined => exact ⟨fun _ s hs => (by cases hs), fun _ => rfl⟩
    | null => exact ⟨fun _ s hs => (by cases hs), fun _ => rfl⟩
    | bool b => exact ⟨fun _ s hs => (by cases hs), fun _ => rfl⟩
    | num n => exact ⟨fun _ s hs => (by cases hs), fun _ => rfl⟩
    | date d => exact ⟨fun _ s hs => (by cases hs), fun _ => rfl⟩
    | arr xs => exact ⟨fun _ s hs => (by cases hs), fun _ => rfl⟩
    | obj kvs => exact ⟨fun _ s hs => (by cases hs), fun _ => rfl⟩
  cases hvalid : (isValidName name).1 with
  | true =>
    have hok : validateName name = .ok name := by
      simp only [validateName, hvalid, if_true]
    exact ⟨⟨fun _ => hiff.mp hvalid, fun _ => hok⟩, Or.inl hok⟩
  | false =>
    have herr : validateName name =
        .error ⟨.NameError,
          [.lit "Name \"", .val name, .lit "\" is invalid - ", .lit (isValidName name).2,
            .lit "."]⟩ := by
      simp only [validateName, hvalid, Bool.false_eq_true, if_false]
    refine ⟨⟨fun h => ?_, fun h => ?_⟩, Or.inr ⟨_, herr⟩⟩
    · rw [herr] at h
      cases h
    · rw [hiff.mpr h] at hvalid
      cases hvalid

/-- Witness of C29 on the name aField, which is returned, and on the name 1a, which starts
with a digit and is refused. -/
theorem validateName_returns_iff_witness :
    validateName (.str "aField") = .ok (.str "aField") ∧
      ¬ validateName (.str "1a") = .ok (.str "1a") :=
  ⟨(validateName_returns_iff (.str "aField")).1.mpr
      ⟨by decide, fun s hs => by
        injection hs with hs
        subst hs
        decide⟩,
    fun h => absurd ((validateName_returns_iff (.str "1a")).1.mp h).1 (by decide)⟩

/-! ## Fields, methods and relationships of the model -/

theorem filter_fields_of_not_contains (fields : List Field) (name : Value)
    (h : Model.validateModelContains name (fields.map (fun field => field.name)) = false) :
    fields.filter (fun field => Value.str field.name != name) = fields := by
  rw [List.filter_eq_self]
  intro field hmem
  cases name with
  | str s =>
    simp only [Model.validateModelContains] at h
    have hne : field.name ≠ s := by
      intro heq
      have hin : s ∈ fields.map (fun field => field.name) :=
        List.mem_map.mpr ⟨field, hmem, heq⟩
      have hcontains : (fields.map (fun field => field.name)).contains s = true :=
        List.elem_iff.mpr hin
      rw [hcontains] at h
      cases h
    simp [hne]
  | undefined => simp
  | null => simp
  | bool b => simp
  | num n => simp
  | date d => simp
  | arr xs => simp
  | obj kvs => simp

/-- C30: removeField returns undefined, never false or true: both of its paths end without a
value. The fields are as the claim says: the fields after the call are the fields before it
without the field of the given name, so they are unchanged when no field has that name. On
the sample model the removal of bField, which is not a field, and the removal of age, which
is one, both return undefined, and the second leaves the fields name, level and role. -/
theorem removeField_returns_undefined :
    (∀ (m : Model) (name : Value),
        (Model.removeField m name).result = .ok .undefined ∧
          (Model.removeField m name).model.fields =
            m.fields.filter (fun field => Value.str field.name != name)) ∧
      (Model.removeField sampleModel (.str "bField")).result = .ok .undefined ∧
      (Model.removeField sampleModel (.str "bField")).model.fields.map (fun field => field.name) =
        ["name", "age", "level", "role"] ∧
      (Model.removeField sampleModel (.str "age")).result = .ok .undefined ∧
      (Model.removeField sampleModel (.str "age")).model.fields.map (fun field => field.name) =
        ["name", "level", "role"] := by
  refine ⟨?_, by decide, by decide, by decide, by decide⟩
  intro m name
  unfold Model.removeField
  cases h : Model.validateModelContains name (m.fields.map (fun field => field.name)) with
  | false =>
    simp only [Bool.not_false, if_true, true_and]
    exact (filter_fields_of_not_contains m.fields name h).symm
  | true =>
    simp only [Bool.not_true, Bool.false_eq_true, if_false, true_and]

theorem mem_setFieldEntry (fields : List Field) (field g : Field)
    (h : g ∈ setFieldEntry fields field) : g = field ∨ g ∈ fields := by
  induction fields with
  | nil =>
    simp only [setFieldEntry, List.mem_singleton] at h
    exact Or.inl h
  | cons f rest ih =>
    simp only [setFieldEntry] at h
    split at h
    · rcases List.mem_cons.mp h with h1 | h1
      · exact Or.inl h1
      · exact Or.inr (List.mem_cons_of_mem _ h1)
    · rcases List.mem_cons.mp h with h1 | h1
      · exact Or.inr (h1 ▸ List.mem_cons_self _ _)
      · rcases ih h1 with h2 | h2
        · exact Or.inl h2
        · exact Or.inr (List.mem_cons_of_mem _ h2)

theorem setFieldEntry_mem (fields : List Field) (field : Field) :
    field.name ∈ (setFieldEntry fields field).map (fun f => f.name) := by
  induction fields with
  | nil => simp [setFieldEntry]
  | cons f rest ih =>
    simp only [setFieldEntry]
    split
    · simp
    · rw [List.map_cons]
      exact List.mem_cons_of_mem _ ih

theorem mem_mapSet {α : Type} (entries : List (String × α)) (key : String) (a : α)
    (entry : String × α) (h : entry ∈ mapSet entries key a) :
    entry.1 = key ∨ entry ∈ entries := by
  induction entries with
  | nil =>
    simp only [mapSet, List.mem_singleton] at h
    exact Or.inl (by rw [h])
  | cons e rest ih =>
    obtain ⟨k, b⟩ := e
    simp only [mapSet] at h
    split at h
    · rename_i hk
      rcases List.mem_cons.mp h with h1 | h1
      · exact Or.inl (by rw [h1]; exact hk)
      · exact Or.inr (List.mem_cons_of_mem _ h1)
    · rcases List.mem_cons.mp h with h1 | h1
      · exact Or.inr (h1 ▸ List.mem_cons_self _ _)
      · rcases ih h1 with h2 | h2
        · exact Or.inl h2
        · exact Or.inr (List.mem_cons_of_mem _ h2)

theorem mapSet_mem {α : Type} (entries : List (String × α)) (key : String) (a : α) :
    key ∈ (mapSet entries key a).map (fun entry => entry.1) := by
  induction entries with
  | nil => simp [mapSet]
  | cons e rest ih =>
    obtain ⟨k, b⟩ := e
    simp only [mapSet]
    split
    · rename_i hk
      simp [hk]
    · rw [List.map_cons]
      exact List.mem_cons_of_mem _ ih

theorem keyName_mem_restrictedNames (m : Model) :
    Value.str m.keyName ∈ Model.restrictedNames m := by
  unfold Model.restrictedNames
  exact List.mem_append_left _ (List.mem_append_right _ (List.mem_singleton.mpr rfl))

theorem ne_keyName_of_not_restricted (m : Model) (s : String)
    (h : (Model.restrictedNames m).contains (Value.str s) = false) : s ≠ m.keyName := by
  intro heq
  have hcontains : (Model.restrictedNames m).contains (Value.str s) = true := by
    rw [heq]
    exact List.elem_iff.mpr (keyName_mem_restrictedNames m)
  rw [hcontains] at h
  cases h

/-- The fields after addField: those of before and, when the call got as far as storing the
field, a field whose name is not among the restricted names. -/
theorem addField_fields (makeField : Value → Except JsError Field)
    (hmake : ∀ options field, makeField options = .ok field →
      ∃ s, options.getMember "name" = .str s)
    (m : Model) (fieldOptions : Value) (retrofill : Retrofill) (g : Field)
    (hg : g ∈ (Model.addField makeField m fieldOptions retrofill).model.fields) :
    g ∈ m.fields ∨ g.name ≠ m.keyName := by
  unfold Model.addField Model.parseModelField at hg
  cases hv : validateObjectWithUniqueName "Field" "Model" m.name fieldOptions
      (Model.restrictedNames m) with
  | error e =>
    simp only [hv] at hg
    exact Or.inl hg
  | ok b =>
    cases hmk : makeField fieldOptions with
    | error e =>
      simp only [hv, hmk] at hg
      exact Or.inl hg
    | ok parsed =>
      obtain ⟨s, hs⟩ := hmake fieldOptions parsed hmk
      have hfree : (Model.restrictedNames m).contains (Value.str s) = false := by
        unfold validateObjectWithUniqueName at hv
        split at hv
        · cases hv
        · split at hv
          · cases hv
          · rename_i hcontains
            rw [hs] at hcontains
            simpa [contains] using hcontains
      simp only [hv, hmk, hs] at hg
      have hfield : g ∈ setFieldEntry m.fields { parsed with name := s } := by
        split at hg <;> exact hg
      rcases mem_setFieldEntry _ _ _ hfield with h1 | h1
      · right
        rw [h1]
        exact ne_keyName_of_not_restricted m s hfree
      · exact Or.inl h1

theorem addField_keeps (makeField : Value → Except JsError Field) (m : Model)
    (fieldOptions : Value) (retrofill : Retrofill) :
    (Model.addField makeField m fieldOptions retrofill).model.keyName = m.keyName ∧
      (Model.addField makeField m fieldOptions retrofill).model.relationships =
        m.relationships := by
  unfold Model.addField
  simp only []
  split
  · exact ⟨rfl, rfl⟩
  · split <;> exact ⟨rfl, rfl⟩

/-- What a call keeps: the name of the key is as it was, and the fields and the relationships
are those of before or carry a name other than that of the key. -/
theorem afterCall_keeps (makeField : Value → Except JsError Field)
    (hmake : ∀ options field, makeField options = .ok field →
      ∃ s, options.getMember "name" = .str s)
    (m : Model) (call : ModelCall) :
    (Model.afterCall makeField m call).keyName = m.keyName ∧
      (∀ g ∈ (Model.afterCall makeField m call).fields, g ∈ m.fields ∨ g.name ≠ m.keyName) ∧
      (∀ entry ∈ (Model.afterCall makeField m call).relationships,
        entry ∈ m.relationships ∨ entry.1 ≠ m.keyName) := by
  cases call with
  | addField fieldOptions retrofill =>
    refine ⟨(addField_keeps makeField m fieldOptions retrofill).1,
      fun g hg => addField_fields makeField hmake m fieldOptions retrofill g hg, ?_⟩
    intro entry hentry
    simp only [Model.afterCall, (addField_keeps makeField m fieldOptions retrofill).2] at hentry
    exact Or.inl hentry
  | removeField name =>
    simp only [Model.afterCall, Model.removeField]
    split
    · exact ⟨rfl, fun g hg => Or.inl hg, fun entry hentry => Or.inl hentry⟩
    · exact ⟨rfl, fun g hg => Or.inl (List.mem_of_mem_filter hg),
        fun entry hentry => Or.inl hentry⟩
  | addMethod name method =>
    simp only [Model.afterCall, Model.addMethod]
    split
    · exact ⟨rfl, fun g hg => Or.inl hg, fun entry hentry => Or.inl hentry⟩
    · split <;> exact ⟨rfl, fun g hg => Or.inl hg, fun entry hentry => Or.inl hentry⟩
  | removeMethod name =>
    simp only [Model.afterCall, Model.removeMethod]
    split <;> exact ⟨rfl, fun g hg => Or.inl hg, fun entry hentry => Or.inl hentry⟩
  | addRelationship relationshipName relationshipField relationship =>
    simp only [Model.afterCall, Model.addRelationship]
    split
    · exact ⟨rfl, fun g hg => Or.inl hg, fun entry hentry => Or.inl hentry⟩
    · rename_i hfree
      have hne : relationshipName ≠ m.keyName :=
        ne_keyName_of_not_restricted m relationshipName (by simpa using hfree)
      split
      · exact ⟨rfl, fun g hg => Or.inl hg, fun entry hentry => Or.inl hentry⟩
      · refine ⟨rfl, fun g hg => ?_, fun entry hentry => ?_⟩
        · rcases mem_setFieldEntry _ _ _ hg with h1 | h1
          · right
            rw [h1]
            exact hne
          · exact Or.inl h1
        · rcases mem_mapSet _ _ _ _ hentry with h1 | h1
          · right
            rw [h1]
            exact hne
          · exact Or.inl h1

theorem afterCalls_keeps (makeField : Value → Except JsError Field)
    (hmake : ∀ options field, makeField options = .ok field →
      ∃ s, options.getMember "name" = .str s)
    (calls : List ModelCall) :
    ∀ m : Model,
      (∀ g ∈ m.fields, g.name ≠ m.keyName) →
      (∀ entry ∈ m.relationships, entry.1 ≠ m.keyName) →
      (Model.afterCalls makeField m calls).keyName = m.keyName ∧
        (∀ g ∈ (Model.afterCalls makeField m calls).fields, g.name ≠ m.keyName) ∧
        (∀ entry ∈ (Model.afterCalls makeField m calls).relationships,
          entry.1 ≠ m.keyName) := by
  induction calls with
  | nil =>
    intro m hfields hrels
    exact ⟨rfl, hfields, hrels⟩
  | cons call rest ih =>
    intro m hfields hrels
    obtain ⟨hkey, hf, hr⟩ := afterCall_keeps makeField hmake m call
    have hstep := ih (Model.afterCall makeField m call)
      (fun g hg => by
        rw [hkey]
        rcases hf g hg with h1 | h1
        · exact hfields g h1
        · exact h1)
      (fun entry hentry => by
        rw [hkey]
        rcases hr entry hentry with h1 | h1
        · exact hrels entry h1
        · exact h1)
    rw [hkey] at hstep
    exact hstep

theorem sampleMakeField_name (options : Value) (field : Field)
    (h : sampleMakeField options = .ok field) : ∃ s, options.getMember "name" = .str s := by
  unfold sampleMakeField at h
  split at h
  · rename_i fieldName _ hname _
    exact ⟨fieldName, hname⟩
  · cases h
  · cases h

/-- C27, counterexample: after the call that adds the relationship category to a new model,
category is the name of a field and the name of a relationship of the model. -/
theorem addRelationship_name_is_field_and_relationship :
    (Model.afterCalls sampleMakeField (Model.empty "post" "id" .string)
        [.addRelationship "category"
          { name := "category", typeCheck := fun _ => true, defaultValue := .null,
            validators := [] }
          { get := fun modelName _ _ => .str modelName }]).fields.map
        (fun field => field.name) = ["category"] ∧
      (Model.afterCalls sampleMakeField (Model.empty "post" "id" .string)
        [.addRelationship "category"
          { name := "category", typeCheck := fun _ => true, defaultValue := .null,
            validators := [] }
          { get := fun modelName _ _ => .str modelName }]).relationships.map
        (fun entry => entry.1) = ["category"] := by
  decide

/-- C27, amended: in every state that a new model reaches by calls of addField, removeField,
addMethod, removeMethod and addRelationship, failed calls included, the name of the key is as
it was given, and it is neither the name of a field nor the name of a relationship. The
names of fields and of relationships are not kept apart: a call of addRelationship that
returns has entered its name both among the fields and among the relationships. The
construction of a field is taken to fail on options whose name is not a string. -/
theorem key_name_not_field_nor_relationship (makeField : Value → Except JsError Field)
    (hmake : ∀ options field, makeField options = .ok field →
      ∃ s, options.getMember "name" = .str s)
    (name keyName : String) (keyType : KeyType) (calls : List ModelCall) :
    (Model.afterCalls makeField (Model.empty name keyName keyType) calls).keyName = keyName ∧
      (∀ field ∈ (Model.afterCalls makeField (Model.empty name keyName keyType) calls).fields,
        field.name ≠ keyName) ∧
      (∀ entry ∈
          (Model.afterCalls makeField (Model.empty name keyName keyType) calls).relationships,
        entry.1 ≠ keyName) ∧
      (∀ (m : Model) (relationshipName : String) (relationshipField : Field)
          (relationship : Relationship),
        (Model.addRelationship m relationshipName relationshipField relationship).result =
          .ok .undefined →
        relationshipName ∈
            (Model.addRelationship m relationshipName relationshipField
              relationship).model.fields.map (fun field => field.name) ∧
          relationshipName ∈
            (Model.addRelationship m relationshipName relationshipField
              relationship).model.relationships.map (fun entry => entry.1)) := by
  obtain ⟨hkey, hf, hr⟩ := afterCalls_keeps makeField hmake calls
    (Model.empty name keyName keyType)
    (fun g hg => by simp [Model.empty] at hg)
    (fun entry hentry => by simp [Model.empty] at hentry)
  refine ⟨hkey, hf, hr, ?_⟩
  intro m relationshipName relationshipField relationship hok
  unfold Model.addRelationship at hok ⊢
  split
  · rename_i hc
    rw [if_pos hc] at hok
    cases hok
  · rename_i hc
    rw [if_neg hc] at hok
    split
    · rename_i hc2
      rw [if_pos hc2] at hok
      cases hok
    · exact ⟨setFieldEntry_mem m.fields { relationshipField with name := relationshipName },
        mapSet_mem m.relationships relationshipName relationship⟩

/-- Witness of C27 on the sample calls, among which a call that tries to add a field named id:
afterwards no field and no relationship is named id, and the fields are those of the
relationship category. -/
theorem key_name_not_field_nor_relationship_witness :
    (∀ field ∈ (Model.afterCalls sampleMakeField (Model.empty "post" "id" .string)
        sampleCalls).fields, field.name ≠ "id") ∧
      (Model.afterCalls sampleMakeField (Model.empty "post" "id" .string)
        sampleCalls).fields.map (fun field => field.name) = ["category"] :=
  ⟨(key_name_not_field_nor_relationship sampleMakeField sampleMakeField_name "post" "id" .string
      sampleCalls).2.1,
    by decide⟩

/-! ## Writes that store nothing -/

namespace RecordHandler

/-- C35: when set throws before storing — the name is a computed property or a method, or it
is a field that is not relationship-backed and whose type check refuses the effective value —
the error is a TypeError and the record, its field mapping and its cache of computed
properties included, is exactly as before the call. -/
theorem set_throws_before_storing (m : Model) (record : Record) (property : PropertyKey)
    (value : Value) (skipValidation : Bool)
    (h : hasProperty m property = true ∨ hasMethod m property = true ∨
      ∃ p f, property = .str p ∧ getField m (.str p) = some f ∧
        hasRelationshipField m (.str p) = false ∧
        f.typeCheck (if isUndefined value then f.defaultValue else value) = false) :
    (set m record property value skipValidation).record = record ∧
      ∃ message,
        (set m record property value skipValidation).result =
          .error ⟨.TypeError, message⟩ := by
  by_cases hp : hasProperty m property = true
  · simp [set, hp]
  · by_cases hm : hasMethod m property = true
    · simp [set, hp, hm]
    · simp only [Bool.not_eq_true] at hp hm
      rcases h with h | h | ⟨p, f, hprop, hf, hrel, hty⟩
      · rw [hp] at h
        cases h
      · rw [hm] at h
        cases h
      · subst hprop
        rw [set_field_eq m record p value skipValidation f hp hm hf, hrel]
        simp only [setRecordField, Bool.not_false, Bool.true_and, hty, if_true]
        exact ⟨trivial, _, rfl⟩

/-- Witness of C35 on the sample record, whose cache holds isAdult: a write to the computed
property isAdult and a write of a text to the number field age both throw and leave the
record as it was. -/
theorem set_throws_before_storing_witness :
    (set sampleModel sampleCachedRecord (.str "isAdult") (.bool false) false).record =
        sampleCachedRecord ∧
      (set sampleModel sampleCachedRecord (.str "age") (.str "old") false).record =
        sampleCachedRecord :=
  ⟨(set_throws_before_storing sampleModel sampleCachedRecord (.str "isAdult") (.bool false) false
      (Or.inl (by decide))).1,
    (set_throws_before_storing sampleModel sampleCachedRecord (.str "age") (.str "old") false
      (Or.inr (Or.inr ⟨"age", sampleAgeField, rfl, rfl, by decide, by decide⟩))).1⟩

/-- C38: a write to a name that is neither a field, a computed property nor a method stores
nothing: the record, its field mapping and its cache included, is as it was. The call returns
true exactly when skipValidation is set or every model validator accepts the unchanged
record, and otherwise it throws the validation error of a model validator. -/
theorem set_unknown_name_stores_nothing (m : Model) (record : Record) (property : PropertyKey)
    (value : Value) (skipValidation : Bool)
    (hp : hasProperty m property = false) (hm : hasMethod m property = false)
    (hf : hasField m property = false) :
    (set m record property value skipValidation).record = record ∧
      ((set m record property value skipValidation).result = .ok true ↔
        skipValidation = true ∨
          ∀ entry ∈ m.validators,
            entry.2 record.recordValue (RecordSet.except m.records (getRecordId record)) =
              true) ∧
      ((set m record property value skipValidation).result = .ok true ∨
        ∃ validatorName, (set m record property value skipValidation).result =
          .error (validationError m.name (getRecordId record) validatorName)) := by
  rw [set_unknown_eq m record property value skipValidation hp hm hf]
  cases skipValidation with
  | true => simp
  | false =>
    simp only [Bool.false_eq_true, if_false, false_or]
    cases hfirst : firstFailing m.validators (fun validator =>
        !validator record.recordValue (RecordSet.except m.records (getRecordId record))) with
    | none =>
      have hall := (firstFailing_eq_none_iff _ _).mp hfirst
      refine ⟨rfl, ⟨fun _ entry hentry => ?_, fun _ => rfl⟩, Or.inl rfl⟩
      have hentry2 := hall entry hentry
      simpa using hentry2
    | some validatorName =>
      obtain ⟨validator, hmem, hfails⟩ := firstFailing_some_mem _ _ validatorName hfirst
      refine ⟨rfl, ⟨fun hok => ?_, fun hall => ?_⟩, Or.inr ⟨validatorName, rfl⟩⟩
      · cases hok
      · have haccept := hall (validatorName, validator) hmem
        simp only [] at haccept
        rw [haccept] at hfails
        cases hfails

/-- Witness of C38 on the sample model: a write to the unknown name nickname leaves the record
as it was, and returns true on the sample record, which the model validator accepts. -/
theorem set_unknown_name_stores_nothing_witness :
    (set sampleModel sampleRecord (.str "nickname") (.str "x") false).record = sampleRecord ∧
      (set sampleModel sampleRecord (.str "nickname") (.str "x") false).result = .ok true :=
  ⟨(set_unknown_name_stores_nothing sampleModel sampleRecord (.str "nickname") (.str "x") false
      (by decide) (by decide) (by decide)).1,
    (set_unknown_name_stores_nothing sampleModel sampleRecord (.str "nickname") (.str "x") false
      (by decide) (by decide) (by decide)).2.1.mpr (Or.inr (by decide))⟩

end RecordHandler

/-! ## Cloning and identities -/

/-- C36, counterexample: the clone of the plain object that has the own entries __proto__,
with the value 1, and x lacks the entry __proto__, so it is not structurally equal to the
object. -/
theorem deepClone_drops_proto_entry :
    deepClone (.obj [("__proto__", .num 1), ("x", .num 2)]) = .obj [("x", .num 2)] ∧
      deepClone (.obj [("__proto__", .num 1), ("x", .num 2)]) ≠
        .obj [("__proto__", .num 1), ("x", .num 2)] := by
  refine ⟨by decide, by decide⟩

/-- C36, amended: on a value whose top level is null, a plain object or an array, and none of
whose objects has an own entry under the name __proto__, deepClone returns a structurally
equal value; the nested parts of a value are plain objects, arrays, dates, null or
primitives. So every member that createRecord reads from the clone equals the member of the
data of the caller, and the loop of createRecord over the fields writes the same from the
clone as from the data. -/
theorem deepClone_structurally_equal (v : Value)
    (h : v = .null ∨ (∃ kvs, v = .obj kvs) ∨ ∃ xs, v = .arr xs)
    (hproto : hasNoProtoKey v = true) :
    deepClone v = v ∧
      (∀ field, (deepClone v).getMember field = v.getMember field) ∧
      (∀ (m : Model) (names : List String) (newRecord : Record),
        RecordHandler.setFields m (deepClone v) names newRecord =
          RecordHandler.setFields m v names newRecord) := by
  have hobj : v.typeOf = .object := by
    rcases h with h | ⟨kvs, h⟩ | ⟨xs, h⟩ <;> subst h <;> rfl
  have heq := deepClone_eq_self v hobj hproto
  refine ⟨heq, fun field => by rw [heq], fun m names newRecord => by rw [heq]⟩

/-- Witness of the amended C36 on data with a nested object, an array and a date. -/
theorem deepClone_structurally_equal_witness :
    deepClone (.obj [("id", .str "a"), ("tags", .arr [.str "x", .obj [("n", .num 1)]]),
        ("born", .date 86400000), ("extra", .obj [("deep", .arr [.null, .undefined])])]) =
      .obj [("id", .str "a"), ("tags", .arr [.str "x", .obj [("n", .num 1)]]),
        ("born", .date 86400000), ("extra", .obj [("deep", .arr [.null, .undefined])])] :=
  (deepClone_structurally_equal _ (Or.inr (Or.inl ⟨_, rfl⟩)) (by decide)).1

/-- C40: recordId is total. For every value it returns a boolean and does not throw; it
returns true exactly for the strings that have a character that is not white space; and on a
value that is not a string it returns false after one predicate, the string check, has been
called: the check that trims, which throws on such a value, is not called. -/
theorem recordId_total (val : Value) :
    (∃ b, recordId val = .ok b) ∧
      (recordId val = .ok true ↔
        ∃ s, val = .str s ∧ ∃ c ∈ s.toList, isJsWhitespace c = false) ∧
      ((∀ s, val ≠ .str s) →
        recordId val = .ok false ∧
          andCalled [fun v => .ok (isString v), isNonEmptyString] val = 1 ∧
          ∃ e, isNonEmptyString val = .error e) := by
  refine ⟨⟨_, RecordHandler.recordId_eq val⟩, RecordHandler.recordId_true_iff val, ?_⟩
  intro hnot
  cases val with
  | str s => exact absurd rfl (hnot s)
  | undefined => exact ⟨rfl, rfl, _, rfl⟩
  | null => exact ⟨rfl, rfl, _, rfl⟩
  | bool b => exact ⟨rfl, rfl, _, rfl⟩
  | num n => exact ⟨rfl, rfl, _, rfl⟩
  | date d => exact ⟨rfl, rfl, _, rfl⟩
  | arr xs => exact ⟨rfl, rfl, _, rfl⟩
  | obj kvs => exact ⟨rfl, rfl, _, rfl⟩

/-- Witness of C40 on the number 5, on which the check that trims would throw. -/
theorem recordId_total_witness :
    recordId (.num 5) = .ok false ∧
      andCalled [fun v => .ok (isString v), isNonEmptyString] (.num 5) = 1 :=
  ⟨((recordId_total (.num 5)).2.2 (fun s h => by cases h)).1,
    ((recordId_total (.num 5)).2.2 (fun s h => by cases h)).2.1⟩

/-! ## The validator named by a validation error -/

/-- The loop over validators answers with a name exactly when the validators split into a front
none of which meets the failure test, the validator of that name, which meets it, and the
rest. -/
theorem firstFailing_eq_some_iff (validators : List (String × Validator))
    (fails : Validator → Bool) (validatorName : String) :
    firstFailing validators fails = some validatorName ↔
      ∃ front validator back, validators = front ++ (validatorName, validator) :: back ∧
        fails validator = true ∧ ∀ entry ∈ front, fails entry.2 = false := by
  constructor
  · intro h
    induction validators with
    | nil => simp [firstFailing] at h
    | cons entry rest ih =>
      obtain ⟨n, v⟩ := entry
      by_cases hv : fails v = true
      · simp only [firstFailing, hv, if_true, Option.some.injEq] at h
        subst h
        exact ⟨[], v, rest, rfl, hv, fun entry hentry => by cases hentry⟩
      · simp only [firstFailing, hv, Bool.false_eq_true, if_false] at h
        obtain ⟨front, validator, back, hsplit, hfails, hfront⟩ := ih h
        refine ⟨(n, v) :: front, validator, back, by rw [hsplit]; rfl, hfails, ?_⟩
        intro entry hentry
        rcases List.mem_cons.mp hentry with h1 | h1
        · rw [h1]
          simpa using hv
        · exact hfront entry h1
  · rintro ⟨front, validator, back, hsplit, hfails, hfront⟩
    rw [hsplit, RecordHandler.firstFailing_append front _ fails hfront]
    simp only [firstFailing, hfails, if_true]

namespace RecordHandler

/-- C37, counterexample: on a record of the sample model whose name equals its id, a write of
null to the field level throws an error that names the model validator nameNotEqualToId,
although the field validator integer of level, which comes first, rejects the updated
record: the field validators are not tried when the value stored is null. -/
theorem set_null_error_names_model_validator :
    Validator.integer "level"
        (setProp sampleSameNameRecord.recordValue "level" .null)
        (RecordSet.except sampleModel.records (getRecordId sampleSameNameRecord)) = false ∧
      (set sampleModel sampleSameNameRecord (.str "level") .null false).result =
        .error (validationError "aModel" (.str "a") "nameNotEqualToId") := by
  decide

/-- C37, amended: when a write to a field that has passed the guard on computed properties and
methods and the type check throws, the error is a validation error that carries the identity
of the record and the name of the first validator tried that rejects the updated record. The
validators of the field are tried first, in registration order, but only when the value stored
is neither null nor undefined; when none of them is tried or all accept, and skipValidation is
not set, the model validators are tried in registration order. In createRecord, once the id
is accepted and every field is written, the error names the first model validator, in
registration order, that rejects the new record, and the identity of the new record. -/
theorem validation_error_names_first_rejecting (m : Model) (record : Record) (p : String)
    (value stored : Value) (skipValidation : Bool) (f : Field) (e : JsError)
    (hp : hasProperty m (.str p) = false) (hm : hasMethod m (.str p) = false)
    (hf : getField m (.str p) = some f)
    (hty : hasRelationshipField m (.str p) = true ∨
      f.typeCheck (if isUndefined value then f.defaultValue else value) = true)
    (hstored : stored =
      if !hasRelationshipField m (.str p) && isUndefined value then f.defaultValue else value)
    (herr : (set m record (.str p) value skipValidation).result = .error e) :
    (∃ front validatorName validator back,
        e = validationError m.name (getRecordId record) validatorName ∧
        MsgPart.val (.str validatorName) ∈ e.message ∧
        MsgPart.val (getRecordId record) ∈ e.message ∧
        ((stored ≠ .null ∧ stored ≠ .undefined ∧
            f.validators = front ++ (validatorName, validator) :: back ∧
            validator (setProp record.recordValue p stored)
              (RecordSet.except m.records (getRecordId record)) = false ∧
            ∀ entry ∈ front,
              entry.2 (setProp record.recordValue p stored)
                (RecordSet.except m.records (getRecordId record)) = true) ∨
          ((stored = .null ∨ stored = .undefined ∨
              ∀ entry ∈ f.validators,
                entry.2 (setProp record.recordValue p stored)
                  (RecordSet.except m.records (getRecordId record)) = true) ∧
            skipValidation = false ∧
            m.validators = front ++ (validatorName, validator) :: back ∧
            validator (setProp record.recordValue p stored)
              (RecordSet.except m.records (getRecordId record)) = false ∧
            ∀ entry ∈ front,
              entry.2 (setProp record.recordValue p stored)
                (RecordSet.except m.records (getRecordId record)) = true))) ∧
      (∀ (recordData id : Value) (newRecord : Record) (front back : List (String × Validator))
          (validatorName : String) (validator : Validator),
        recordData.truthy = true → recordData.typeOf = .object →
        validateNewRecordId m.name (recordData.getMember "id") m.records = .ok id →
        setFields m (deepClone recordData) (getFieldNames m) (Record.new [("id", id)]) =
          .ok newRecord →
        m.validators = front ++ (validatorName, validator) :: back →
        validator newRecord.recordValue m.records = false →
        (∀ entry ∈ front, entry.2 newRecord.recordValue m.records = true) →
        createRecord m recordData = .error (validationError m.name id validatorName)) := by
  constructor
  · rw [set_field_written m record p value skipValidation f hp hm hf hty, ← hstored] at herr
    simp only [] at herr
    have hmsg : ∀ n : String,
        MsgPart.val (.str n) ∈ (validationError m.name (getRecordId record) n).message ∧
          MsgPart.val (getRecordId record) ∈
            (validationError m.name (getRecordId record) n).message := by
      intro n
      simp [validationError]
    cases hfield : firstFailing f.validators (fun validator =>
        !([Value.null, Value.undefined].contains stored) &&
          !validator (setProp record.recordValue p stored)
            (RecordSet.except m.records (getRecordId record))) with
    | some n =>
      rw [hfield] at herr
      simp only [Except.error.injEq] at herr
      obtain ⟨front, validator, back, hsplit, hfails, hfront⟩ :=
        (firstFailing_eq_some_iff _ _ n).mp hfield
      simp only [Bool.and_eq_true, Bool.not_eq_true', List.contains_cons, List.contains_nil,
        Bool.or_false, Bool.or_eq_false_iff, beq_eq_false_iff_ne, ne_eq] at hfails
      obtain ⟨⟨hnull, hundef⟩, hrejects⟩ := hfails
      refine ⟨front, n, validator, back, herr.symm, ?_, ?_, Or.inl ⟨?_, ?_, hsplit, hrejects, ?_⟩⟩
      · rw [← herr]
        exact (hmsg n).1
      · rw [← herr]
        exact (hmsg n).2
      · exact hnull
      · exact hundef
      · intro entry hentry
        have hx := hfront entry hentry
        cases haccept : entry.2 (setProp record.recordValue p stored)
            (RecordSet.except m.records (getRecordId record)) with
        | true => rfl
        | false =>
          have hcontains : [Value.null, Value.undefined].contains stored = false := by
            simp only [List.contains_cons, List.contains_nil, Bool.or_false,
              Bool.or_eq_false_iff, beq_eq_false_iff_ne, ne_eq]
            exact ⟨hnull, hundef⟩
          rw [haccept, hcontains] at hx
          cases hx
    | none =>
      rw [hfield] at herr
      simp only [] at herr
      have hall := (firstFailing_eq_none_iff _ _).mp hfield
      have hskipped : stored = .null ∨ stored = .undefined ∨
          ∀ entry ∈ f.validators,
            entry.2 (setProp record.recordValue p stored)
              (RecordSet.except m.records (getRecordId record)) = true := by
        by_cases hnull : stored = .null
        · exact Or.inl hnull
        · by_cases hundef : stored = .undefined
          · exact Or.inr (Or.inl hundef)
          · right
            right
            intro entry hentry
            have hx := hall entry hentry
            have hcontains : [Value.null, Value.undefined].contains stored = false := by
              simp only [List.contains_cons, List.contains_nil, Bool.or_false,
                Bool.or_eq_false_iff, beq_eq_false_iff_ne, ne_eq]
              exact ⟨hnull, hundef⟩
            rw [hcontains] at hx
            simpa using hx
      cases skipValidation with
      | true => simp at herr
      | false =>
        simp only [Bool.false_eq_true, if_false] at herr
        cases hmodel : firstFailing m.validators (fun validator =>
            !validator (setProp record.recordValue p stored)
              (RecordSet.except m.records (getRecordId record))) with
        | none =>
          rw [hmodel] at herr
          cases herr
        | some n =>
          rw [hmodel] at herr
          simp only [Except.error.injEq] at herr
          obtain ⟨front, validator, back, hsplit, hfails, hfront⟩ :=
            (firstFailing_eq_some_iff _ _ n).mp hmodel
          refine ⟨front, n, validator, back, herr.symm, ?_, ?_,
            Or.inr ⟨hskipped, rfl, hsplit, by simpa using hfails, ?_⟩⟩
          · rw [← herr]
            exact (hmsg n).1
          · rw [← herr]
            exact (hmsg n).2
          · intro entry hentry
            simpa using hfront entry hentry
  · intro recordData id newRecord front back validatorName validator htruthy hobj hid hset
      hsplit hrejects hfront
    have hfirst : firstFailing m.validators (fun validator =>
        !validator newRecord.recordValue m.records) = some validatorName :=
      (firstFailing_eq_some_iff _ _ validatorName).mpr
        ⟨front, validator, back, hsplit, by simp [hrejects], fun entry hentry => by
          simp [hfront entry hentry]⟩
    simp only [createRecord, htruthy, hobj, getModelName, hid, hset, getValidators, hfirst,
      Bool.not_true, Bool.false_eq_true, if_false, bne_self_eq_false]

/-- Witness of C37 on a record of the sample model whose name equals its id: a write of 2 to
level throws the error that names nameNotEqualToId and the id a. -/
theorem validation_error_names_first_rejecting_witness :
    (set sampleModel sampleSameNameRecord (.str "level") (.num 2) false).result =
        .error (validationError "aModel" (.str "a") "nameNotEqualToId") ∧
      ∃ front validatorName validator back,
        validationError "aModel" (.str "a") "nameNotEqualToId" =
          validationError sampleModel.name (getRecordId sampleSameNameRecord) validatorName ∧
        MsgPart.val (.str validatorName) ∈
          (validationError "aModel" (.str "a") "nameNotEqualToId").message ∧
        MsgPart.val (getRecordId sampleSameNameRecord) ∈
          (validationError "aModel" (.str "a") "nameNotEqualToId").message ∧
        (((Value.num 2) ≠ .null ∧ (Value.num 2) ≠ .undefined ∧
            sampleLevelField.validators = front ++ (validatorName, validator) :: back ∧
            validator (setProp sampleSameNameRecord.recordValue "level" (.num 2))
              (RecordSet.except sampleModel.records (getRecordId sampleSameNameRecord)) =
                false ∧
            ∀ entry ∈ front,
              entry.2 (setProp sampleSameNameRecord.recordValue "level" (.num 2))
                (RecordSet.except sampleModel.records (getRecordId sampleSameNameRecord)) =
                  true) ∨
          (((Value.num 2) = .null ∨ (Value.num 2) = .undefined ∨
              ∀ entry ∈ sampleLevelField.validators,
                entry.2 (setProp sampleSameNameRecord.recordValue "level" (.num 2))
                  (RecordSet.except sampleModel.records (getRecordId sampleSameNameRecord)) =
                    true) ∧
            false = false ∧
            sampleModel.validators = front ++ (validatorName, validator) :: back ∧
            validator (setProp sampleSameNameRecord.recordValue "level" (.num 2))
              (RecordSet.except sampleModel.records (getRecordId sampleSameNameRecord)) =
                false ∧
            ∀ entry ∈ front,
              entry.2 (setProp sampleSameNameRecord.recordValue "level" (.num 2))
                (RecordSet.except sampleModel.records (getRecordId sampleSameNameRecord)) =
                  true)) :=
  ⟨by decide,
    (validation_error_names_first_rejecting sampleModel sampleSameNameRecord "level" (.num 2)
      (.num 2) false sampleLevelField (validationError "aModel" (.str "a") "nameNotEqualToId")
      (by decide) (by decide) rfl (Or.inr (by decide)) (by decide) (by decide)).1⟩

end RecordHandler

/-! ## Validators, construction and update of the model -/

/-- C32: addValidator never succeeds. For every model, name and validator it throws a
TypeError and leaves the validators of the model as they were: a value that is not a function
is refused as such, and for a function the test of the name calls includes on the map of
validators, which has no such method. So the call of the test, which adds the function
aValidator to a new model, throws and stores nothing. -/
theorem addValidator_always_throws :
    (∀ (m : Model) (name : Value) (validator : Option Validator),
        (∃ message, (Model.addValidator m name validator).result =
          .error ⟨.TypeError, message⟩) ∧
        (Model.addValidator m name validator).model.validators = m.validators) ∧
      (Model.addValidator (Model.empty "aModel" "id" .string) (.str "aValidator")
          (some (fun _ _ => false))).result =
        .error ⟨.TypeError, [.lit "restrictedNames.includes is not a function"]⟩ ∧
      (Model.addValidator (Model.empty "aModel" "id" .string) (.str "aValidator")
          (some (fun _ _ => false))).model.validators.map (fun entry => entry.1) = [] := by
  refine ⟨?_, by decide, by decide⟩
  intro m name validator
  cases validator with
  | none => exact ⟨⟨_, rfl⟩, rfl⟩
  | some v => exact ⟨⟨_, rfl⟩, rfl⟩

/-- C31, evaluated on the model of the tests, whose only field is aField: the call
updateField('bField', { name: 'bField', type: 'number' }), for a name that is not a field of
the model, does not throw. It returns undefined, and afterwards the model has the field
bField next to aField. -/
theorem updateField_of_missing_field_adds_it :
    sampleFieldModel.fields.map (fun field => field.name) = ["aField"] ∧
      (Model.updateField sampleStrictMakeField sampleFieldModel (.str "bField")
        (.obj [("name", .str "bField"), ("type", .str "number")]) .undefined).result =
        .ok .undefined ∧
      (Model.updateField sampleStrictMakeField sampleFieldModel (.str "bField")
        (.obj [("name", .str "bField"), ("type", .str "number")])
        .undefined).model.fields.map (fun field => field.name) = ["aField", "bField"] := by
  decide

theorem removeField_fields (m : Model) (name : Value) :
    (Model.removeField m name).model.fields =
      m.fields.filter (fun field => Value.str field.name != name) := by
  unfold Model.removeField
  cases h : Model.validateModelContains name (m.fields.map (fun field => field.name)) with
  | false =>
    simp only [Bool.not_false, if_true]
    exact (filter_fields_of_not_contains m.fields name h).symm
  | true => simp only [Bool.not_true, Bool.false_eq_true, if_false]

/-- The fields after addField: those of before, or those of before with the field that was
built from the options entered under some name; the flag updatingField is as before. -/
theorem addField_fields_cases (makeField : Value → Except JsError Field) (m : Model)
    (fieldOptions : Value) (retrofill : Retrofill) :
    (Model.addField makeField m fieldOptions retrofill).model.updatingField = m.updatingField ∧
      ((Model.addField makeField m fieldOptions retrofill).model.fields = m.fields ∨
        ∃ parsed newName, makeField fieldOptions = .ok parsed ∧
          (Model.addField makeField m fieldOptions retrofill).model.fields =
            setFieldEntry m.fields { parsed with name := newName }) := by
  unfold Model.addField Model.parseModelField
  cases hv : validateObjectWithUniqueName "Field" "Model" m.name fieldOptions
      (Model.restrictedNames m) with
  | error e => exact ⟨rfl, Or.inl rfl⟩
  | ok b =>
    cases hmk : makeField fieldOptions with
    | error e => exact ⟨rfl, Or.inl rfl⟩
    | ok parsed =>
      simp only []
      cases hname : fieldOptions.getMember "name" with
      | str s =>
        simp only []
        split <;> exact ⟨rfl, Or.inr ⟨parsed, s, rfl, rfl⟩⟩
      | undefined => simp only [] ; split <;> exact ⟨rfl, Or.inr ⟨parsed, parsed.name, rfl, rfl⟩⟩
      | null => simp only [] ; split <;> exact ⟨rfl, Or.inr ⟨parsed, parsed.name, rfl, rfl⟩⟩
      | bool b => simp only [] ; split <;> exact ⟨rfl, Or.inr ⟨parsed, parsed.name, rfl, rfl⟩⟩
      | num n => simp only [] ; split <;> exact ⟨rfl, Or.inr ⟨parsed, parsed.name, rfl, rfl⟩⟩
      | date d => simp only [] ; split <;> exact ⟨rfl, Or.inr ⟨parsed, parsed.name, rfl, rfl⟩⟩
      | arr xs => simp only [] ; split <;> exact ⟨rfl, Or.inr ⟨parsed, parsed.name, rfl, rfl⟩⟩
      | obj kvs => simp only [] ; split <;> exact ⟨rfl, Or.inr ⟨parsed, parsed.name, rfl, rfl⟩⟩

/-- C39, counterexample: on the model of the tests, whose only field is aField, the call
updateField('aField', { name: 'aField', type: 'test' }) throws, because the type test is
refused; afterwards the model has no field, the field aField having been removed. -/
theorem updateField_failure_loses_field :
    sampleFieldModel.fields.map (fun field => field.name) = ["aField"] ∧
      (Model.updateField sampleStrictMakeField sampleFieldModel (.str "aField")
        (.obj [("name", .str "aField"), ("type", .str "test")]) .undefined).result =
        .error ⟨.TypeError, [.lit "Field type is invalid."]⟩ ∧
      (Model.updateField sampleStrictMakeField sampleFieldModel (.str "aField")
        (.obj [("name", .str "aField"), ("type", .str "test")])
        .undefined).model.fields.map (fun field => field.name) = [] := by
  decide

/-- C39, amended: when updateField throws at its first check, on a field that is null or
undefined or whose name is not the given name, the fields of the model are as they were.
When it throws later, from the addition of the new field, the previous field has been
removed and is not restored: the fields are those of before without the field of the given
name, with the newly built field when the addition threw after storing it. -/
theorem updateField_failure_state (makeField : Value → Except JsError Field) (m : Model)
    (name field : Value) (retrofill : Retrofill) (e : JsError)
    (herr : (Model.updateField makeField m name field retrofill).result = .error e) :
    ((field = .null ∨ field = .undefined ∨ field.getMember "name" ≠ name) ∧
        (Model.updateField makeField m name field retrofill).model.fields = m.fields) ∨
      (field.getMember "name" = name ∧
        ((Model.updateField makeField m name field retrofill).model.fields =
            m.fields.filter (fun g => Value.str g.name != name) ∨
          ∃ parsed newName, makeField field = .ok parsed ∧
            (Model.updateField makeField m name field retrofill).model.fields =
              setFieldEntry (m.fields.filter (fun g => Value.str g.name != name))
                { parsed with name := newName })) := by
  unfold Model.updateField at herr ⊢
  by_cases hnull : (field == .null || field == .undefined) = true
  · left
    simp only [hnull, if_true]
    simp only [Bool.or_eq_true, beq_iff_eq] at hnull
    refine ⟨?_, trivial⟩
    rcases hnull with h | h
    · exact Or.inl h
    · exact Or.inr (Or.inl h)
  · by_cases hname : (field.getMember "name" != name) = true
    · left
      simp only [hnull, hname, if_true, Bool.false_eq_true, if_false]
      exact ⟨Or.inr (Or.inr (by simpa using hname)), trivial⟩
    · right
      simp only [hnull, hname, Bool.false_eq_true, if_false] at herr ⊢
      have hnameEq : field.getMember "name" = name := by simpa using hname
      have hremovedFields :
          (Model.removeField { m with updatingField := true } name).model.fields =
            m.fields.filter (fun g => Value.str g.name != name) :=
        removeField_fields { m with updatingField := true } name
      obtain ⟨_, haddFields⟩ := addField_fields_cases makeField
        (Model.removeField { m with updatingField := true } name).model field retrofill
      cases hadded : (Model.addField makeField
          (Model.removeField { m with updatingField := true } name).model field
          retrofill).result with
      | ok newField =>
        rw [hadded] at herr
        cases herr
      | error e1 =>
        simp only [hadded]
        refine ⟨hnameEq, ?_⟩
        rcases haddFields with h | ⟨parsed, newName, hmk, h⟩
        · left
          rw [h, hremovedFields]
        · right
          exact ⟨parsed, newName, hmk, by rw [h, hremovedFields]⟩

/-- Witness of the amended C39 on the model of the tests: the update of aField with the type
test throws after the removal, and the fields afterwards are those of before without
aField. -/
theorem updateField_failure_state_witness :
    (Model.updateField sampleStrictMakeField sampleFieldModel (.str "aField")
        (.obj [("name", .str "aField"), ("type", .str "test")]) .undefined).result =
        .error ⟨.TypeError, [.lit "Field type is invalid."]⟩ ∧
      ((((Value.obj [("name", .str "aField"), ("type", .str "test")]) = .null ∨
          (Value.obj [("name", .str "aField"), ("type", .str "test")]) = .undefined ∨
          (Value.obj [("name", .str "aField"), ("type", .str "test")]).getMember "name" ≠
            .str "aField") ∧
        (Model.updateField sampleStrictMakeField sampleFieldModel (.str "aField")
          (.obj [("name", .str "aField"), ("type", .str "test")]) .undefined).model.fields =
          sampleFieldModel.fields) ∨
      ((Value.obj [("name", .str "aField"), ("type", .str "test")]).getMember "name" =
          .str "aField" ∧
        ((Model.updateField sampleStrictMakeField sampleFieldModel (.str "aField")
            (.obj [("name", .str "aField"), ("type", .str "test")])
            .undefined).model.fields =
            sampleFieldModel.fields.filter (fun g => Value.str g.name != .str "aField") ∨
          ∃ parsed newName,
            sampleStrictMakeField (.obj [("name", .str "aField"), ("type", .str "test")]) =
              .ok parsed ∧
            (Model.updateField sampleStrictMakeField sampleFieldModel (.str "aField")
              (.obj [("name", .str "aField"), ("type", .str "test")])
              .undefined).model.fields =
              setFieldEntry
                (sampleFieldModel.fields.filter (fun g => Value.str g.name != .str "aField"))
                { parsed with name := newName }))) :=
  ⟨by decide,
    updateField_failure_state sampleStrictMakeField sampleFieldModel (.str "aField")
      (.obj [("name", .str "aField"), ("type", .str "test")]) .undefined
      ⟨.TypeError, [.lit "Field type is invalid."]⟩ (by decide)⟩

/-- C34, evaluated on the names of the test and on every other name: with no model registered
and the other options at their defaults, the constructor does not throw for any name of the
options, valid or not. The name that it validates is the text Model, which is valid; the
model it returns is named Model and is registered under Model. This is so for null,
undefined, the empty name, a blank, 1 and a&1*b. -/
theorem construct_accepts_every_name :
    (∀ name : Value,
        (match (Model.construct sampleStrictMakeField sampleMakeKeyField []
            { name := name }).result with
          | .ok m => some m.name
          | .error _ => none) = some "Model" ∧
        (Model.construct sampleStrictMakeField sampleMakeKeyField []
          { name := name }).instances.map (fun entry => entry.1) = ["Model"]) ∧
      (match (Model.construct sampleStrictMakeField sampleMakeKeyField []
          { name := .null }).result with
        | .ok m => some m.name
        | .error _ => none) = some "Model" ∧
      (match (Model.construct sampleStrictMakeField sampleMakeKeyField []
          { name := .str "a&1*b" }).result with
        | .ok m => some m.name
        | .error _ => none) = some "Model" := by
  refine ⟨?_, rfl, rfl⟩
  intro name
  cases name <;> exact ⟨rfl, rfl⟩

/-! ## Retrofill of a required field -/

/-- C33, evaluated on the required field count, added with the default 5 and no retrofill
argument. The record that holds 3 for count keeps 3. The record that holds 0 for count, a
value that it already holds, does not keep it: afterwards it holds the default 5. -/
theorem addField_required_replaces_falsy_value :
    sampleCounterThreeModel.records.map (fun entry => getProp entry.2.recordValue "count") =
        [.num 3] ∧
      ((Model.addField sampleStrictMakeField sampleCounterThreeModel
          (.obj [("name", .str "count"), ("type", .str "number"), ("required", .bool true),
            ("defaultValue", .num 5)]) .undefined).model.records.map
        (fun entry => getProp entry.2.recordValue "count")) = [.num 3] ∧
      sampleCounterModel.records.map (fun entry => getProp entry.2.recordValue "count") =
        [.num 0] ∧
      ((Model.addField sampleStrictMakeField sampleCounterModel
          (.obj [("name", .str "count"), ("type", .str "number"), ("required", .bool true),
            ("defaultValue", .num 5)]) .undefined).model.records.map
        (fun entry => getProp entry.2.recordValue "count")) = [.num 5] := by
  decide

end Jedql
